import Mathlib

/-!
# Verification development for `lib/common/input.c` (graphviz)

A shallow embedding of the command-line option grammar (`getFlagOpt`,
`dotneato_args_initialize`), the graph input stream (`gvNextInputGraph`) and the
attribute readers (`getdoubles2ptf`) of `lib/common/input.c`, together with
theorems on their behaviour.

Conventions of the embedding

* A C string is the list of the characters that precede its terminating NUL
  (`CStr`); the test `s[k] != '\0'` of the source is therefore `k < s.length`
  and the pointer `s + k` is `s.drop k`.
* A pointer that may be `NULL` is an `Option`.
* Static and global variables of the source are fields of explicit state records.
* `int` counters are unbounded naturals: no loop of this file can bring one of
  them near `INT_MAX` in fewer than 2^31 calls.
* A `double` is the rational number it denotes (`Double`); NaN and the
  infinities are not represented.
-/

namespace Graphviz

/-! ## C strings -/

/-- A C string: the characters before the terminating NUL. -/
abbrev CStr := List Char

/-- The test `s[k] != 0` for a C string `s` and an offset `k` inside the string or on
its terminator. -/
def CStr.nonNulAt (s : CStr) (k : Nat) : Bool := decide (k < s.length)

/-- The test `*s == c` (first character of `s` equals `c`, where `c` is not NUL). -/
def CStr.startsWith (s : CStr) (c : Char) : Bool := s.head? == some c

/-! ## `getFlagOpt` (input.c, lines 90-113) -/

/-- The observable effect of one call of `getFlagOpt`: the returned pointer
(`none` is `NULL`), the cursor `*idx` after the call and the argument vector after
the call. -/
structure FlagOpt where
  ret : Option CStr
  idx : Nat
  argv : List CStr
deriving DecidableEq, Repr

/-- Embedding of
```
static char *getFlagOpt(int argc, char **argv, int *idx)
{
    int i = *idx;
    char *arg = argv[i];

    if (arg[2])
        return arg + 2;
    if (i < argc - 1) {
        i++;
        arg = argv[i];
        if (*arg && (*arg != '-')) {
            *idx = i;
            return arg;
        }
    }
    return 0;
}
```
The source assumes that `argv[*idx]` has the form `-x...`; a token read outside
`argv` is taken as the empty string. -/
def getFlagOpt (argc : Nat) (argv : List CStr) (idx : Nat) : FlagOpt :=
  let i := idx
  let arg := argv.getD i []
  if arg.nonNulAt 2 then
    { ret := some (arg.drop 2), idx := idx, argv := argv }
  else if i < argc - 1 then
    let i := i + 1
    let arg := argv.getD i []
    if arg.nonNulAt 0 && !(arg.startsWith '-') then
      { ret := some arg, idx := i, argv := argv }
    else
      { ret := none, idx := idx, argv := argv }
  else
    { ret := none, idx := idx, argv := argv }

/-! ## C library functions used by the source

The functions `atoi`, `atof` and the `%lf` conversion of `sscanf` belong to the C
library, not to the program.  The program is embedded relative to an environment
`Env` that supplies them; `libc` is a concrete environment for decimal input. -/

/-- A `double`, represented by the rational number it denotes. -/
abbrev Double := ℚ

/-- C `isspace` in the "C" locale. -/
def isspace (c : Char) : Bool :=
  c == ' ' || c == '\t' || c == '\n' || c == '\x0b' || c == '\x0c' || c == '\r'

/-- C `isdigit`. -/
def isdigit (c : Char) : Bool := decide (48 ≤ c.toNat) && decide (c.toNat ≤ 57)

/-- Value of a string of decimal digits. -/
def digitsVal (ds : List Char) : Nat := ds.foldl (fun a c => 10 * a + (c.toNat - 48)) 0

/-- An optional sign: `(negative?, rest)`. -/
def scanSign : CStr → Bool × CStr
  | '-' :: t => (true, t)
  | '+' :: t => (false, t)
  | s => (false, s)

/-- A scanned decimal literal: sign, digits of the mantissa and decimal exponent. -/
structure DecLit where
  neg : Bool
  mant : Nat
  exp : Int
deriving DecidableEq, Repr

/-- The number denoted by a decimal literal. -/
def DecLit.val (d : DecLit) : Double :=
  (if d.neg then -1 else 1) * (d.mant : ℚ) * (10 : ℚ) ^ d.exp

/-- The optional exponent part `e[+-]ddd` of a decimal literal: `(exponent, rest)`. -/
def scanExp : CStr → Int × CStr
  | c :: t =>
    if c == 'e' || c == 'E' then
      let sg := scanSign t
      let ds := sg.2.span isdigit
      if ds.1.isEmpty then (0, c :: t)
      else ((if sg.1 then - (digitsVal ds.1 : Int) else (digitsVal ds.1 : Int)), ds.2)
    else (0, c :: t)
  | [] => (0, [])

/-- The longest prefix of `s` that is a decimal floating literal
`[+-]? (d+ (. d*)? | . d+) (e [+-]? d+)?`, with the rest of the string; `none` when
no such prefix exists.  Hexadecimal literals, `inf` and `nan` are not modelled. -/
def scanDecimal (s : CStr) : Option (DecLit × CStr) :=
  let sg := scanSign s
  let ip := sg.2.span isdigit
  let fp : List Char × CStr :=
    match ip.2 with
    | '.' :: t => t.span isdigit
    | r => ([], r)
  if ip.1.isEmpty && fp.1.isEmpty then none
  else
    let e := scanExp fp.2
    some ({ neg := sg.1, mant := digitsVal (ip.1 ++ fp.1), exp := e.1 - fp.1.length }, e.2)

/-- Result of one `%lf` conversion of `sscanf`: input failure (end of input
before any character of the number), matching failure, or a value together with the
unread rest of the input. -/
inductive Scan where
  | eof
  | fail
  | ok (v : Double) (rest : CStr)
deriving DecidableEq

/-- The `%lf` conversion on decimal input: white space is skipped first. -/
def scan_lf (s : CStr) : Scan :=
  match s.dropWhile isspace with
  | [] => .eof
  | c :: t =>
    match scanDecimal (c :: t) with
    | none => .fail
    | some (d, rest) => .ok d.val rest

/-- C `atof` on decimal input: `strtod(s, NULL)`, which is 0 when no number is found. -/
def atof (s : CStr) : Double :=
  match scanDecimal (s.dropWhile isspace) with
  | none => 0
  | some (d, _) => d.val

/-- Conversion of a `long` value to `int`: the low 32 bits, two's complement. -/
def toInt32 (z : Int) : Int := (z + 2147483648) % 4294967296 - 2147483648

/-- C `atoi` as `(int) strtol(s, NULL, 10)` with a 64-bit `long`: white space, an
optional sign and decimal digits; `strtol` saturates at the range of `long` and the
cast keeps the low 32 bits.  (The C standard leaves `atoi` undefined when the value
does not fit an `int`.) -/
def atoi (s : CStr) : Int :=
  let sg := scanSign (s.dropWhile isspace)
  let ds := sg.2.span isdigit
  let v : Int := if sg.1 then - (digitsVal ds.1 : Int) else (digitsVal ds.1 : Int)
  toInt32 (max (-9223372036854775808) (min 9223372036854775807 v))

/-- What the program takes from outside `input.c`: C library conversions and the
plugin registry. -/
structure Env where
  /-- C `atoi`. -/
  atoi : CStr → Int
  /-- C `atof`. -/
  atof : CStr → Double
  /-- The `%lf` conversion of `sscanf`. -/
  scan_lf : CStr → Scan
  /-- Whether the format registry knows an output format
  (`gvjobs_output_langname` returns non-zero). -/
  device : CStr → Bool
  /-- Whether the layout registry knows a layout engine
  (`gvlayout_select` does not return `NO_SUPPORT`). -/
  layout : CStr → Bool

/-- A concrete environment: the decimal C library model and a registry that
knows the formats `dot`, `ps`, `svg` and the layouts `dot`, `neato`. -/
def libc : Env where
  atoi := atoi
  atof := atof
  scan_lf := scan_lf
  device := fun s => s == "dot".toList || s == "ps".toList || s == "svg".toList
  layout := fun s => s == "dot".toList || s == "neato".toList

/-! ## State of `dotneato_args_initialize` -/

/-- Error levels of `agerr` / `agseterr` (`agerrlevel_t`). -/
inductive agerrlevel_t where
  | AGWARN
  | AGERR
  | AGMAX
  | AGPREV
deriving DecidableEq, Repr

/-- Kinds of default attribute declarations (`-G`, `-N`, `-E`). -/
inductive AttrKind where
  | AGRAPH
  | AGNODE
  | AGEDGE
deriving DecidableEq, Repr

/-- One default attribute declared by `global_def`. -/
structure AttrDecl where
  kind : AttrKind
  name : CStr
  value : CStr
  fixed : Bool
deriving DecidableEq, Repr

/-- The diagnostics written by `dotneato_args_initialize` and `dotneato_usage`. -/
inductive Msg where
  /-- The banner `"%s - %s version %s (%s)\n"`. -/
  | version
  /-- The text `"Missing argument for -%c flag\n"`. -/
  | missingArg (flag : Char)
  /-- The usage text written by `dotneato_usage`. -/
  | usage
  /-- The text `"Format: \"%s\" not recognized. Use one of:%s\n"`. -/
  | formatNotRecognized (val : CStr)
  /-- The text `"Layout type: \"%s\" not recognized. Use one of:%s\n"`. -/
  | layoutNotRecognized (val : CStr)
  /-- The text `"Invalid parameter \"%s\" for -q flag - ignored\n"`. -/
  | invalidQ (arg : CStr)
  /-- The text `"Invalid parameter \"%s\" for -s flag\n"`. -/
  | invalidS (arg : CStr)
  /-- The text `"%s: option -%c unrecognized\n\n"`. -/
  | unrecognized (c : Char)
deriving DecidableEq, Repr

/-- The memory that `dotneato_args_initialize` reads and writes: the argument
vector, the fields of `GVC_t` it touches, the globals it feeds, and the two output
streams. -/
structure State where
  /-- The argument vector `argv[0 .. argc-1]`. -/
  argv : List CStr
  /-- Field `gvc->common.cmdname`. -/
  cmdname : CStr
  /-- Field `gvc->common.verbose`. -/
  verbose : Bool
  /-- Field `gvc->common.config`. -/
  config : Bool
  /-- Field `gvc->common.auto_outfile_names`. -/
  auto_outfile_names : Bool
  /-- Field `gvc->common.lib` (`NULL` is the empty list). -/
  lib : List CStr
  /-- Global `Lib`, the library array of `use_library`; its static `cnt` is the length. -/
  Lib : List CStr
  /-- Field `gvc->input_filenames`: the allocated slots, `none` being a zeroed slot. -/
  input_filenames : List (Option CStr)
  /-- Field `gvc->jobs->output_langname` (`none` when there is no job or no name). -/
  output_langname : Option CStr
  /-- The output file name given to `gvjobs_output_filename`. -/
  output_filename : Option CStr
  /-- The layout engine chosen by `gvlayout_select`. -/
  layout : Option CStr
  /-- Default attributes declared through `agattr` / `agraphattr` / `agnodeattr` /
  `agedgeattr`, oldest first. -/
  decls : List AttrDecl
  /-- Whether the static `P_graph` has been set by `-P`. -/
  P_graph : Bool
  /-- The level set by `agseterr`. -/
  agerrlevel : agerrlevel_t
  /-- Global `PSinputscale`. -/
  PSinputscale : Double
  /-- Global `Reduce`. -/
  Reduce : Bool
  /-- Global `Y_invert`. -/
  Y_invert : Bool
  /-- Global `Verbose`. -/
  Verbose : Bool
  /-- Global `CmdName`. -/
  CmdName : CStr
  /-- What has been written to `stderr`, oldest first. -/
  stderr : List Msg
  /-- What has been written to `stdout`, oldest first. -/
  stdout : List Msg

/-! ## Process outcomes -/

/-- How a computation of the program ends: it returns a value, the process is
terminated by `exit(code)`, an `assert` fails, an array is accessed outside its
bounds (`fault`), or the fuel of a loop of the embedding runs out (`timeout`,
which `dotneato_args_initialize_total` shows never to happen for the fuel the
embedding supplies).  `exit` and `abort` carry the state at termination. -/
inductive Outcome (α : Type) where
  | ret (a : α)
  | exit (code : Int) (st : State)
  | abort (st : State)
  | fault
  | timeout

/-- Sequencing: the continuation runs only when the first computation returns. -/
def Outcome.bind {α β : Type} (o : Outcome α) (f : α → Outcome β) : Outcome β :=
  match o with
  | .ret a => f a
  | .exit c st => .exit c st
  | .abort st => .abort st
  | .fault => .fault
  | .timeout => .timeout

/-- The exit code, when the process was terminated by `exit`. -/
def Outcome.exitCode {α : Type} : Outcome α → Option Int
  | .exit c _ => some c
  | _ => none

/-- Whether the computation returned to its caller. -/
def Outcome.returned {α : Type} : Outcome α → Bool
  | .ret _ => true
  | _ => false

/-- The state in which a computation on states ended, when there is one. -/
def Outcome.state : Outcome State → Option State
  | .ret s => some s
  | .exit _ s => some s
  | .abort s => some s
  | _ => none

/-- Modelled from the spec: the macro `POINTS_PER_INCH` (defined outside
`input.c`), "the fixed points-per-inch default", 72 ("3×72 and 4×72"); the usage
text of the source gives the same value for the default of `-s` ("Scale input by
'v' (=72)"). -/
def POINTS_PER_INCH : Double := 72

/-- Writing a diagnostic to `stderr`. -/
def State.err (st : State) (m : Msg) : State := { st with stderr := st.stderr ++ [m] }

/-- Embedding of
```
void dotneato_usage(int exval)
{
    FILE *outs;
    if (exval > 0) outs = stderr; else outs = stdout;
    fprintf(outs, usageFmt, CmdName); ... fputs(configItems, outs);
    if (exval >= 0)
        exit(exval);
}
``` -/
def dotneato_usage (exval : Int) (st : State) : Outcome State :=
  let st :=
    if exval > 0 then { st with stderr := st.stderr ++ [Msg.usage] }
    else { st with stdout := st.stdout ++ [Msg.usage] }
  if exval ≥ 0 then .exit exval st else .ret st

/-! ## `dotneato_basename` (input.c, lines 115-156, build without `WIN32`) -/

/-- The test `(*s == '/') || (*s == '\\')` on the character at offset `s`. -/
def isSepAt (path : CStr) (s : Nat) : Bool :=
  path.getD s '\x00' == '/' || path.getD s '\x00' == '\\'

/-- The loop `while ((s > path) && ((*s == '/') || (*s == '\\'))) *s-- = '\0';`:
the string after the trailing separators have been overwritten by NUL, and the
final offset `s`. -/
def skipTrailing (path : CStr) : Nat → CStr × Nat
  | 0 => (path, 0)
  | s + 1 => if isSepAt path (s + 1) then skipTrailing (path.take (s + 1)) s else (path, s + 1)

/-- The loop `while ((s > path) && ((*s != '/') && (*s != '\\'))) s--;`. -/
def scanLeft (path : CStr) : Nat → Nat
  | 0 => 0
  | s + 1 => if !(isSepAt path (s + 1)) then scanLeft path s else s + 1

/-- Embedding of `dotneato_basename`: the returned string and the string left in
the caller's buffer `path` (trailing separators are overwritten in place).
```
    char* s = path;
    if (*s == '\0') return path;
    while (*s) s++; s--;
    while ((s > path) && ((*s == '/') || (*s == '\\'))) *s-- = '\0';
    if (s == path) ret = path;
    else {
        while ((s > path) && ((*s != '/') && (*s != '\\'))) s--;
        if ((*s == '/') || (*s == '\\')) ret = s+1;
        else ret = path;
    }
    return ret;
``` -/
def dotneato_basename (path : CStr) : CStr × CStr :=
  if path.isEmpty then (path, path)
  else
    let r := skipTrailing path (path.length - 1)
    let path := r.1
    let s := r.2
    if s == 0 then (path, path)
    else
      let s := scanLeft path s
      if isSepAt path s then (path.drop (s + 1), path) else (path, path)

/-! ## Helpers of `dotneato_args_initialize` -/

/-- Embedding of
```
static void use_library(GVC_t *gvc, const char *name)
{
    static int cnt = 0;
    if (name) {
        Lib = ALLOC(cnt + 2, Lib, const char *);
        Lib[cnt++] = name;
        Lib[cnt] = NULL;
    }
    gvc->common.lib = Lib;
}
``` -/
def use_library (name : Option CStr) (st : State) : State :=
  let st :=
    match name with
    | some n => { st with Lib := st.Lib ++ [n] }
    | none => st
  { st with lib := st.Lib }

/-- Embedding of `global_def(dcl, kind, dclfun)`, where `dcl` points at offset 2 of
`argv[i]`:
```
    char *p;
    char *rhs = "true";
    attrsym_t *sym;
    if ((p = strchr(dcl, '='))) {
        *p++ = '\0';
        rhs = p;
    }
    sym = dclfun(NULL, kind, dcl, rhs);
    sym->fixed = 1;
```
The declaration is appended to `decls`; the NUL written over the `=` cuts the
token `argv[i]` there. -/
def global_def (i : Nat) (kind : AttrKind) (st : State) : State :=
  let tok := st.argv.getD i []
  let dcl := tok.drop 2
  let name := dcl.takeWhile (fun c => c != '=')
  let p := dcl.dropWhile (fun c => c != '=')
  let rhs : CStr := if p.isEmpty then "true".toList else p.drop 1
  let argv := if p.isEmpty then st.argv else st.argv.set i (tok.take 2 ++ name)
  { st with argv := argv, decls := st.decls ++ [{ kind := kind, name := name, value := rhs, fixed := true }] }

/-- Modelled from the spec: `gvjobs_output_langname` (defined outside `input.c`),
"select output format by name via the format registry": the name is recorded as
the output format and the result tells whether the registry knows it. -/
def gvjobs_output_langname (env : Env) (name : CStr) (st : State) : Bool × State :=
  (env.device name, { st with output_langname := some name })

/-- Modelled from the spec: `gvlayout_select` (defined outside `input.c`), "select
layout engine by name via the layout registry": a known name becomes the layout
engine; the result tells whether the name is known (`false` is `NO_SUPPORT`). -/
def gvlayout_select (env : Env) (name : CStr) (st : State) : Bool × State :=
  if env.layout name then (true, { st with layout := some name }) else (false, st)

/-- Modelled from the spec: `gvjobs_output_filename` (defined outside `input.c`),
"set explicit output filename". -/
def gvjobs_output_filename (name : Option CStr) (st : State) : State :=
  { st with output_filename := name }

/-- Modelled from the spec: `agseterr` (defined outside `input.c`), "set
error-suppression level". -/
def agseterr (lvl : agerrlevel_t) (st : State) : State :=
  { st with agerrlevel := lvl }

/-! ## `dotneato_args_initialize` (input.c, lines 224-411, build with `WITH_CGRAPH`) -/

/-- The local variables `i` and `nfiles` of `dotneato_args_initialize`, together
with the memory. -/
structure Loop where
  i : Nat
  nfiles : Nat
  st : State

/-- The statement `val = getFlagOpt(argc, argv, &i);`. -/
def flagArg (argc : Nat) (l : Loop) : Option CStr × Loop :=
  let r := getFlagOpt argc l.st.argv l.i
  (r.ret, { l with i := r.idx, st := { l.st with argv := r.argv } })

/-- Body of the scanning loop of `dotneato_args_initialize` for the token
`argv[i]` (the increment `i++` of the `for` statement is left to `args_loop`):
```
	if (argv[i] && argv[i][0] == '-') {
	    rest = &(argv[i][2]);
	    switch (c = argv[i][1]) {
	    case 'G': if (*rest) global_def(rest, AGRAPH, agattr);
		else { fprintf(stderr, "Missing argument for -G flag\n"); dotneato_usage(1); }
		break;
	    case 'N': ... case 'E': ...
	    case 'T': val = getFlagOpt(argc, argv, &i);
		if (!val) { fprintf(stderr, "Missing argument for -T flag\n"); dotneato_usage(1); exit(1); }
		v = gvjobs_output_langname(gvc, val);
		if (!v) { fprintf(stderr, "Format: ..."); exit(1); }
		break;
	    case 'K': ... gvlayout_select(gvc, val) ...
	    case 'P': P_graph = gvplugin_graph(gvc); break;
	    case 'V': fprintf(stderr, "%s - %s version %s (%s)\n", ...); exit(0); break;
	    case 'l': val = getFlagOpt(argc, argv, &i);
		if (!val) { fprintf(stderr, "Missing argument for -l flag\n"); dotneato_usage(1); }
		use_library(gvc, val);
		break;
	    case 'o': val = getFlagOpt(argc, argv, &i);
		if (! gvc->common.auto_outfile_names) gvjobs_output_filename(gvc, val);
		break;
	    case 'q': if (*rest) { v = atoi(rest);
		    if (v <= 0) { fprintf(stderr, "Invalid parameter \"%s\" for -q flag - ignored\n", rest); }
		    else if (v == 1) agseterr(AGERR);
		    else agseterr(AGMAX);
		} else agseterr(AGERR);
		break;
	    case 's': if (*rest) { PSinputscale = atof(rest);
		    if (PSinputscale <= 0) { fprintf(stderr, "Invalid parameter \"%s\" for -s flag\n", rest);
			dotneato_usage(1); }
		} else PSinputscale = POINTS_PER_INCH;
		break;
	    case 'x': Reduce = TRUE; break;
	    case 'y': Y_invert = TRUE; break;
	    case '?': dotneato_usage(0); break;
	    default: fprintf(stderr, "%s: option -%c unrecognized\n\n", gvc->common.cmdname, c);
		dotneato_usage(1);
	    }
	} else if (argv[i])
	    gvc->input_filenames[nfiles++] = argv[i];
``` -/
def args_token (env : Env) (argc : Nat) (l : Loop) : Outcome Loop :=
  match l.st.argv[l.i]? with
  | none => .ret l
  | some tok =>
    if tok.startsWith '-' then
      let rest : CStr := tok.drop 2
      let c := tok.getD 1 '\x00'
      match c with
      | 'G' =>
        if rest.nonNulAt 0 then .ret { l with st := global_def l.i .AGRAPH l.st }
        else (dotneato_usage 1 (l.st.err (.missingArg 'G'))).bind fun st => .ret { l with st := st }
      | 'N' =>
        if rest.nonNulAt 0 then .ret { l with st := global_def l.i .AGNODE l.st }
        else (dotneato_usage 1 (l.st.err (.missingArg 'N'))).bind fun st => .ret { l with st := st }
      | 'E' =>
        if rest.nonNulAt 0 then .ret { l with st := global_def l.i .AGEDGE l.st }
        else (dotneato_usage 1 (l.st.err (.missingArg 'E'))).bind fun st => .ret { l with st := st }
      | 'T' =>
        let r := flagArg argc l
        let l := r.2
        match r.1 with
        | none =>
          (dotneato_usage 1 (l.st.err (.missingArg 'T'))).bind fun st => .exit 1 st
        | some val =>
          let v := gvjobs_output_langname env val l.st
          if !v.1 then .exit 1 (v.2.err (.formatNotRecognized val))
          else .ret { l with st := v.2 }
      | 'K' =>
        let r := flagArg argc l
        let l := r.2
        match r.1 with
        | none =>
          (dotneato_usage 1 (l.st.err (.missingArg 'K'))).bind fun st => .exit 1 st
        | some val =>
          let v := gvlayout_select env val l.st
          if !v.1 then .exit 1 (v.2.err (.layoutNotRecognized val))
          else .ret { l with st := v.2 }
      | 'P' => .ret { l with st := { l.st with P_graph := true } }
      | 'V' => .exit 0 (l.st.err .version)
      | 'l' =>
        let r := flagArg argc l
        let l := r.2
        let o : Outcome State :=
          match r.1 with
          | none => dotneato_usage 1 (l.st.err (.missingArg 'l'))
          | some _ => .ret l.st
        o.bind fun st => .ret { l with st := use_library r.1 st }
      | 'o' =>
        let r := flagArg argc l
        let l := r.2
        if !l.st.auto_outfile_names then .ret { l with st := gvjobs_output_filename r.1 l.st }
        else .ret l
      | 'q' =>
        if rest.nonNulAt 0 then
          let v := env.atoi rest
          if v ≤ 0 then .ret { l with st := l.st.err (.invalidQ rest) }
          else if v = 1 then .ret { l with st := agseterr .AGERR l.st }
          else .ret { l with st := agseterr .AGMAX l.st }
        else .ret { l with st := agseterr .AGERR l.st }
      | 's' =>
        if rest.nonNulAt 0 then
          let st := { l.st with PSinputscale := env.atof rest }
          if st.PSinputscale ≤ 0 then
            (dotneato_usage 1 (st.err (.invalidS rest))).bind fun st => .ret { l with st := st }
          else .ret { l with st := st }
        else .ret { l with st := { l.st with PSinputscale := POINTS_PER_INCH } }
      | 'x' => .ret { l with st := { l.st with Reduce := true } }
      | 'y' => .ret { l with st := { l.st with Y_invert := true } }
      | '?' => (dotneato_usage 0 l.st).bind fun st => .ret { l with st := st }
      | _ =>
        (dotneato_usage 1 (l.st.err (.unrecognized c))).bind fun st => .ret { l with st := st }
    else if l.nfiles < l.st.input_filenames.length then
      .ret { l with
        nfiles := l.nfiles + 1
        st := { l.st with input_filenames := l.st.input_filenames.set l.nfiles (some tok) } }
    else .fault

/-- The loop `for (i = 1; i < argc; i++) { ... }` from the loop state `l`, with
`fuel` bounding the number of iterations. -/
def args_loop (env : Env) (argc : Nat) : Nat → Loop → Outcome Loop
  | fuel, l =>
    if l.i < argc then
      match fuel with
      | 0 => .timeout
      | fuel + 1 =>
        (args_token env argc l).bind fun l => args_loop env argc fuel { l with i := l.i + 1 }
    else .ret l

/-- The counting pass
`for (i = 1; i < argc; i++) if (argv[i] && argv[i][0] != '-') nfiles++;`. -/
def countFiles (argc : Nat) (argv : List CStr) : Nat :=
  ((List.range argc).drop 1).countP fun i =>
    match argv[i]? with
    | some tok => !(tok.startsWith '-')
    | none => false

/-- Embedding of `dotneato_args_initialize(gvc, argc, argv)`; `argv` is the field of
that name of the state.  The calls of `getenv`, `gvconfig` and `gvplugin_graph`
have no effect on the state modelled here.
```
    gvc->common.cmdname = dotneato_basename(argv[0]);
    if (gvc->common.verbose) fprintf(stderr, "%s - %s version %s (%s)\n", ...);
    gvconfig(gvc, gvc->common.config);
    if (gvc->common.config) exit (0);
    i = gvlayout_select(gvc, gvc->common.cmdname);
    if (i == NO_SUPPORT) gvlayout_select(gvc, "dot");
    Verbose = gvc->common.verbose;
    CmdName = gvc->common.cmdname;
    nfiles = 0;
    for (i = 1; i < argc; i++) if (argv[i] && argv[i][0] != '-') nfiles++;
    gvc->input_filenames = N_NEW(nfiles + 1, char *);
    nfiles = 0;
    for (i = 1; i < argc; i++) { ... }
    if (!gvc->jobs || !gvc->jobs->output_langname) {
	v = gvjobs_output_langname(gvc, "dot");
	assert(v);
    }
``` -/
def dotneato_args_initialize (env : Env) (argc : Nat) (st : State) : Outcome State :=
  let b := dotneato_basename (st.argv.getD 0 [])
  let st := { st with cmdname := b.1, argv := st.argv.set 0 b.2 }
  let st := if st.verbose then st.err .version else st
  if st.config then .exit 0 st
  else
    let r := gvlayout_select env st.cmdname st
    let st := if !r.1 then (gvlayout_select env "dot".toList r.2).2 else r.2
    let st := { st with Verbose := st.verbose, CmdName := st.cmdname }
    let nfiles := countFiles argc st.argv
    let st := { st with input_filenames := List.replicate (nfiles + 1) none }
    (args_loop env argc argc { i := 1, nfiles := 0, st := st }).bind fun l =>
      if l.st.output_langname.isNone then
        let v := gvjobs_output_langname env "dot".toList l.st
        if v.1 then .ret v.2 else .abort v.2
      else .ret l.st

/-- A process image before `main` has run: the given argument vector, all flags
clear, no library, no job, the error level `lvl` and the input scale `scale`. -/
def State.init (argv : List CStr) (lvl : agerrlevel_t) (scale : Double) : State where
  argv := argv
  cmdname := []
  verbose := false
  config := false
  auto_outfile_names := false
  lib := []
  Lib := []
  input_filenames := []
  output_langname := none
  output_filename := none
  layout := none
  decls := []
  P_graph := false
  agerrlevel := lvl
  PSinputscale := scale
  Reduce := false
  Y_invert := false
  Verbose := false
  CmdName := []
  stderr := []
  stdout := []

/-- The argument vector made of the given tokens. -/
def mkArgv (toks : List String) : List CStr := toks.map String.toList

/-- The run of `dotneato_args_initialize` on the command line `toks` in a fresh
process image with the error level `lvl`, with the C library model `libc`. -/
def runArgs (toks : List String) (lvl : agerrlevel_t) : Outcome State :=
  dotneato_args_initialize libc toks.length (State.init (mkArgv toks) lvl 1)

/-! ## Graph documents and the attribute accessor -/

/-- A parsed graph document, as far as this file looks at it: its dictionary of
textual attributes. -/
structure graph_t where
  attrs : List (CStr × CStr)
deriving DecidableEq, Repr

/-- Modelled from the spec: the attribute accessor `agget` (defined outside
`input.c`), "given a graph document and an attribute name, returns the attribute's
string value or unset". -/
def agget (g : graph_t) (name : CStr) : Option CStr :=
  (g.attrs.find? fun a => a.1 == name).map fun a => a.2

/-- A graph whose only attribute is `name = value`. -/
def graphWith (name value : String) : graph_t := { attrs := [(name.toList, value.toList)] }

/-- A graph distinguished by a `name` attribute. -/
def namedGraph (name : String) : graph_t := graphWith "name" name

/-! ## `gvNextInputGraph` (input.c, lines 201-215 and 499-539) -/

/-- One entry of the list of graph contexts (`GVG_t`): the graph, the name of the
file it was read from (`NULL` for standard input) and its index in that file. -/
structure GVG where
  g : graph_t
  input_filename : Option CStr
  graph_index : Nat
deriving DecidableEq, Repr

/-- The static `FILE *fp`: `NULL`, the stream `stdin`, or a stream obtained from
`fopen` (represented by the graphs that `agread` can still parse from it). -/
inductive FilePtr where
  | null
  | stdin
  | file (unread : List graph_t)
deriving DecidableEq, Repr

/-- The memory of `gvNextInputGraph`: its static variables, the fields of `GVC_t`
it uses, the global error counter, and the open streams. -/
structure Stream where
  /-- Field `gvc->input_filenames`: `some p` is a path, `none` the terminating
  `NULL`; an index outside the list is outside the array. -/
  input_filenames : List (Option CStr)
  /-- The list `gvc->gvgs` of graph contexts, oldest first (`gvc->gvg` is its last
  entry). -/
  gvgs : List GVG
  /-- Static `fn`. -/
  fn : Option CStr
  /-- Static `fp`. -/
  fp : FilePtr
  /-- Static `fidx`. -/
  fidx : Nat
  /-- Static `gidx`. -/
  gidx : Nat
  /-- Global `graphviz_errors`. -/
  graphviz_errors : Nat
  /-- The graphs that `agread` can still parse from `stdin`. -/
  stdin_unread : List graph_t
  /-- The name last given to `agsetfile`. -/
  agfile : CStr
  /-- The paths reported by `agerr(AGERR, "%s: can't open %s\n", ...)`, oldest first. -/
  cant_open : List CStr
  /-- The paths of the streams obtained from `fopen` that have not been closed. -/
  open_files : List CStr
  /-- How many times the statement `fp = stdin` has been executed. -/
  stdin_selected : Nat
deriving DecidableEq, Repr

/-- Result of a computation on the stream: a value, an access outside an array
(`fault`), or exhausted fuel of a loop of the embedding (`timeout`, which
`gvNextInputGraph_total` shows never to happen for the fuel the embedding
supplies). -/
inductive Res (α : Type) where
  | ok (a : α)
  | fault
  | timeout
deriving DecidableEq, Repr

/-- Sequencing of stream computations. -/
def Res.bind {α β : Type} (r : Res α) (f : α → Res β) : Res β :=
  match r with
  | .ok a => f a
  | .fault => .fault
  | .timeout => .timeout

/-- The file system seen through `fopen(fn, "r")` and `agread`: `none` when the
path cannot be opened, otherwise the graphs that successive calls of `agread`
parse from the file, in file order. -/
abbrev FileSystem := CStr → Option (List graph_t)

/-- Embedding of
```
static void gvg_init(GVC_t *gvc, graph_t *g, char *fn, int gidx)
{
    GVG_t *gvg;
    gvg = zmalloc(sizeof(GVG_t));
    if (!gvc->gvgs) gvc->gvgs = gvg;
    else gvc->gvg->next = gvg;
    gvc->gvg = gvg;
    gvg->gvc = gvc;
    gvg->g = g;
    gvg->input_filename = fn;
    gvg->graph_index = gidx;
}
``` -/
def gvg_init (g : graph_t) (fn : Option CStr) (gidx : Nat) (s : Stream) : Stream :=
  { s with gvgs := s.gvgs ++ [{ g := g, input_filename := fn, graph_index := gidx }] }

/-- The call `agread(fp)` for a non-null `fp`: the next graph of the stream, or
`NULL` when nothing more can be parsed from it. -/
def agread (s : Stream) : Option graph_t × Stream :=
  match s.fp with
  | .null => (none, s)
  | .stdin =>
    match s.stdin_unread with
    | [] => (none, s)
    | g :: r => (some g, { s with stdin_unread := r })
  | .file unread =>
    match unread with
    | [] => (none, s)
    | g :: r => (some g, { s with fp := .file r })

/-- The loop
```
	while ((fn = gvc->input_filenames[fidx++]) && !(fp = fopen(fn, "r")))  {
	    agerr(AGERR, "%s: can't open %s\n", gvc->common.cmdname, fn);
	    graphviz_errors++;
	}
```
with `fuel` bounding the number of failed `fopen` calls. -/
def openLoop (fs : FileSystem) : Nat → Stream → Res Stream
  | fuel, s =>
    match s.input_filenames[s.fidx]? with
    | none => .fault
    | some none => .ok { s with fn := none, fidx := s.fidx + 1 }
    | some (some path) =>
      let s := { s with fn := some path, fidx := s.fidx + 1 }
      match fs path with
      | some gs => .ok { s with fp := .file gs, open_files := s.open_files ++ [path] }
      | none =>
        let s := { s with
          fp := .null
          cant_open := s.cant_open ++ [path]
          graphviz_errors := s.graphviz_errors + 1 }
        match fuel with
        | 0 => .timeout
        | fuel + 1 => openLoop fs fuel s

/-- The statement
```
	if (!fp) {
    	    if (!(fn = gvc->input_filenames[0])) {
		if (fidx++ == 0)
		    fp = stdin;
	    }
	    else { while (...) {...} }
	}
``` -/
def selectSource (fs : FileSystem) (s : Stream) : Res Stream :=
  if s.fp = .null then
    match s.input_filenames[0]? with
    | none => .fault
    | some none =>
      let s' := { s with fn := none, fidx := s.fidx + 1 }
      if s.fidx = 0 then .ok { s' with fp := .stdin, stdin_selected := s'.stdin_selected + 1 }
      else .ok s'
    | some (some p) => openLoop fs s.input_filenames.length { s with fn := some p }
  else .ok s

/-- The loop `while (!g) { ... }` of `gvNextInputGraph`, with `fuel` bounding the
number of exhausted sources:
```
    while (!g) {
	if (!fp) { ... }
	if (fp == NULL)
	    break;
	agsetfile(fn ? fn : "<stdin>");
	g = agread(fp,NIL(Agdisc_t*));
	if (g) {
	    gvg_init(gvc, g, fn, gidx++);
	    break;
	}
	fp = NULL;
	gidx = 0;
    }
    return g;
``` -/
def nextLoop (fs : FileSystem) : Nat → Stream → Res (Option graph_t × Stream)
  | fuel, s =>
    (selectSource fs s).bind fun s =>
      if s.fp = .null then .ok (none, s)
      else
        let s := { s with agfile := s.fn.getD "<stdin>".toList }
        let r := agread s
        match r.1 with
        | some g => .ok (some g, gvg_init g r.2.fn r.2.gidx { r.2 with gidx := r.2.gidx + 1 })
        | none =>
          let s := { r.2 with fp := .null, gidx := 0 }
          match fuel with
          | 0 => .timeout
          | fuel + 1 => nextLoop fs fuel s

/-- Embedding of `graph_t *gvNextInputGraph(GVC_t *gvc)`: the returned graph
(`none` is `NULL`, the end of the sequence) and the memory after the call. -/
def gvNextInputGraph (fs : FileSystem) (s : Stream) : Res (Option graph_t × Stream) :=
  nextLoop fs (s.input_filenames.length + 1) s

/-- The caller's loop `while ((g = gvNextInputGraph(gvc))) { ... }`: the graphs
yielded up to the first end-of-sequence and the memory after it, with `fuel`
bounding the number of calls. -/
def gvDrain (fs : FileSystem) : Nat → Stream → Res (List graph_t × Stream)
  | 0, _ => .timeout
  | fuel + 1, s =>
    (gvNextInputGraph fs s).bind fun r =>
      match r.1 with
      | none => .ok ([], r.2)
      | some g => (gvDrain fs fuel r.2).bind fun t => .ok (g :: t.1, t.2)

/-- The results of `n` successive calls of `gvNextInputGraph` and the memory after
the last one. -/
def gvCalls (fs : FileSystem) : Nat → Stream → Res (List (Option graph_t) × Stream)
  | 0, s => .ok ([], s)
  | n + 1, s =>
    (gvNextInputGraph fs s).bind fun r =>
      (gvCalls fs n r.2).bind fun t => .ok (r.1 :: t.1, t.2)

/-- The memory of the stream at program start for the input-file list `files`:
statics zero, the array holding the paths followed by the terminating `NULL`. -/
def Stream.init (files : List CStr) (stdin_graphs : List graph_t) (gvgs : List GVG)
    (errors : Nat) : Stream where
  input_filenames := files.map some ++ [none]
  gvgs := gvgs
  fn := none
  fp := .null
  fidx := 0
  gidx := 0
  graphviz_errors := errors
  stdin_unread := stdin_graphs
  agfile := []
  cant_open := []
  open_files := []
  stdin_selected := 0

/-- The value of a stream computation, when it has one. -/
def Res.toOption {α : Type} : Res α → Option α
  | .ok a => some a
  | _ => none

/-! ### Specification side of the stream

What the specification expects of a run over the input-file list, written from its
words: the graphs of the openable files in list order, each registered with its
path and a zero-based index inside its file, and one failure per path that cannot
be opened. -/

/-- The graphs parsable from the file at path `p`: none when it cannot be opened. -/
def fileGraphs (fs : FileSystem) (p : CStr) : List graph_t := (fs p).getD []

/-- The graphs of the openable files, in list order and in file order within each
file. -/
def expectedGraphs (fs : FileSystem) : List CStr → List graph_t
  | [] => []
  | p :: t => fileGraphs fs p ++ expectedGraphs fs t

/-- The graph contexts of the graphs `gs` of the file `p`, numbered from `k`. -/
def contextsFrom (p : CStr) : Nat → List graph_t → List GVG
  | _, [] => []
  | k, g :: r => { g := g, input_filename := some p, graph_index := k } :: contextsFrom p (k + 1) r

/-- The graph contexts expected for a run over `files`: for each openable file,
its graphs with the path of the file and the indices 0, 1, ... -/
def expectedContexts (fs : FileSystem) : List CStr → List GVG
  | [] => []
  | p :: t => contextsFrom p 0 (fileGraphs fs p) ++ expectedContexts fs t

/-- The number of paths of `files` that cannot be opened. -/
def openFailures (fs : FileSystem) : List CStr → Nat
  | [] => 0
  | p :: t => (if (fs p).isNone then 1 else 0) + openFailures fs t

/-- What the loop `openLoop` does when `suf` are the paths from index `fidx` on:
it passes over the paths that cannot be opened and stops at the first one that
can, or at the terminator. -/
def openSpec (fs : FileSystem) : List CStr → Stream → Stream
  | [], s => { s with fn := none, fidx := s.fidx + 1 }
  | p :: t, s =>
    match fs p with
    | some gs =>
      { s with fn := some p, fidx := s.fidx + 1, fp := .file gs, open_files := s.open_files ++ [p] }
    | none =>
      openSpec fs t { s with
        fn := some p
        fidx := s.fidx + 1
        fp := .null
        cant_open := s.cant_open ++ [p]
        graphviz_errors := s.graphviz_errors + 1 }

/-- What one call of `gvNextInputGraph` does when no source is open and `suf` are
the paths from index `fidx` on: paths that cannot be opened and files without a
graph are passed over, the first graph found is yielded. -/
def nextFrom (fs : FileSystem) : List CStr → Stream → Option graph_t × Stream
  | [], s => (none, { s with fn := none, fidx := s.fidx + 1 })
  | p :: t, s =>
    match fs p with
    | none =>
      nextFrom fs t { s with
        fn := some p
        fidx := s.fidx + 1
        fp := .null
        cant_open := s.cant_open ++ [p]
        graphviz_errors := s.graphviz_errors + 1 }
    | some [] =>
      nextFrom fs t { s with
        fn := some p
        fidx := s.fidx + 1
        fp := .null
        open_files := s.open_files ++ [p]
        agfile := p
        gidx := 0 }
    | some (g :: r) =>
      (some g, { s with
        fn := some p
        fidx := s.fidx + 1
        fp := .file r
        open_files := s.open_files ++ [p]
        agfile := p
        gidx := s.gidx + 1
        gvgs := s.gvgs ++ [{ g := g, input_filename := some p, graph_index := s.gidx }] })

/-- The stream is between two sources: the array holds the paths `pre ++ suf`
and the terminator, the paths `pre` have been tried, no source is open and the
index inside the file is 0. -/
def Between (s : Stream) (pre suf : List CStr) : Prop :=
  s.input_filenames = (pre ++ suf).map some ++ [none] ∧ pre ++ suf ≠ [] ∧
    s.fidx = pre.length ∧ s.fp = .null ∧ s.gidx = 0

/-- A file system in which no path can be opened. -/
def noFiles : FileSystem := fun _ => none

/-- A file system with the files `b` (two graphs) and `e` (no graph). -/
def twoGraphs : FileSystem := fun p =>
  if p = "b".toList then some [namedGraph "g0", namedGraph "g1"]
  else if p = "e".toList then some []
  else none

/-! ## `getdoubles2ptf` (input.c, lines 413-435) -/

/-- A point with `double` coordinates (`pointf`). -/
structure pointf where
  x : Double
  y : Double
deriving DecidableEq

/-- Modelled from the spec: the macro `POINTS` (defined outside `input.c`), which
converts inches "to output points" "by a fixed points-per-inch factor" ("a vector
in points equal to 3×72 and 4×72"). -/
def POINTS (a_inches : Double) : Double := a_inches * POINTS_PER_INCH

/-- What `sscanf(p, "%lf,%lf%c", &xf, &yf, &c)` leaves behind: its return value
and the variables it assigned (`none` for a variable it did not assign). -/
structure Sscanf3 where
  n : Int
  xf : Option Double
  yf : Option Double
  c : Option Char
deriving DecidableEq

/-- The call `sscanf(p, "%lf,%lf%c", &xf, &yf, &c)`: a real, a literal comma, a
real, one character.  The return value is the number of assignments, or `EOF`
(-1) when the input ends before the first conversion. -/
def sscanf_lf_lf_c (env : Env) (p : CStr) : Sscanf3 :=
  match env.scan_lf p with
  | .eof => { n := -1, xf := none, yf := none, c := none }
  | .fail => { n := 0, xf := none, yf := none, c := none }
  | .ok x r1 =>
    match r1 with
    | ',' :: r2 =>
      match env.scan_lf r2 with
      | .ok y r3 =>
        match r3 with
        | ch :: _ => { n := 3, xf := some x, yf := some y, c := some ch }
        | [] => { n := 2, xf := some x, yf := some y, c := none }
      | _ => { n := 1, xf := some x, yf := none, c := none }
    | _ => { n := 1, xf := some x, yf := none, c := none }

/-- Embedding of
```
static boolean getdoubles2ptf(graph_t * g, char *name, pointf * result)
{
    char *p;
    int i;
    double xf, yf;
    char c = '\0';
    boolean rv = FALSE;

    if ((p = agget(g, name))) {
	i = sscanf(p, "%lf,%lf%c", &xf, &yf, &c);
	if ((i > 1) && (xf > 0) && (yf > 0)) {
	    result->x = POINTS(xf);
	    result->y = POINTS(yf);
	    if (c == '!')
		rv = TRUE;
	}
    }
    return rv;
}
```
The result is the returned flag and the contents of `*result` after the call. -/
def getdoubles2ptf (env : Env) (g : graph_t) (name : CStr) (result : pointf) : Bool × pointf :=
  match agget g name with
  | none => (false, result)
  | some p =>
    let r := sscanf_lf_lf_c env p
    match r.xf, r.yf with
    | some xf, some yf =>
      if r.n > 1 ∧ xf > 0 ∧ yf > 0 then
        (r.c.getD '\x00' == '!', { x := POINTS xf, y := POINTS yf })
      else (false, result)
    | _, _ => (false, result)

/-- Specification side of `getdoubles2ptf`: the text `p` parses as two
comma-separated reals `x` and `y`, with `rest` the text that follows the second
real. -/
def ParsesPair (env : Env) (p : CStr) (x y : Double) (rest : CStr) : Prop :=
  ∃ r2 : CStr, env.scan_lf p = .ok x (',' :: r2) ∧ env.scan_lf r2 = .ok y rest

/-! ## Constants and collaborators declared outside `input.c`

The header constants used by `graph_init` and `do_graph_label`, and the label
builder, are declared outside `input.c`.  The embedding takes them as parameters;
`stdConsts` and `stdLabels` are concrete values used to evaluate examples. -/

/-- The header constants that `input.c` uses without defining them. -/
structure Consts where
  /-- Rank direction codes `RANKDIR_TB`, `RANKDIR_LR`, `RANKDIR_BT`, `RANKDIR_RL`. -/
  RANKDIR_TB : Nat
  RANKDIR_LR : Nat
  RANKDIR_BT : Nat
  RANKDIR_RL : Nat
  /-- Separation defaults and minima, in inches. -/
  DEFAULT_NODESEP : Double
  MIN_NODESEP : Double
  DEFAULT_RANKSEP : Double
  MIN_RANKSEP : Double
  /-- Character set codes. -/
  CHAR_UTF8 : Int
  CHAR_LATIN1 : Int
  CHAR_BIG5 : Int
  /-- Label position flags. -/
  LABEL_AT_BOTTOM : Nat
  LABEL_AT_TOP : Nat
  LABEL_AT_LEFT : Nat
  LABEL_AT_RIGHT : Nat
  /-- Indices of the four border slots. -/
  BOTTOM_IX : Nat
  RIGHT_IX : Nat
  TOP_IX : Nat
  LEFT_IX : Nat
  /-- The bit `GRAPH_LABEL` of `GD_has_labels`. -/
  GRAPH_LABEL : Nat
  /-- Label font defaults. -/
  DEFAULT_FONTSIZE : Double
  MIN_FONTSIZE : Double
  DEFAULT_FONTNAME : CStr
  DEFAULT_COLOR : CStr
  /-- The effect of the macro `PAD(dimen)` on a label dimension. -/
  PAD : pointf → pointf

/-- The rank direction codes fit two bits and `RANKDIR_TB` is the zero code (the
source keeps the effective direction in the bottom two bits of the packed field and
clears them to make it top-to-bottom). -/
def Consts.RankdirOK (K : Consts) : Prop :=
  K.RANKDIR_TB = 0 ∧ K.RANKDIR_LR < 4 ∧ K.RANKDIR_BT < 4 ∧ K.RANKDIR_RL < 4

/-- The label position flags are independent bits: `LABEL_AT_TOP` is a non-zero
mask that shares no bit with `LABEL_AT_BOTTOM`, `LABEL_AT_LEFT` or
`LABEL_AT_RIGHT`, and the left and right masks are non-zero and share no bit with
each other or with `LABEL_AT_BOTTOM`. -/
def Consts.LabelFlagsOK (K : Consts) : Prop :=
  K.LABEL_AT_TOP ≠ 0 ∧ K.LABEL_AT_BOTTOM &&& K.LABEL_AT_TOP = 0 ∧
    K.LABEL_AT_LEFT &&& K.LABEL_AT_TOP = 0 ∧ K.LABEL_AT_RIGHT &&& K.LABEL_AT_TOP = 0 ∧
    K.LABEL_AT_LEFT ≠ 0 ∧ K.LABEL_AT_RIGHT ≠ 0 ∧
    K.LABEL_AT_LEFT &&& K.LABEL_AT_RIGHT = 0 ∧
    K.LABEL_AT_BOTTOM &&& K.LABEL_AT_LEFT = 0 ∧ K.LABEL_AT_BOTTOM &&& K.LABEL_AT_RIGHT = 0

/-- The four border indices are different and lie inside the array of four slots. -/
def Consts.BorderOK (K : Consts) : Prop :=
  K.BOTTOM_IX < 4 ∧ K.RIGHT_IX < 4 ∧ K.TOP_IX < 4 ∧ K.LEFT_IX < 4 ∧
    [K.BOTTOM_IX, K.RIGHT_IX, K.TOP_IX, K.LEFT_IX].Nodup

/-- Concrete values of the constants, used to evaluate examples: direction codes
0 to 3, separations 1/4 and 1/2 inch with minimum 1/50, flags 0, 1, 2, 4, slots 0 to
3, a padding of 16 and 8 points. -/
def stdConsts : Consts where
  RANKDIR_TB := 0
  RANKDIR_LR := 1
  RANKDIR_BT := 2
  RANKDIR_RL := 3
  DEFAULT_NODESEP := 1 / 4
  MIN_NODESEP := 1 / 50
  DEFAULT_RANKSEP := 1 / 2
  MIN_RANKSEP := 1 / 50
  CHAR_UTF8 := 0
  CHAR_LATIN1 := 1
  CHAR_BIG5 := 2
  LABEL_AT_BOTTOM := 0
  LABEL_AT_TOP := 1
  LABEL_AT_LEFT := 2
  LABEL_AT_RIGHT := 4
  BOTTOM_IX := 0
  RIGHT_IX := 1
  TOP_IX := 2
  LEFT_IX := 3
  GRAPH_LABEL := 1
  DEFAULT_FONTSIZE := 14
  MIN_FONTSIZE := 1
  DEFAULT_FONTNAME := "Times-Roman".toList
  DEFAULT_COLOR := "black".toList
  PAD := fun d => { x := d.x + 16, y := d.y + 8 }

/-! ## Attribute readers declared outside `input.c` -/

/-- Modelled from the spec: `late_double` (defined outside `input.c`),
"getTyped(graph, name, default, minimum) -> number": the default when the attribute
is unset or empty, otherwise the number read by `atof`, raised to the minimum. -/
def late_double (env : Env) (g : graph_t) (name : CStr) (dflt low : Double) : Double :=
  match agget g name with
  | none => dflt
  | some p => if p.isEmpty then dflt else if env.atof p < low then low else env.atof p

/-- Modelled from the spec: `late_string` with the default `NULL` (defined outside
`input.c`), "get(graph, name) -> optional string". -/
def late_string (g : graph_t) (name : CStr) : Option CStr := agget g name

/-- Modelled from the spec: `late_nnstring` (defined outside `input.c`),
"getNonEmptyString(graph, name, default) -> string": the default when the attribute
is unset or empty. -/
def late_nnstring (g : graph_t) (name : CStr) (dflt : CStr) : CStr :=
  match agget g name with
  | none => dflt
  | some p => if p.isEmpty then dflt else p

/-- C `strcasecmp` in the "C" locale, as far as the source uses it: the result is
0 exactly when the two strings are equal up to the case of the letters `A` to `Z`
(the sign of a non-zero result is not modelled). -/
def strcasecmp (a b : CStr) : Int :=
  if a.map Char.toLower = b.map Char.toLower then 0 else 1

/-- C `streq(a, b)`: the strings are equal. -/
def streq (a b : CStr) : Bool := a == b

/-- C `strstr(hay, needle) != NULL`: `needle` occurs in `hay`. -/
def strstr : CStr → CStr → Bool
  | [], needle => needle.isEmpty
  | c :: t, needle => needle.isPrefixOf (c :: t) || strstr t needle

/-! ## `findCharset` (input.c, lines 541-575) -/

/-- Embedding of
```
static int findCharset (graph_t * g)
{
    int enc;
    char* p;
    p = late_nnstring(g,agattr(g,AGRAPH,"charset", NULL),"utf-8");
    if (!strcasecmp(p,"latin-1") || !strcasecmp(p,"latin1") || !strcasecmp(p,"l1")
	|| !strcasecmp(p,"ISO-8859-1") || !strcasecmp(p,"ISO_8859-1")
	|| !strcasecmp(p,"ISO8859-1") || !strcasecmp(p,"ISO-IR-100"))
		enc = CHAR_LATIN1;
    else if (!strcasecmp(p,"big-5") || !strcasecmp(p,"big5"))
		enc = CHAR_BIG5;
    else if (!strcasecmp(p,"utf-8") || !strcasecmp(p,"utf8"))
		enc = CHAR_UTF8;
    else {
	agerr(AGWARN, "Unsupported charset \"%s\" - assuming utf-8\n", p);
	enc = CHAR_UTF8;
    }
    return enc;
}
```
The result is the returned code and the charset names reported by `agerr`. -/
def findCharset (K : Consts) (g : graph_t) : Int × List CStr :=
  let p := late_nnstring g "charset".toList "utf-8".toList
  if strcasecmp p "latin-1".toList = 0
      ∨ strcasecmp p "latin1".toList = 0
      ∨ strcasecmp p "l1".toList = 0
      ∨ strcasecmp p "ISO-8859-1".toList = 0
      ∨ strcasecmp p "ISO_8859-1".toList = 0
      ∨ strcasecmp p "ISO8859-1".toList = 0
      ∨ strcasecmp p "ISO-IR-100".toList = 0 then
    (K.CHAR_LATIN1, [])
  else if strcasecmp p "big-5".toList = 0 ∨ strcasecmp p "big5".toList = 0 then
    (K.CHAR_BIG5, [])
  else if strcasecmp p "utf-8".toList = 0 ∨ strcasecmp p "utf8".toList = 0 then
    (K.CHAR_UTF8, [])
  else
    (K.CHAR_UTF8, [p])

/-! ## `setRatio` (input.c, lines 577-612) -/

/-- The aspect-ratio policies (`ratio_t`): `R_NONE` is the zero value of a fresh
`layout_t`, the others are the policies "fixed-value, fill, compress, auto,
expand". -/
inductive ratio_t where
  | R_NONE
  | R_VALUE
  | R_FILL
  | R_COMPRESS
  | R_AUTO
  | R_EXPAND
deriving DecidableEq, Repr

/-- The fields of `layout_t` (`GD_drawing(g)`) that `graph_init` sets through
code of `input.c`. -/
structure layout_t where
  quantum : Double
  ratio_kind : ratio_t
  ratio : Double
  filled : Bool
  size : pointf
  page : pointf
  dpi : Double
deriving DecidableEq

/-- The record allocated by `NEW(layout_t)`: all fields zero. -/
def layout_t.zero : layout_t where
  quantum := 0
  ratio_kind := .R_NONE
  ratio := 0
  filled := false
  size := { x := 0, y := 0 }
  page := { x := 0, y := 0 }
  dpi := 0

/-- Embedding of `setRatio(g)` on the record `GD_drawing(g)`:
```
    if ((p = agget(g, "ratio")) && ((c = p[0]))) {
	switch (c) {
	case 'a': if (streq(p, "auto")) GD_drawing(g)->ratio_kind = R_AUTO; break;
	case 'c': if (streq(p, "compress")) GD_drawing(g)->ratio_kind = R_COMPRESS; break;
	case 'e': if (streq(p, "expand")) GD_drawing(g)->ratio_kind = R_EXPAND; break;
	case 'f': if (streq(p, "fill")) GD_drawing(g)->ratio_kind = R_FILL; break;
	default:
	    ratio = atof(p);
	    if (ratio > 0.0) {
		GD_drawing(g)->ratio_kind = R_VALUE;
		GD_drawing(g)->ratio = ratio;
	    }
	    break;
	}
    }
``` -/
def setRatio (env : Env) (g : graph_t) (d : layout_t) : layout_t :=
  match agget g "ratio".toList with
  | none => d
  | some [] => d
  | some (c :: t) =>
    let p : CStr := c :: t
    if c = 'a' then
      if streq p "auto".toList then { d with ratio_kind := .R_AUTO } else d
    else if c = 'c' then
      if streq p "compress".toList then { d with ratio_kind := .R_COMPRESS } else d
    else if c = 'e' then
      if streq p "expand".toList then { d with ratio_kind := .R_EXPAND } else d
    else if c = 'f' then
      if streq p "fill".toList then { d with ratio_kind := .R_FILL } else d
    else
      let ratio := env.atof p
      if ratio > 0 then { d with ratio_kind := .R_VALUE, ratio := ratio } else d

/-! ## `do_graph_label` (input.c, lines 906-984) -/

/-- A label built by `make_label`, as far as `input.c` looks at it: its dimension
and the arguments it was built from. -/
structure textlabel_t where
  dimen : pointf
  text : CStr
  html : Bool
  fontsize : Double
  fontname : CStr
  fontcolor : CStr
deriving DecidableEq

/-- The label builder, declared outside `input.c`: `aghtmlstr` tells whether a
text is markup, `make_label` builds the label from the text, the markup kind, the
font size, the font name and the font colour. -/
structure Labels where
  aghtmlstr : CStr → Bool
  make_label : CStr → Bool → Double → CStr → CStr → textlabel_t

/-- A label builder for examples: no text is markup, and a label is 10 points wide
per character and as high as its font size. -/
def stdLabels : Labels where
  aghtmlstr := fun _ => false
  make_label := fun text html fontsize fontname fontcolor =>
    { dimen := { x := 10 * text.length, y := fontsize }
      text := text, html := html, fontsize := fontsize
      fontname := fontname, fontcolor := fontcolor }

/-- The fields of `Agraphinfo_t` that `graph_init` and `do_graph_label` set
through code of `input.c`.  `has_labels` is the field of the root graph
(`GD_has_labels(sg->root)`), the others are those of the graph itself. -/
structure Agraphinfo_t where
  drawing : layout_t
  charset : Int
  rankdir : Nat
  nodesep : Double
  ranksep : Double
  exact_ranksep : Bool
  has_labels : Nat
  label : Option textlabel_t
  label_pos : Nat
  border : List pointf
deriving DecidableEq

/-- A zeroed `Agraphinfo_t`, with the four border slots. -/
def Agraphinfo_t.zero : Agraphinfo_t where
  drawing := layout_t.zero
  charset := 0
  rankdir := 0
  nodesep := 0
  ranksep := 0
  exact_ranksep := false
  has_labels := 0
  label := none
  label_pos := 0
  border := List.replicate 4 { x := 0, y := 0 }

/-- The position flag computed by `do_graph_label`:
```
	pos = agget(sg, "labelloc");
	if (sg != agroot(sg)) {
	    if (pos && (pos[0] == 'b')) pos_flag = LABEL_AT_BOTTOM;
	    else pos_flag = LABEL_AT_TOP;
	} else {
	    if (pos && (pos[0] == 't')) pos_flag = LABEL_AT_TOP;
	    else pos_flag = LABEL_AT_BOTTOM;
	}
	just = agget(sg, "labeljust");
	if (just) {
	    if (just[0] == 'l') pos_flag |= LABEL_AT_LEFT;
	    else if (just[0] == 'r') pos_flag |= LABEL_AT_RIGHT;
	}
``` -/
def label_pos_flag (K : Consts) (sg : graph_t) (isRoot : Bool) : Nat :=
  let pos := agget sg "labelloc".toList
  let pos_flag :=
    if !isRoot then
      if pos.isSome && (pos.getD []).head? == some 'b' then K.LABEL_AT_BOTTOM
      else K.LABEL_AT_TOP
    else
      if pos.isSome && (pos.getD []).head? == some 't' then K.LABEL_AT_TOP
      else K.LABEL_AT_BOTTOM
  match agget sg "labeljust".toList with
  | some just =>
    if just.head? == some 'l' then pos_flag ||| K.LABEL_AT_LEFT
    else if just.head? == some 'r' then pos_flag ||| K.LABEL_AT_RIGHT
    else pos_flag
  | none => pos_flag

/-- The assignment `GD_border(sg)[ix] = v`; an index outside the array is a
fault. -/
def setBorder (u : Agraphinfo_t) (ix : Nat) (v : pointf) : Res Agraphinfo_t :=
  if ix < u.border.length then .ok { u with border := u.border.set ix v } else .fault

/-- Embedding of `do_graph_label(sg)`.  `isRoot` is `sg == agroot(sg)` and `flip`
is `GD_flip(agroot(sg))`.
```
    if ((str = agget(sg, "label"))) {
	GD_has_labels(sg->root) |= GRAPH_LABEL;
	GD_label(sg) = make_label(agroot(sg), str, (aghtmlstr(str) ? LT_HTML : LT_NONE),
	    late_double(sg, agattr(sg,AGRAPH,"fontsize", NULL), DEFAULT_FONTSIZE, MIN_FONTSIZE),
	    late_nnstring(sg, agattr(sg,AGRAPH, "fontname", NULL), DEFAULT_FONTNAME),
	    late_nnstring(sg, agattr(sg,AGRAPH, "fontcolor", NULL), DEFAULT_COLOR));
	... pos_flag ...
	GD_label_pos(sg) = pos_flag;
	if (sg == agroot(sg))
	    return;
	dimen = GD_label(sg)->dimen;
	PAD(dimen);
	if (!GD_flip(agroot(sg))) {
	    if (GD_label_pos(sg) & LABEL_AT_TOP) pos_ix = TOP_IX;
	    else pos_ix = BOTTOM_IX;
	    GD_border(sg)[pos_ix] = dimen;
	} else {
	    if (GD_label_pos(sg) & LABEL_AT_TOP) pos_ix = RIGHT_IX;
	    else pos_ix = LEFT_IX;
	    GD_border(sg)[pos_ix].x = dimen.y;
	    GD_border(sg)[pos_ix].y = dimen.x;
	}
    }
``` -/
def do_graph_label (K : Consts) (env : Env) (L : Labels) (sg : graph_t) (isRoot flip : Bool)
    (u : Agraphinfo_t) : Res Agraphinfo_t :=
  match agget sg "label".toList with
  | none => .ok u
  | some str =>
    let lbl := L.make_label str (L.aghtmlstr str)
      (late_double env sg "fontsize".toList K.DEFAULT_FONTSIZE K.MIN_FONTSIZE)
      (late_nnstring sg "fontname".toList K.DEFAULT_FONTNAME)
      (late_nnstring sg "fontcolor".toList K.DEFAULT_COLOR)
    let u := { u with
      has_labels := u.has_labels ||| K.GRAPH_LABEL
      label := some lbl
      label_pos := label_pos_flag K sg isRoot }
    if isRoot then .ok u
    else
      let dimen := K.PAD lbl.dimen
      if !flip then
        let pos_ix := if u.label_pos &&& K.LABEL_AT_TOP ≠ 0 then K.TOP_IX else K.BOTTOM_IX
        setBorder u pos_ix dimen
      else
        let pos_ix := if u.label_pos &&& K.LABEL_AT_TOP ≠ 0 then K.RIGHT_IX else K.LEFT_IX
        setBorder u pos_ix { x := dimen.y, y := dimen.x }

/-! ## `graph_init` (input.c, lines 618-868) -/

/-- The parsed rank direction:
```
    rankdir = RANKDIR_TB;
    if ((p = agget(g, "rankdir"))) {
	if (streq(p, "LR")) rankdir = RANKDIR_LR;
	else if (streq(p, "BT")) rankdir = RANKDIR_BT;
	else if (streq(p, "RL")) rankdir = RANKDIR_RL;
    }
``` -/
def parse_rankdir (K : Consts) (g : graph_t) : Nat :=
  match agget g "rankdir".toList with
  | none => K.RANKDIR_TB
  | some p =>
    if streq p "LR".toList then K.RANKDIR_LR
    else if streq p "BT".toList then K.RANKDIR_BT
    else if streq p "RL".toList then K.RANKDIR_RL
    else K.RANKDIR_TB

/-- The call `sscanf(p, "%lf", &xf)`: the return value (`EOF` is -1) and the
value of `xf` after the call. -/
def sscanf_lf (env : Env) (p : CStr) (xf : Double) : Int × Double :=
  match env.scan_lf p with
  | .eof => (-1, xf)
  | .fail => (0, xf)
  | .ok v _ => (1, v)

/-- The value of `xf` that `graph_init` converts to `GD_ranksep(g)`; `xf` enters
with the value left by the `nodesep` computation:
```
    p = late_string(g, agattr(g, AGRAPH, "ranksep", (char*)0), NULL);
    if (p) {
	if (sscanf(p, "%lf", &xf) == 0)
	    xf = DEFAULT_RANKSEP;
	else {
	    if (xf < MIN_RANKSEP)
		xf = MIN_RANKSEP;
	}
	...
    } else
	xf = DEFAULT_RANKSEP;
``` -/
def ranksep_xf (K : Consts) (env : Env) (g : graph_t) (xf : Double) : Double :=
  match late_string g "ranksep".toList with
  | some p =>
    let r := sscanf_lf env p xf
    if r.1 = 0 then K.DEFAULT_RANKSEP
    else if r.2 < K.MIN_RANKSEP then K.MIN_RANKSEP else r.2
  | none => K.DEFAULT_RANKSEP

/-- Embedding of `graph_init(g, use_rankdir)`, for the fields that it sets through
code of `input.c`: the result is the record of the graph, or a fault, and the
charset names reported by `agerr`.  The statements on `fontpath`, `showboxes`,
`fontnames`, `center`, `rotate`, `clusterrank`, `concentrate` and the attribute
symbols `N_...`, `E_...` go through code outside `input.c` and touch none of these
fields.
```
    GD_drawing(g) = NEW(layout_t);
    GD_charset(g) = findCharset (g);
    GD_drawing(g)->quantum = late_double(g, agattr(g, AGRAPH, "quantum", NULL), 0.0, 0.0);
    rankdir = ...;
    if (use_rankdir) SET_RANKDIR (g, (rankdir << 2) | rankdir);
    else SET_RANKDIR (g, (rankdir << 2));
    xf = late_double(g, agattr(g, AGRAPH, "nodesep", NULL), DEFAULT_NODESEP, MIN_NODESEP);
    GD_nodesep(g) = POINTS(xf);
    p = late_string(g, agattr(g, AGRAPH, "ranksep", (char*)0), NULL);
    if (p) { ...; if (strstr(p, "equally")) GD_exact_ranksep(g) = TRUE; } else xf = DEFAULT_RANKSEP;
    GD_ranksep(g) = POINTS(xf);
    setRatio(g);
    GD_drawing(g)->filled = getdoubles2ptf(g, "size", &(GD_drawing(g)->size));
    getdoubles2ptf(g, "page", &(GD_drawing(g)->page));
    GD_drawing(g)->dpi = 0.0;
    if (((p = agget(g, "dpi")) && p[0]) || ((p = agget(g, "resolution")) && p[0]))
	GD_drawing(g)->dpi = atof(p);
    do_graph_label(g);
``` -/
def graph_init (K : Consts) (env : Env) (L : Labels) (g : graph_t) (use_rankdir : Bool)
    (isRoot flip : Bool) (u : Agraphinfo_t) : Res Agraphinfo_t × List CStr :=
  let cs := findCharset K g
  let d := { layout_t.zero with quantum := late_double env g "quantum".toList 0 0 }
  let rankdir := parse_rankdir K g
  let packed := if use_rankdir then (rankdir <<< 2) ||| rankdir else rankdir <<< 2
  let xf := late_double env g "nodesep".toList K.DEFAULT_NODESEP K.MIN_NODESEP
  let nodesep := POINTS xf
  let exact :=
    match late_string g "ranksep".toList with
    | some p => if strstr p "equally".toList then true else u.exact_ranksep
    | none => u.exact_ranksep
  let xf := ranksep_xf K env g xf
  let d := setRatio env g d
  let sz := getdoubles2ptf env g "size".toList d.size
  let d := { d with filled := sz.1, size := sz.2 }
  let pg := getdoubles2ptf env g "page".toList d.page
  let d := { d with page := pg.2 }
  let dpi : Double :=
    match agget g "dpi".toList with
    | some (c :: t) => env.atof (c :: t)
    | _ =>
      match agget g "resolution".toList with
      | some (c :: t) => env.atof (c :: t)
      | _ => 0
  let d := { d with dpi := dpi }
  let u := { u with
    drawing := d
    charset := cs.1
    rankdir := packed
    nodesep := nodesep
    ranksep := POINTS xf
    exact_ranksep := exact }
  (do_graph_label K env L g isRoot flip u, cs.2)

/-- A graph with the given attributes. -/
def graphOf (attrs : List (String × String)) : graph_t :=
  { attrs := attrs.map fun a => (a.1.toList, a.2.toList) }

/-! ### Specification side of `dotneato_basename` and of the argument scan -/

/-- The characters that `dotneato_basename` treats as directory separators. -/
def isSep (c : Char) : Bool := c == '/' || c == '\\'

/-- Whether a flag token takes a detached argument through `getFlagOpt`: it is
exactly `-T`, `-K`, `-l` or `-o`. -/
def takesDetached (tok : CStr) : Bool :=
  tok == ['-', 'T'] || tok == ['-', 'K'] || tok == ['-', 'l'] || tok == ['-', 'o']

/-- Whether a token can be taken as a detached argument: it is not empty and does
not begin with the flag marker. -/
def usableArg (tok : CStr) : Bool := !tok.isEmpty && !(tok.startsWith '-')

/-- The tokens that are input files: those that do not start with the flag marker
and are not taken as the detached argument of a `-T`, `-K`, `-l` or `-o` before
them. -/
def fileTokens : List CStr → List CStr
  | [] => []
  | [tok] => if tok.startsWith '-' then [] else [tok]
  | tok :: next :: rest =>
    if tok.startsWith '-' then
      if takesDetached tok && usableArg next then fileTokens rest
      else fileTokens (next :: rest)
    else tok :: fileTokens (next :: rest)

/-- The tokens that do not start with the flag marker. -/
def nonFlagTokens (toks : List CStr) : List CStr :=
  toks.filter fun tok => !(tok.startsWith '-')

/-- The output format named by the last `-T` flag of the tokens, starting from
`acc`: the fused text of the flag, or its detached argument. -/
def lastFormat : List CStr → Option CStr → Option CStr
  | [], acc => acc
  | [tok], acc =>
    if tok.startsWith '-' && tok.getD 1 '\x00' == 'T' && tok.nonNulAt 2 then some (tok.drop 2)
    else acc
  | tok :: next :: rest, acc =>
    if tok.startsWith '-' then
      if takesDetached tok && usableArg next then
        lastFormat rest (if tok == ['-', 'T'] then some next else acc)
      else
        lastFormat (next :: rest)
          (if tok.getD 1 '\x00' == 'T' && tok.nonNulAt 2 then some (tok.drop 2) else acc)
    else lastFormat (next :: rest) acc

/-- Specification side of "case-insensitively": two strings are letter-case variants
of each other when they agree after lowering the letters `A` to `Z`. -/
def sameUpToCase (s t : CStr) : Prop := s.map Char.toLower = t.map Char.toLower

instance (s t : CStr) : Decidable (sameUpToCase s t) := by
  unfold sameUpToCase; infer_instance

/-- The aliases that the spec lists for Latin-1. -/
def latin1Aliases : List CStr :=
  ["latin-1".toList, "latin1".toList, "l1".toList, "ISO-8859-1".toList,
    "ISO_8859-1".toList, "ISO8859-1".toList, "ISO-IR-100".toList]

/-- The aliases that the spec lists for Big5. -/
def big5Aliases : List CStr := ["big-5".toList, "big5".toList]

/-- The aliases that the spec lists for UTF-8. -/
def utf8Aliases : List CStr := ["utf-8".toList, "utf8".toList]

instance (K : Consts) : Decidable K.RankdirOK := by
  unfold Consts.RankdirOK; infer_instance

instance (K : Consts) : Decidable K.LabelFlagsOK := by
  unfold Consts.LabelFlagsOK; infer_instance

instance (K : Consts) : Decidable K.BorderOK := by
  unfold Consts.BorderOK; infer_instance

/-- The first character of an attribute value, if the attribute is set and not
empty. -/
def firstChar (o : Option CStr) : Option Char := o.bind List.head?

/-- The label that `do_graph_label` builds for the text `str` of graph `sg`: the
call `make_label(agroot(sg), str, ...)` with the font attributes of `sg`. -/
def graph_label (K : Consts) (env : Env) (L : Labels) (sg : graph_t) (str : CStr) :
    textlabel_t :=
  L.make_label str (L.aghtmlstr str)
    (late_double env sg "fontsize".toList K.DEFAULT_FONTSIZE K.MIN_FONTSIZE)
    (late_nnstring sg "fontname".toList K.DEFAULT_FONTNAME)
    (late_nnstring sg "fontcolor".toList K.DEFAULT_COLOR)

/-! ## `charsetToStr` (input.c, lines 879-904) -/

/-- The three character set codes are different (they are the `case` labels of one
`switch`). -/
def Consts.CharsetOK (K : Consts) : Prop :=
  K.CHAR_UTF8 ≠ K.CHAR_LATIN1 ∧ K.CHAR_UTF8 ≠ K.CHAR_BIG5 ∧ K.CHAR_LATIN1 ≠ K.CHAR_BIG5

instance (K : Consts) : Decidable K.CharsetOK := by
  unfold Consts.CharsetOK; infer_instance

/-- Embedding of
```
char* charsetToStr (int c)
{
   char* s;
   switch (c) {
   case CHAR_UTF8 : s = "UTF-8"; break;
   case CHAR_LATIN1 : s = "ISO-8859-1"; break;
   case CHAR_BIG5 : s = "BIG-5"; break;
   default :
	agerr(AGERR, "Unsupported charset value %d\n", c);
	s = "UTF-8";
	break;
   }
   return s;
}
```
The result is the returned string and the values reported by `agerr`. -/
def charsetToStr (K : Consts) (c : Int) : CStr × List Int :=
  if c = K.CHAR_UTF8 then ("UTF-8".toList, [])
  else if c = K.CHAR_LATIN1 then ("ISO-8859-1".toList, [])
  else if c = K.CHAR_BIG5 then ("BIG-5".toList, [])
  else ("UTF-8".toList, [c])

/-- A file system with the files `a` and `b`, one graph each. -/
def twoFiles : FileSystem := fun p =>
  if p = "a".toList then some [namedGraph "g0"]
  else if p = "b".toList then some [namedGraph "g1"]
  else none

/-! ## Theorems: `getFlagOpt` -/

/-- C1 (counterexample): with the argument string `-1`, the fused token `-s-1`
yields `-1` while the two-token form `-s` `-1` yields `NULL`. -/
theorem getFlagOpt_fused_ne_detached :
    (getFlagOpt 2 (mkArgv ["dot", "-s-1"]) 1).ret = some "-1".toList ∧
    (getFlagOpt 3 (mkArgv ["dot", "-s", "-1"]) 1).ret = none := by
  decide

/-- C1 (amended): for every flag letter `c` and every non-empty argument string `V`
that does not begin with the flag marker `-`, `getFlagOpt` on the fused token `-cV`
and `getFlagOpt` on the token `-c` followed by the token `V` (cursor on `-c`) return
the same argument string, namely `V`. -/
theorem getFlagOpt_fused_eq_detached (c : Char) (V : CStr)
    (argcF : Nat) (argvF : List CStr) (i : Nat)
    (argcD : Nat) (argvD : List CStr) (j : Nat)
    (hV : V ≠ []) (hdash : V.head? ≠ some '-')
    (hF : argvF[i]? = some ('-' :: c :: V))
    (hD : argvD[j]? = some ['-', c]) (hD1 : argvD[j + 1]? = some V) (hj : j + 1 < argcD) :
    (getFlagOpt argcF argvF i).ret = some V ∧
    (getFlagOpt argcD argvD j).ret = some V ∧
    (getFlagOpt argcF argvF i).ret = (getFlagOpt argcD argvD j).ret := by
  have hf : (getFlagOpt argcF argvF i).ret = some V := by
    cases V with
    | nil => exact absurd rfl hV
    | cons a t => simp [getFlagOpt, hF, CStr.nonNulAt]
  have hd : (getFlagOpt argcD argvD j).ret = some V := by
    cases V with
    | nil => exact absurd rfl hV
    | cons a t =>
      have ha : a ≠ '-' := by simpa using hdash
      have hlt : j < argcD - 1 := by omega
      simp [getFlagOpt, hD, hD1, CStr.nonNulAt, CStr.startsWith, hlt, ha]
  exact ⟨hf, hd, hf.trans hd.symm⟩

/-- C1 (witness): the flag `T` with the argument `ps`. -/
theorem getFlagOpt_fused_eq_detached_witness :
    (getFlagOpt 2 (mkArgv ["dot", "-Tps"]) 1).ret = some "ps".toList ∧
    (getFlagOpt 3 (mkArgv ["dot", "-T", "ps"]) 1).ret = some "ps".toList ∧
    (getFlagOpt 2 (mkArgv ["dot", "-Tps"]) 1).ret =
      (getFlagOpt 3 (mkArgv ["dot", "-T", "ps"]) 1).ret :=
  getFlagOpt_fused_eq_detached 'T' "ps".toList 2 (mkArgv ["dot", "-Tps"]) 1
    3 (mkArgv ["dot", "-T", "ps"]) 1 (by decide) (by decide) (by decide) (by decide)
    (by decide) (by decide)

/-- C2 (counterexample): in `dot -T ""` the token after `-T` exists and does not
begin with `-`, yet `getFlagOpt` returns `NULL`, not that token. -/
theorem getFlagOpt_empty_next_absent :
    (mkArgv ["dot", "-T", ""])[1]? = some ['-', 'T'] ∧
    (mkArgv ["dot", "-T", ""])[2]? = some [] ∧
    CStr.startsWith [] '-' = false ∧
    (getFlagOpt 3 (mkArgv ["dot", "-T", ""]) 1).ret = none := by
  decide

/-- C2 (amended): when `argv[i]` is exactly the flag marker and one flag letter,
`getFlagOpt` returns `argv[i+1]` whenever a token `i+1` exists, is not empty and
does not begin with `-`, and returns `NULL` in every other case. -/
theorem getFlagOpt_detached (argc : Nat) (argv : List CStr) (i : Nat) (c : Char)
    (h : argv[i]? = some ['-', c]) :
    (getFlagOpt argc argv i).ret =
      if i + 1 < argc ∧ argv.getD (i + 1) [] ≠ [] ∧ (argv.getD (i + 1) []).head? ≠ some '-'
      then some (argv.getD (i + 1) []) else none := by
  have hi : argv.getD i [] = ['-', c] := by simp [List.getD_eq_getElem?_getD, h]
  unfold getFlagOpt
  simp only [hi, CStr.nonNulAt, CStr.startsWith]
  generalize argv.getD (i + 1) [] = next
  by_cases hlt : i < argc - 1
  · have hlt2 : i + 1 < argc := by omega
    cases next with
    | nil => simp [hlt]
    | cons a t =>
      by_cases ha : a = '-'
      · simp [hlt, ha]
      · simp [hlt, hlt2, ha]
  · have hlt2 : ¬ (i + 1 < argc) := by omega
    simp [hlt, hlt2]

/-- C2 (witness): `dot -T ps` with the cursor on `-T`. -/
theorem getFlagOpt_detached_witness :
    (getFlagOpt 3 (mkArgv ["dot", "-T", "ps"]) 1).ret = some "ps".toList :=
  (getFlagOpt_detached 3 (mkArgv ["dot", "-T", "ps"]) 1 'T' (by decide)).trans (by decide)

/-- C3: `getFlagOpt` never modifies the argument vector; when the token at the
cursor has characters after the flag letter the result is the suffix from offset 2
and the cursor is unchanged; a result obtained otherwise is the next token and the
cursor is then advanced by exactly one; when the result is `NULL` the cursor is
unchanged; the cursor changes only in the case where the next token is returned. -/
theorem getFlagOpt_cursor (argc : Nat) (argv : List CStr) (i : Nat) :
    (getFlagOpt argc argv i).argv = argv ∧
    (2 < (argv.getD i []).length →
      (getFlagOpt argc argv i).ret = some ((argv.getD i []).drop 2) ∧
      (getFlagOpt argc argv i).idx = i) ∧
    ((argv.getD i []).length ≤ 2 → ∀ v, (getFlagOpt argc argv i).ret = some v →
      v = argv.getD (i + 1) [] ∧ (getFlagOpt argc argv i).idx = i + 1) ∧
    ((getFlagOpt argc argv i).ret = none → (getFlagOpt argc argv i).idx = i) ∧
    ((getFlagOpt argc argv i).idx ≠ i →
      (argv.getD i []).length ≤ 2 ∧ (getFlagOpt argc argv i).idx = i + 1 ∧
      (getFlagOpt argc argv i).ret = some (argv.getD (i + 1) [])) := by
  unfold getFlagOpt
  simp only [CStr.nonNulAt]
  generalize argv.getD i [] = tok
  generalize argv.getD (i + 1) [] = next
  by_cases h2 : 2 < tok.length
  · simp [h2]
  · have h2le : tok.length ≤ 2 := by omega
    by_cases hlt : i < argc - 1
    · by_cases hc : (decide (0 < next.length) && !(CStr.startsWith next '-')) = true
      · simp only [hc]
        simp [h2, hlt, h2le]
      · simp only [hc]
        simp [h2, hlt]
    · simp [h2, hlt]

/-- C3 (witness): the fused token of `dot -Tps`, the detached argument of
`dot -T ps` and the missing argument of `dot -T`. -/
theorem getFlagOpt_cursor_witness :
    ((getFlagOpt 2 (mkArgv ["dot", "-Tps"]) 1).ret = some "ps".toList ∧
      (getFlagOpt 2 (mkArgv ["dot", "-Tps"]) 1).idx = 1) ∧
    ((getFlagOpt 3 (mkArgv ["dot", "-T", "ps"]) 1).idx = 2 ∧
      (getFlagOpt 3 (mkArgv ["dot", "-T", "ps"]) 1).ret = some "ps".toList) ∧
    (getFlagOpt 2 (mkArgv ["dot", "-T"]) 1).idx = 1 :=
  ⟨(getFlagOpt_cursor 2 (mkArgv ["dot", "-Tps"]) 1).2.1 (by decide),
   ((getFlagOpt_cursor 3 (mkArgv ["dot", "-T", "ps"]) 1).2.2.2.2 (by decide)).2,
   (getFlagOpt_cursor 2 (mkArgv ["dot", "-T"]) 1).2.2.2.1 (by decide)⟩

/-! ## Theorems: `gvNextInputGraph` -/

/-- The array entry at the index of the first path not yet tried. -/
theorem filenames_at (pre suf : List CStr) :
    ((pre ++ suf).map some ++ [none])[pre.length]? = some suf.head? := by
  induction pre with
  | nil => cases suf <;> simp
  | cons a l ih => simpa using ih

/-- The first array entry of a non-empty input-file list. -/
theorem filenames_zero (l : List CStr) (h : l ≠ []) :
    ∃ p0, (l.map some ++ [none])[0]? = some (some p0) := by
  cases l with
  | nil => exact absurd rfl h
  | cons p t => exact ⟨p, by simp⟩

/-- The loop `openLoop` does not look at the value of `fn` it starts with. -/
theorem openSpec_fn (fs : FileSystem) (suf : List CStr) (s : Stream) (x : Option CStr) :
    openSpec fs suf { s with fn := x } = openSpec fs suf s := by
  cases suf with
  | nil => rfl
  | cons p t =>
    simp only [openSpec]

/-- With enough fuel `openLoop` computes `openSpec`. -/
theorem openLoop_eq (fs : FileSystem) (suf : List CStr) :
    ∀ (pre : List CStr) (s : Stream) (fuel : Nat),
      s.input_filenames = (pre ++ suf).map some ++ [none] → s.fidx = pre.length →
      suf.length ≤ fuel → openLoop fs fuel s = .ok (openSpec fs suf s) := by
  induction suf with
  | nil =>
    intro pre s fuel harr hidx _
    have hget : s.input_filenames[s.fidx]? = some none := by
      rw [harr, hidx, filenames_at]; rfl
    rw [openLoop]
    simp only [hget, openSpec]
  | cons p t ih =>
    intro pre s fuel harr hidx hfuel
    have hget : s.input_filenames[s.fidx]? = some (some p) := by
      rw [harr, hidx, filenames_at]; rfl
    rw [openLoop]
    simp only [hget, openSpec]
    cases hfs : fs p with
    | some gs => rfl
    | none =>
      cases fuel with
      | zero => simp at hfuel
      | succ f =>
        simp only []
        apply ih (pre ++ [p])
        · simpa using harr
        · simp [hidx]
        · simpa using hfuel

/-- Between two sources, the source selection is the loop `openLoop` from the
first path not yet tried. -/
theorem selectSource_between (fs : FileSystem) (pre suf : List CStr) (s : Stream)
    (h : Between s pre suf) : selectSource fs s = .ok (openSpec fs suf s) := by
  obtain ⟨harr, hne, hidx, hfp, _⟩ := h
  obtain ⟨p0, hp0⟩ := filenames_zero (pre ++ suf) hne
  have hget0 : s.input_filenames[0]? = some (some p0) := by rw [harr]; exact hp0
  unfold selectSource
  rw [if_pos hfp]
  simp only [hget0]
  rw [← openSpec_fn fs suf s (some p0)]
  apply openLoop_eq fs suf pre
  · exact harr
  · exact hidx
  · rw [harr]; simp; omega

/-- The loop of `gvNextInputGraph` depends on its start state only through the
source selection. -/
theorem nextLoop_congr (fs : FileSystem) (fuel : Nat) (s s' : Stream)
    (h : selectSource fs s = selectSource fs s') :
    nextLoop fs fuel s = nextLoop fs fuel s' := by
  unfold nextLoop
  rw [h]

/-- With an open source, the source selection does nothing. -/
theorem selectSource_open (fs : FileSystem) (s : Stream) (h : s.fp ≠ .null) :
    selectSource fs s = .ok s := by
  unfold selectSource
  rw [if_neg h]

/-- Reading a graph from an open file. -/
theorem nextLoop_file_cons (fs : FileSystem) (fuel : Nat) (s : Stream) (g : graph_t)
    (r : List graph_t) (h : s.fp = .file (g :: r)) :
    nextLoop fs fuel s = .ok (some g,
      { s with
        agfile := s.fn.getD "<stdin>".toList
        fp := .file r
        gidx := s.gidx + 1
        gvgs := s.gvgs ++ [{ g := g, input_filename := s.fn, graph_index := s.gidx }] }) := by
  have hne : s.fp ≠ .null := by rw [h]; simp
  unfold nextLoop
  rw [selectSource_open fs s hne]
  simp only [Res.bind, agread, h, gvg_init]
  simp

/-- One call of `gvNextInputGraph` between two sources. -/
theorem nextLoop_between (fs : FileSystem) (suf : List CStr) :
    ∀ (pre : List CStr) (s : Stream) (fuel : Nat), Between s pre suf → suf.length ≤ fuel →
      nextLoop fs fuel s = .ok (nextFrom fs suf s) := by
  induction suf with
  | nil =>
    intro pre s fuel hb _
    have hfp : s.fp = .null := hb.2.2.2.1
    unfold nextLoop
    rw [selectSource_between fs pre [] s hb]
    simp [Res.bind, openSpec, nextFrom, hfp]
  | cons p t ih =>
    intro pre s fuel hb hfuel
    obtain ⟨harr, hne, hidx, hfp, hg⟩ := hb
    have harr' : s.input_filenames = List.map some ((pre ++ [p]) ++ t) ++ [none] := by
      simpa using harr
    have hne' : (pre ++ [p]) ++ t ≠ [] := by simp
    cases hfs : fs p with
    | none =>
      have hb1 : Between { s with
          fn := some p
          fidx := s.fidx + 1
          fp := .null
          cant_open := s.cant_open ++ [p]
          graphviz_errors := s.graphviz_errors + 1 } (pre ++ [p]) t :=
        ⟨harr', hne', by simp [hidx], rfl, hg⟩
      have hsel := selectSource_between fs pre (p :: t) s ⟨harr, hne, hidx, hfp, hg⟩
      have hsel1 := selectSource_between fs (pre ++ [p]) t _ hb1
      rw [nextLoop_congr fs fuel s _ (hsel.trans (by simp only [openSpec, hfs]; exact hsel1.symm))]
      rw [ih (pre ++ [p]) _ fuel hb1 (by simp at hfuel; omega)]
      simp only [nextFrom, hfs]
    | some gs =>
      have hsel := selectSource_between fs pre (p :: t) s ⟨harr, hne, hidx, hfp, hg⟩
      cases gs with
      | nil =>
        cases fuel with
        | zero => simp at hfuel
        | succ f =>
          have hb1 : Between { s with
              fn := some p
              fidx := s.fidx + 1
              fp := .null
              open_files := s.open_files ++ [p]
              agfile := p
              gidx := 0 } (pre ++ [p]) t :=
            ⟨harr', hne', by simp [hidx], rfl, rfl⟩
          unfold nextLoop
          rw [hsel]
          simp only [Res.bind, openSpec, hfs, agread]
          simp only [nextFrom, hfs]
          rw [← ih (pre ++ [p]) _ f hb1 (by simpa using hfuel)]
          simp
      | cons g r =>
        unfold nextLoop
        rw [hsel]
        simp only [Res.bind, openSpec, hfs, agread, gvg_init, nextFrom]
        simp

/-- An exhausted file: the stream goes on between two sources. -/
theorem nextLoop_file_nil (fs : FileSystem) (fuel : Nat) (s : Stream) (h : s.fp = .file []) :
    nextLoop fs (fuel + 1) s =
      nextLoop fs fuel { s with agfile := s.fn.getD "<stdin>".toList, fp := .null, gidx := 0 } := by
  have hne : s.fp ≠ .null := by rw [h]; simp
  conv_lhs => unfold nextLoop
  rw [selectSource_open fs s hne]
  simp only [Res.bind, agread, h]
  simp

/-- A call between two sources, with the fuel that `gvNextInputGraph` supplies. -/
theorem gvNextInputGraph_between (fs : FileSystem) (pre suf : List CStr) (s : Stream)
    (h : Between s pre suf) : gvNextInputGraph fs s = .ok (nextFrom fs suf s) := by
  unfold gvNextInputGraph
  apply nextLoop_between fs suf pre s _ h
  rw [h.1]; simp; omega

/-- The caller's loop depends on its start state only through the first call. -/
theorem gvDrain_congr (fs : FileSystem) (n : Nat) (s s' : Stream)
    (h : gvNextInputGraph fs s = gvNextInputGraph fs s') :
    gvDrain fs (n + 1) s = gvDrain fs (n + 1) s' := by
  simp only [gvDrain, h]

/-- The run from a state in which the file `p` is open with the graphs `rest`
unread, given the run between two sources for the paths `suf` that follow. -/
theorem drain_reading (fs : FileSystem) (suf : List CStr)
    (hA : ∀ (pre : List CStr) (s : Stream) (n : Nat), Between s pre suf →
      (expectedGraphs fs suf).length + 1 ≤ n →
      ∃ s', gvDrain fs n s = .ok (expectedGraphs fs suf, s') ∧
        s'.gvgs = s.gvgs ++ expectedContexts fs suf ∧
        s'.graphviz_errors = s.graphviz_errors + openFailures fs suf)
    (p : CStr) (pre : List CStr) :
    ∀ (rest : List graph_t) (s : Stream) (n : Nat),
      s.input_filenames = (pre ++ suf).map some ++ [none] → pre ++ suf ≠ [] →
      s.fidx = pre.length → s.fp = .file rest → s.fn = some p →
      rest.length + (expectedGraphs fs suf).length + 1 ≤ n →
      ∃ s', gvDrain fs n s = .ok (rest ++ expectedGraphs fs suf, s') ∧
        s'.gvgs = s.gvgs ++ contextsFrom p s.gidx rest ++ expectedContexts fs suf ∧
        s'.graphviz_errors = s.graphviz_errors + openFailures fs suf := by
  intro rest
  induction rest with
  | nil =>
    intro s n harr hne hidx hfp hfn hn
    cases n with
    | zero => simp at hn
    | succ m =>
      have hb : Between { s with agfile := s.fn.getD "<stdin>".toList, fp := .null, gidx := 0 }
          pre suf := ⟨harr, hne, hidx, rfl, rfl⟩
      have hcall : gvNextInputGraph fs s = gvNextInputGraph fs
          { s with agfile := s.fn.getD "<stdin>".toList, fp := .null, gidx := 0 } := by
        rw [gvNextInputGraph_between fs pre suf _ hb]
        unfold gvNextInputGraph
        rw [nextLoop_file_nil fs _ s hfp]
        apply nextLoop_between fs suf pre _ _ hb
        rw [harr]; simp; omega
      rw [gvDrain_congr fs m s _ hcall]
      obtain ⟨s', h1, h2, h3⟩ := hA pre _ (m + 1) hb (by simpa using hn)
      exact ⟨s', by simpa using h1, by simpa [contextsFrom] using h2, by simpa using h3⟩
  | cons g r ih =>
    intro s n harr hne hidx hfp hfn hn
    cases n with
    | zero => simp at hn
    | succ m =>
      have hcall : gvNextInputGraph fs s = .ok (some g,
          { s with
            agfile := s.fn.getD "<stdin>".toList
            fp := .file r
            gidx := s.gidx + 1
            gvgs := s.gvgs ++ [{ g := g, input_filename := s.fn, graph_index := s.gidx }] }) := by
        unfold gvNextInputGraph
        exact nextLoop_file_cons fs _ s g r hfp
      obtain ⟨s', h1, h2, h3⟩ := ih
        { s with
          agfile := s.fn.getD "<stdin>".toList
          fp := .file r
          gidx := s.gidx + 1
          gvgs := s.gvgs ++ [{ g := g, input_filename := s.fn, graph_index := s.gidx }] }
        m harr hne hidx rfl hfn (by simp at hn ⊢; omega)
      refine ⟨s', ?_, ?_, ?_⟩
      · simp only [gvDrain, hcall, Res.bind, h1]
        simp
      · rw [h2]
        simp [contextsFrom, hfn]
      · simpa using h3

/-- The run of the caller's loop between two sources: the graphs, the graph
contexts and the failures of the paths not yet tried. -/
theorem drain_between (fs : FileSystem) (suf : List CStr) :
    ∀ (pre : List CStr) (s : Stream) (n : Nat), Between s pre suf →
      (expectedGraphs fs suf).length + 1 ≤ n →
      ∃ s', gvDrain fs n s = .ok (expectedGraphs fs suf, s') ∧
        s'.gvgs = s.gvgs ++ expectedContexts fs suf ∧
        s'.graphviz_errors = s.graphviz_errors + openFailures fs suf := by
  induction suf with
  | nil =>
    intro pre s n hb hn
    cases n with
    | zero => simp at hn
    | succ m =>
      refine ⟨{ s with fn := none, fidx := s.fidx + 1 }, ?_, ?_, ?_⟩
      · simp only [gvDrain, gvNextInputGraph_between fs pre [] s hb, nextFrom, Res.bind,
          expectedGraphs]
      · simp [expectedContexts]
      · simp [openFailures]
  | cons p t ih =>
    intro pre s n hb hn
    obtain ⟨harr, hne, hidx, hfp, hg⟩ := hb
    have harr' : s.input_filenames = List.map some ((pre ++ [p]) ++ t) ++ [none] := by
      simpa using harr
    have hne' : (pre ++ [p]) ++ t ≠ [] := by simp
    have hcall := gvNextInputGraph_between fs pre (p :: t) s ⟨harr, hne, hidx, hfp, hg⟩
    cases n with
    | zero => simp at hn
    | succ m =>
      cases hfs : fs p with
      | none =>
        have hb1 : Between { s with
            fn := some p
            fidx := s.fidx + 1
            fp := .null
            cant_open := s.cant_open ++ [p]
            graphviz_errors := s.graphviz_errors + 1 } (pre ++ [p]) t :=
          ⟨harr', hne', by simp [hidx], rfl, hg⟩
        have hcall1 := gvNextInputGraph_between fs (pre ++ [p]) t _ hb1
        have hEq : gvNextInputGraph fs s = gvNextInputGraph fs _ :=
          hcall.trans (by simp only [nextFrom, hfs]; exact hcall1.symm)
        rw [gvDrain_congr fs m s _ hEq]
        have hG : expectedGraphs fs (p :: t) = expectedGraphs fs t := by
          simp [expectedGraphs, fileGraphs, hfs]
        obtain ⟨s', h1, h2, h3⟩ := ih (pre ++ [p]) _ (m + 1) hb1 (by rw [hG] at hn; exact hn)
        refine ⟨s', by rw [hG]; exact h1, ?_, ?_⟩
        · rw [h2]; simp [expectedContexts, fileGraphs, hfs, contextsFrom]
        · rw [h3]; simp [openFailures, hfs]; omega
      | some gs =>
        cases gs with
        | nil =>
          have hb1 : Between { s with
              fn := some p
              fidx := s.fidx + 1
              fp := .null
              open_files := s.open_files ++ [p]
              agfile := p
              gidx := 0 } (pre ++ [p]) t :=
            ⟨harr', hne', by simp [hidx], rfl, rfl⟩
          have hcall1 := gvNextInputGraph_between fs (pre ++ [p]) t _ hb1
          have hEq : gvNextInputGraph fs s = gvNextInputGraph fs _ :=
            hcall.trans (by simp only [nextFrom, hfs]; exact hcall1.symm)
          rw [gvDrain_congr fs m s _ hEq]
          have hG : expectedGraphs fs (p :: t) = expectedGraphs fs t := by
            simp [expectedGraphs, fileGraphs, hfs]
          obtain ⟨s', h1, h2, h3⟩ := ih (pre ++ [p]) _ (m + 1) hb1 (by rw [hG] at hn; exact hn)
          refine ⟨s', by rw [hG]; exact h1, ?_, ?_⟩
          · rw [h2]; simp [expectedContexts, fileGraphs, hfs, contextsFrom]
          · rw [h3]; simp [openFailures, hfs]
        | cons g r =>
          have hG : expectedGraphs fs (p :: t) = g :: (r ++ expectedGraphs fs t) := by
            simp [expectedGraphs, fileGraphs, hfs]
          obtain ⟨s', h1, h2, h3⟩ := drain_reading fs t ih p (pre ++ [p]) r
            { s with
              fn := some p
              fidx := s.fidx + 1
              fp := .file r
              open_files := s.open_files ++ [p]
              agfile := p
              gidx := s.gidx + 1
              gvgs := s.gvgs ++ [{ g := g, input_filename := some p, graph_index := s.gidx }] }
            m harr' hne' (by simp [hidx]) rfl rfl
            (by rw [hG] at hn; simp at hn ⊢; omega)
          refine ⟨s', ?_, ?_, ?_⟩
          · simp only [gvDrain, hcall, nextFrom, hfs, Res.bind, h1, hG]
          · rw [h2]; simp [expectedContexts, fileGraphs, hfs, contextsFrom, hg]
          · rw [h3]; simp [openFailures, hfs]

/-- C4 (counterexample): with the empty input-file list and one graph on standard
input, the stream yields that graph, registered with no file name, although there
is no openable file at all. -/
theorem gvNextInputGraph_empty_list_yields :
    expectedGraphs noFiles [] = [] ∧
    (gvDrain noFiles 2 (Stream.init [] [namedGraph "g"] [] 0)).toOption.map Prod.fst =
      some [namedGraph "g"] ∧
    (gvDrain noFiles 2 (Stream.init [] [namedGraph "g"] [] 0)).toOption.map
        (fun r => r.2.gvgs) =
      some [{ g := namedGraph "g", input_filename := none, graph_index := 0 }] := by
  decide!

/-- C4 (amended): for every non-empty input-file list, every file system (which
paths can be opened, and which graphs each file holds) and every prior list of
graph contexts and error count, calling `gvNextInputGraph` until it returns the
end of the sequence yields exactly the graphs of the openable files, in list order
and in file order within each file; the graph contexts appended are those graphs
with the path of their file and the indices 0, 1, ... restarting at 0 for every
file; and `graphviz_errors` grows by the number of paths that cannot be opened.
In particular for `[a, b]` with `a` not openable and `b` holding two graphs: two
graphs, both with the path `b`, indices 0 and 1, one failure. -/
theorem gvNextInputGraph_run (fs : FileSystem) (files : List CStr)
    (stdin_graphs : List graph_t) (gvgs : List GVG) (errors n : Nat)
    (hne : files ≠ []) (hn : (expectedGraphs fs files).length + 1 ≤ n) :
    (∃ s', gvDrain fs n (Stream.init files stdin_graphs gvgs errors) =
        .ok (expectedGraphs fs files, s') ∧
      s'.gvgs = gvgs ++ expectedContexts fs files ∧
      s'.graphviz_errors = errors + openFailures fs files) ∧
    (∀ (a b : CStr) (g0 g1 : graph_t), files = [a, b] → fs a = none → fs b = some [g0, g1] →
      ∃ s', gvDrain fs n (Stream.init files stdin_graphs gvgs errors) = .ok ([g0, g1], s') ∧
        s'.gvgs = gvgs ++ [{ g := g0, input_filename := some b, graph_index := 0 },
          { g := g1, input_filename := some b, graph_index := 1 }] ∧
        s'.graphviz_errors = errors + 1) := by
  have main := drain_between fs files [] (Stream.init files stdin_graphs gvgs errors) n
    ⟨by simp [Stream.init], by simpa using hne, rfl, rfl, rfl⟩ hn
  refine ⟨main, ?_⟩
  intro a b g0 g1 hf ha hb
  subst hf
  obtain ⟨s', h1, h2, h3⟩ := main
  refine ⟨s', ?_, ?_, ?_⟩
  · rw [h1]; simp [expectedGraphs, fileGraphs, ha, hb]
  · rw [h2]; simp [Stream.init, expectedContexts, fileGraphs, ha, hb, contextsFrom]
  · rw [h3]; simp [Stream.init, openFailures, ha, hb]

/-- C4 (witness): the list `[a, b]` in a file system where `a` cannot be opened
and `b` holds the graphs `g0` and `g1`. -/
theorem gvNextInputGraph_run_witness :
    ∃ s', gvDrain twoGraphs 3 (Stream.init (mkArgv ["a", "b"]) [] [] 0) =
        .ok ([namedGraph "g0", namedGraph "g1"], s') ∧
      s'.gvgs = [] ++ [{ g := namedGraph "g0", input_filename := some "b".toList, graph_index := 0 },
        { g := namedGraph "g1", input_filename := some "b".toList, graph_index := 1 }] ∧
      s'.graphviz_errors = 0 + 1 :=
  (gvNextInputGraph_run twoGraphs (mkArgv ["a", "b"]) [] [] 0 3 (by decide) (by decide)).2
    "a".toList "b".toList (namedGraph "g0") (namedGraph "g1") (by decide) (by decide) (by decide)

/-- The caller's sequence of calls depends on its start state only through the
first call. -/
theorem gvCalls_congr (fs : FileSystem) (n : Nat) (s s' : Stream)
    (h : gvNextInputGraph fs s = gvNextInputGraph fs s') :
    gvCalls fs (n + 1) s = gvCalls fs (n + 1) s' := by
  simp only [gvCalls, h]

/-- The first call with an empty list: standard input is selected, and the call
goes on as a call in that state. -/
theorem gvNextInputGraph_select_stdin (fs : FileSystem) (s : Stream)
    (harr : s.input_filenames = [none]) (hfp : s.fp = .null) (hidx : s.fidx = 0) :
    gvNextInputGraph fs s = gvNextInputGraph fs
      { s with fn := none, fidx := 1, fp := .stdin, stdin_selected := s.stdin_selected + 1 } := by
  have h1 : selectSource fs s = .ok
      { s with fn := none, fidx := 1, fp := .stdin, stdin_selected := s.stdin_selected + 1 } := by
    unfold selectSource
    simp [hfp, harr, hidx]
  have h2 := selectSource_open fs
    { s with fn := none, fidx := 1, fp := .stdin, stdin_selected := s.stdin_selected + 1 }
    (by simp)
  unfold gvNextInputGraph
  exact nextLoop_congr fs _ s _ (h1.trans h2.symm)

/-- A call with an empty list after standard input has been given up. -/
theorem gvNextInputGraph_after_stdin (fs : FileSystem) (s : Stream)
    (harr : s.input_filenames = [none]) (hfp : s.fp = .null) (hidx : s.fidx ≠ 0) :
    gvNextInputGraph fs s = .ok (none, { s with fn := none, fidx := s.fidx + 1 }) := by
  unfold gvNextInputGraph nextLoop selectSource
  simp [hfp, harr, hidx, Res.bind]

/-- A call that reads a graph from standard input. -/
theorem gvNextInputGraph_stdin_cons (fs : FileSystem) (s : Stream) (g : graph_t)
    (r : List graph_t) (hfp : s.fp = .stdin) (hin : s.stdin_unread = g :: r) :
    gvNextInputGraph fs s = .ok (some g,
      { s with
        agfile := s.fn.getD "<stdin>".toList
        stdin_unread := r
        gidx := s.gidx + 1
        gvgs := s.gvgs ++ [{ g := g, input_filename := s.fn, graph_index := s.gidx }] }) := by
  have hne : s.fp ≠ .null := by rw [hfp]; simp
  unfold gvNextInputGraph nextLoop
  rw [selectSource_open fs s hne]
  simp only [Res.bind, agread, hfp, hin, gvg_init]
  simp

/-- A call that finds standard input exhausted. -/
theorem gvNextInputGraph_stdin_nil (fs : FileSystem) (s : Stream)
    (harr : s.input_filenames = [none]) (hfp : s.fp = .stdin) (hin : s.stdin_unread = [])
    (hidx : s.fidx ≠ 0) :
    gvNextInputGraph fs s = .ok (none,
      { s with
        agfile := s.fn.getD "<stdin>".toList
        fp := .null
        gidx := 0
        fn := none
        fidx := s.fidx + 1 }) := by
  have hne : s.fp ≠ .null := by rw [hfp]; simp
  unfold gvNextInputGraph
  rw [harr]
  conv_lhs => unfold nextLoop
  rw [selectSource_open fs s hne]
  simp only [Res.bind, agread, hfp, hin]
  simp only [List.length_singleton, Nat.reduceAdd]
  unfold nextLoop selectSource
  simp [harr, hidx, Res.bind]

/-- Calls after standard input has been given up all return the end of the
sequence and never select standard input. -/
theorem gvCalls_after_stdin (fs : FileSystem) :
    ∀ (k : Nat) (s : Stream), s.input_filenames = [none] → s.fp = .null → s.fidx ≠ 0 →
      ∃ s', gvCalls fs k s = .ok (List.replicate k none, s') ∧
        s'.stdin_selected = s.stdin_selected := by
  intro k
  induction k with
  | zero => intro s _ _ _; exact ⟨s, rfl, rfl⟩
  | succ k ih =>
    intro s harr hfp hidx
    obtain ⟨s', h1, h2⟩ := ih { s with fn := none, fidx := s.fidx + 1 } harr hfp
      (Nat.succ_ne_zero _)
    refine ⟨s', ?_, h2⟩
    simp only [gvCalls, gvNextInputGraph_after_stdin fs s harr hfp hidx, Res.bind, h1,
      List.replicate_succ]

/-- Calls while standard input is the source: its graphs in order, then the end
of the sequence for as many calls as are made, without a new selection. -/
theorem gvCalls_stdin (fs : FileSystem) (k : Nat) :
    ∀ (gs : List graph_t) (s : Stream), s.input_filenames = [none] → s.fp = .stdin →
      s.fidx ≠ 0 → s.stdin_unread = gs →
      ∃ s', gvCalls fs (gs.length + 1 + k) s =
          .ok (gs.map some ++ List.replicate (k + 1) none, s') ∧
        s'.stdin_selected = s.stdin_selected := by
  intro gs
  induction gs with
  | nil =>
    intro s harr hfp hidx hin
    obtain ⟨s', h1, h2⟩ := gvCalls_after_stdin fs k
      { s with
        agfile := s.fn.getD "<stdin>".toList
        fp := .null
        gidx := 0
        fn := none
        fidx := s.fidx + 1 } harr rfl (Nat.succ_ne_zero _)
    refine ⟨s', ?_, h2⟩
    have e : ([] : List graph_t).length + 1 + k = k + 1 := by simp; omega
    rw [e]
    simp only [gvCalls, gvNextInputGraph_stdin_nil fs s harr hfp hin hidx, Res.bind, h1,
      List.replicate_succ, List.map_nil, List.nil_append]
  | cons g r ih =>
    intro s harr hfp hidx hin
    obtain ⟨s', h1, h2⟩ := ih
      { s with
        agfile := s.fn.getD "<stdin>".toList
        stdin_unread := r
        gidx := s.gidx + 1
        gvgs := s.gvgs ++ [{ g := g, input_filename := s.fn, graph_index := s.gidx }] }
      harr hfp hidx rfl
    refine ⟨s', ?_, h2⟩
    have e : (g :: r).length + 1 + k = (r.length + 1 + k) + 1 := by simp; omega
    rw [e]
    simp only [gvCalls, gvNextInputGraph_stdin_cons fs s g r hfp hin, Res.bind, h1,
      List.map_cons, List.cons_append]

/-- C5: with the empty input-file list, for every content of standard input and
every number `k` of further calls, the first calls of `gvNextInputGraph` yield the
graphs parsable from standard input in order, the next call returns the end of the
sequence, so do the `k` calls after it, and over all these calls the statement
`fp = stdin` has been executed exactly once. -/
theorem gvNextInputGraph_stdin_once (fs : FileSystem) (stdin_graphs : List graph_t)
    (gvgs : List GVG) (errors k : Nat) :
    ∃ s', gvCalls fs (stdin_graphs.length + 1 + k) (Stream.init [] stdin_graphs gvgs errors) =
        .ok (stdin_graphs.map some ++ List.replicate (k + 1) none, s') ∧
      s'.stdin_selected = 1 := by
  have hsel := gvNextInputGraph_select_stdin fs (Stream.init [] stdin_graphs gvgs errors)
    rfl rfl rfl
  have e : stdin_graphs.length + 1 + k = (stdin_graphs.length + k) + 1 := by omega
  obtain ⟨s', h1, h2⟩ := gvCalls_stdin fs k stdin_graphs
    { Stream.init [] stdin_graphs gvgs errors with
      fn := none, fidx := 1, fp := .stdin
      stdin_selected := (Stream.init [] stdin_graphs gvgs errors).stdin_selected + 1 }
    rfl rfl (by simp) rfl
  refine ⟨s', ?_, h2⟩
  rw [e, gvCalls_congr fs _ _ _ hsel, ← e]
  exact h1

/-! ## Theorems: fuel of the stream loops -/

/-- The loop `openLoop` never runs out of fuel when the fuel covers the array
entries that are left; when it succeeds it has moved `fidx` forward, left the array
as it was, and an open source means that the entry read last lies inside the
array. -/
theorem openLoop_total (fs : FileSystem) :
    ∀ (fuel : Nat) (s : Stream), s.input_filenames.length ≤ fuel + s.fidx → s.fp = .null →
      openLoop fs fuel s ≠ .timeout ∧
      ∀ s', openLoop fs fuel s = .ok s' →
        s.fidx < s'.fidx ∧ s'.input_filenames = s.input_filenames ∧
        (s'.fp ≠ .null → s'.fidx ≤ s.input_filenames.length) := by
  intro fuel
  induction fuel with
  | zero =>
    intro s h hfp
    rw [openLoop]
    cases hget : s.input_filenames[s.fidx]? with
    | none => simp
    | some e =>
      have hlt : s.fidx < s.input_filenames.length := by
        by_contra hc
        rw [List.getElem?_eq_none (by omega)] at hget
        exact absurd hget (by simp)
      omega
  | succ f ih =>
    intro s h hfp
    rw [openLoop]
    cases hget : s.input_filenames[s.fidx]? with
    | none => simp
    | some e =>
      have hlt : s.fidx < s.input_filenames.length := by
        by_contra hc
        rw [List.getElem?_eq_none (by omega)] at hget
        exact absurd hget (by simp)
      cases e with
      | none =>
        simp only []
        refine ⟨by simp, ?_⟩
        intro s' hs'
        injection hs' with hs'
        subst hs'
        simp [hfp]
      | some path =>
        simp only []
        cases fs path with
        | some gs =>
          simp only []
          refine ⟨by simp, ?_⟩
          intro s' hs'
          injection hs' with hs'
          subst hs'
          simp
          omega
        | none =>
          simp only []
          obtain ⟨h1, h2⟩ := ih { s with
            fn := some path
            fidx := s.fidx + 1
            fp := .null
            cant_open := s.cant_open ++ [path]
            graphviz_errors := s.graphviz_errors + 1 } (by simp; omega) rfl
          refine ⟨h1, ?_⟩
          intro s' hs'
          obtain ⟨a, b, c⟩ := h2 s' hs'
          exact ⟨by simp at a; omega, by simpa using b, by simpa using c⟩

/-- The source selection never runs out of fuel; when it succeeds from a state
with no open source, either no source is open afterwards, or `fidx` has moved
forward and lies inside the array. -/
theorem selectSource_total (fs : FileSystem) (s : Stream) :
    selectSource fs s ≠ .timeout ∧
    ∀ s', selectSource fs s = .ok s' →
      s'.input_filenames = s.input_filenames ∧
      (s.fp = .null → s'.fp ≠ .null →
        s.fidx < s'.fidx ∧ s'.fidx ≤ s.input_filenames.length) ∧
      (s.fp ≠ .null → s' = s) := by
  unfold selectSource
  by_cases hfp : s.fp = .null
  · rw [if_pos hfp]
    cases hget : s.input_filenames[0]? with
    | none => simp
    | some e =>
      have hlt : 0 < s.input_filenames.length := by
        by_contra hc
        rw [List.getElem?_eq_none (by omega)] at hget
        exact absurd hget (by simp)
      cases e with
      | none =>
        simp only []
        by_cases h0 : s.fidx = 0
        · rw [if_pos h0]
          refine ⟨by simp, ?_⟩
          intro s' hs'
          injection hs' with hs'
          subst hs'
          simp [hfp, h0]
          omega
        · rw [if_neg h0]
          refine ⟨by simp, ?_⟩
          intro s' hs'
          injection hs' with hs'
          subst hs'
          simp [hfp]
      | some p =>
        simp only []
        obtain ⟨h1, h2⟩ := openLoop_total fs s.input_filenames.length { s with fn := some p }
          (by simp) hfp
        refine ⟨h1, ?_⟩
        intro s' hs'
        obtain ⟨a, b, c⟩ := h2 s' hs'
        exact ⟨by simpa using b, fun _ hn => ⟨by simpa using a, by simpa using c hn⟩,
          fun hn => absurd hfp hn⟩
  · rw [if_neg hfp]
    refine ⟨by simp, ?_⟩
    intro s' hs'
    injection hs' with hs'
    subst hs'
    exact ⟨rfl, fun h => absurd h hfp, fun _ => rfl⟩

/-- The loop of `gvNextInputGraph` never runs out of fuel when the fuel covers the
array entries that are left, plus one for a source that is open. -/
theorem nextLoop_total (fs : FileSystem) :
    ∀ (fuel : Nat) (s : Stream),
      (s.input_filenames.length - s.fidx) + (if s.fp = .null then 0 else 1) ≤ fuel →
      nextLoop fs fuel s ≠ .timeout := by
  intro fuel
  induction fuel with
  | zero =>
    intro s h
    obtain ⟨h1, h2⟩ := selectSource_total fs s
    unfold nextLoop
    cases hsel : selectSource fs s with
    | timeout => exact absurd hsel h1
    | fault => simp [Res.bind]
    | ok s' =>
      obtain ⟨a, b, c⟩ := h2 s' hsel
      simp only [Res.bind]
      by_cases hfp' : s'.fp = .null
      · rw [if_pos hfp']; simp
      · exfalso
        by_cases hfp : s.fp = .null
        · have := b hfp hfp'
          rw [if_pos hfp] at h
          omega
        · rw [if_neg hfp] at h
          omega
  | succ f ih =>
    intro s h
    obtain ⟨h1, h2⟩ := selectSource_total fs s
    unfold nextLoop
    cases hsel : selectSource fs s with
    | timeout => exact absurd hsel h1
    | fault => simp [Res.bind]
    | ok s' =>
      obtain ⟨a, b, c⟩ := h2 s' hsel
      simp only [Res.bind]
      by_cases hfp' : s'.fp = .null
      · rw [if_pos hfp']; simp
      · rw [if_neg hfp']
        have hidx : s'.input_filenames.length - s'.fidx ≤ f := by
          by_cases hfp : s.fp = .null
          · have := b hfp hfp'
            rw [if_pos hfp] at h
            rw [a]; omega
          · rw [if_neg hfp] at h
            rw [c hfp]; omega
        split
        · simp
        · rename_i hr
          apply ih
          have e1 : (agread { s' with agfile := s'.fn.getD "<stdin>".toList }).2.input_filenames
              = s'.input_filenames := by
            unfold agread; simp only []; split <;> (try split) <;> rfl
          have e2 : (agread { s' with agfile := s'.fn.getD "<stdin>".toList }).2.fidx
              = s'.fidx := by
            unfold agread; simp only []; split <;> (try split) <;> rfl
          simp only [e1, e2]
          simpa using hidx

/-- The fuel that `gvNextInputGraph` gives its loop is enough: from every state
the embedding ends with a result or with an access outside the array, never in
`timeout`. -/
theorem gvNextInputGraph_total (fs : FileSystem) (s : Stream) :
    gvNextInputGraph fs s ≠ .timeout := by
  unfold gvNextInputGraph
  apply nextLoop_total
  split_ifs <;> omega

/-! ## Theorems: the scanning loop of `dotneato_args_initialize` -/

/-- One iteration of the scanning loop. -/
theorem args_loop_succ (env : Env) (argc fuel : Nat) (l : Loop) (h : l.i < argc) :
    args_loop env argc (fuel + 1) l =
      (args_token env argc l).bind fun l => args_loop env argc fuel { l with i := l.i + 1 } := by
  rw [args_loop]
  simp [h]

/-- The whole effect of `getFlagOpt` on a token made of the flag marker and one
flag letter. -/
theorem getFlagOpt_bare (argc : Nat) (argv : List CStr) (i : Nat) (c : Char)
    (h : argv[i]? = some ['-', c]) :
    getFlagOpt argc argv i =
      if i + 1 < argc ∧ argv.getD (i + 1) [] ≠ [] ∧ (argv.getD (i + 1) []).head? ≠ some '-'
      then { ret := some (argv.getD (i + 1) []), idx := i + 1, argv := argv }
      else { ret := none, idx := i, argv := argv } := by
  have hi : argv.getD i [] = ['-', c] := by simp [List.getD_eq_getElem?_getD, h]
  unfold getFlagOpt
  simp only [hi, CStr.nonNulAt, CStr.startsWith]
  generalize argv.getD (i + 1) [] = next
  by_cases hlt : i < argc - 1
  · have hlt2 : i + 1 < argc := by omega
    cases next with
    | nil => simp [hlt]
    | cons a t =>
      by_cases ha : a = '-'
      · simp [hlt, ha]
      · simp [hlt, hlt2, ha]
  · have hlt2 : ¬ (i + 1 < argc) := by omega
    simp [hlt, hlt2]

/-- C6: when the scanning loop reaches a token `-s` with no fused text, it sets
`PSinputscale` to `POINTS_PER_INCH`, which is 72, and goes on with the next token;
when it reaches `-s<text>` and `atof` gives a value above 0 for the text, it sets
`PSinputscale` to that value and goes on with the next token; when `atof` gives a
value that is 0 or less, the process is terminated with exit code 1 after the
diagnostic and the usage text have been written to `stderr`.  In particular the
command lines `dot -s0` and `dot -s-1` end with exit code 1. -/
theorem s_flag_scale (env : Env) (argc fuel : Nat) (l : Loop) (rest : CStr)
    (hi : l.i < argc) (htok : l.st.argv[l.i]? = some ('-' :: 's' :: rest)) :
    (rest = [] →
      args_loop env argc (fuel + 1) l =
        args_loop env argc fuel
          { l with i := l.i + 1, st := { l.st with PSinputscale := POINTS_PER_INCH } }) ∧
    POINTS_PER_INCH = 72 ∧
    (rest ≠ [] → 0 < env.atof rest →
      args_loop env argc (fuel + 1) l =
        args_loop env argc fuel
          { l with i := l.i + 1, st := { l.st with PSinputscale := env.atof rest } }) ∧
    (rest ≠ [] → env.atof rest ≤ 0 →
      args_loop env argc (fuel + 1) l =
        .exit 1 { l.st with
          PSinputscale := env.atof rest
          stderr := l.st.stderr ++ [.invalidS rest, .usage] }) ∧
    (runArgs ["dot", "-s0"] .AGWARN).exitCode = some 1 ∧
    (runArgs ["dot", "-s-1"] .AGWARN).exitCode = some 1 := by
  refine ⟨?_, rfl, ?_, ?_, by decide!, by decide!⟩
  · intro hr
    subst hr
    rw [args_loop_succ env argc fuel l hi]
    simp [args_token, htok, CStr.startsWith, CStr.nonNulAt, Outcome.bind]
  · intro hr hpos
    have hlen : 0 < rest.length := List.length_pos.mpr hr
    have hnle : ¬ env.atof rest ≤ 0 := not_le.mpr hpos
    rw [args_loop_succ env argc fuel l hi]
    simp [args_token, htok, CStr.startsWith, CStr.nonNulAt, Outcome.bind, hlen, hnle]
  · intro hr hneg
    have hlen : 0 < rest.length := List.length_pos.mpr hr
    rw [args_loop_succ env argc fuel l hi]
    simp [args_token, htok, CStr.startsWith, CStr.nonNulAt, Outcome.bind, hlen, hneg,
      dotneato_usage, State.err]

/-- C6 (witness): the command lines `dot -s`, `dot -s1.5` and `dot -s0`. -/
theorem s_flag_scale_witness :
    ((runArgs ["dot", "-s"] .AGWARN).state.map
        fun st => st.PSinputscale) = some 72 ∧
    (args_loop libc 2 1 ⟨1, 0, State.init (mkArgv ["dot", "-s1.5"]) .AGWARN 1⟩ =
      args_loop libc 2 0 ⟨2, 0, { State.init (mkArgv ["dot", "-s1.5"]) .AGWARN 1 with
        PSinputscale := libc.atof "1.5".toList }⟩ ∧ libc.atof "1.5".toList = 3 / 2) ∧
    (args_loop libc 2 1 ⟨1, 0, State.init (mkArgv ["dot", "-s0"]) .AGWARN 1⟩).exitCode =
      some 1 := by
  refine ⟨by decide!, ⟨?_, by decide!⟩, ?_⟩
  · exact (s_flag_scale libc 2 0 ⟨1, 0, State.init (mkArgv ["dot", "-s1.5"]) .AGWARN 1⟩
      "1.5".toList (by decide) (by decide)).2.2.1 (by decide) (by decide!)
  · rw [(s_flag_scale libc 2 0 ⟨1, 0, State.init (mkArgv ["dot", "-s0"]) .AGWARN 1⟩
      "0".toList (by decide) (by decide)).2.2.2.1 (by decide) (by decide!)]
    rfl

/-- The C library model converts a text that begins with neither white space, a
sign nor a digit to 0. -/
theorem atoi_non_numeric (c : Char) (t : CStr) (hsp : isspace c = false) (hm : c ≠ '-')
    (hp : c ≠ '+') (hd : isdigit c = false) : atoi (c :: t) = 0 := by
  have h1 : List.dropWhile isspace (c :: t) = c :: t := by simp [List.dropWhile, hsp]
  have h2 : scanSign (c :: t) = (false, c :: t) := by
    unfold scanSign
    split
    · rename_i h; injection h with h _; exact absurd h hm
    · rename_i h; injection h with h _; exact absurd h hp
    · rfl
  have h3 : List.span isdigit (c :: t) = ([], c :: t) := by
    simp [List.span, List.span.loop, hd]
  unfold atoi
  simp only [h1, h2, h3]
  decide

/-- C7: when the scanning loop reaches the token `-q` with no fused text, or a
token `-q<text>` for whose text `atoi` gives 1, it sets the error level to `AGERR`;
when `atoi` gives an integer that is 2 or more it sets the level to `AGMAX`; when
`atoi` gives 0 or less, as it does for the text `foo`, nothing but a diagnostic on
`stderr` changes, so the level is as before, and the loop goes on with the next
token.  With the C library model, `1`, `2` and `foo` are converted to 1, 2 and 0,
and so is to 0 every text that begins with neither white space, a sign nor a
digit. -/
theorem q_flag_level (env : Env) (argc fuel : Nat) (l : Loop) (rest : CStr)
    (hi : l.i < argc) (htok : l.st.argv[l.i]? = some ('-' :: 'q' :: rest)) :
    (rest = [] ∨ (rest ≠ [] ∧ env.atoi rest = 1) →
      args_loop env argc (fuel + 1) l =
        args_loop env argc fuel
          { l with i := l.i + 1, st := { l.st with agerrlevel := .AGERR } }) ∧
    (rest ≠ [] → 2 ≤ env.atoi rest →
      args_loop env argc (fuel + 1) l =
        args_loop env argc fuel
          { l with i := l.i + 1, st := { l.st with agerrlevel := .AGMAX } }) ∧
    (rest ≠ [] → env.atoi rest ≤ 0 →
      args_loop env argc (fuel + 1) l =
        args_loop env argc fuel
          { l with i := l.i + 1, st := { l.st with stderr := l.st.stderr ++ [.invalidQ rest] } }) ∧
    (libc.atoi "1".toList = 1 ∧ libc.atoi "2".toList = 2 ∧ libc.atoi "foo".toList = 0 ∧
      ∀ (c : Char) (t : CStr), isspace c = false → c ≠ '-' → c ≠ '+' → isdigit c = false →
        libc.atoi (c :: t) = 0) := by
  refine ⟨?_, ?_, ?_, by decide, by decide, by decide, atoi_non_numeric⟩
  · rintro (hr | ⟨hr, h1⟩)
    · subst hr
      rw [args_loop_succ env argc fuel l hi]
      simp [args_token, htok, CStr.startsWith, CStr.nonNulAt, Outcome.bind, agseterr]
    · have hlen : 0 < rest.length := List.length_pos.mpr hr
      rw [args_loop_succ env argc fuel l hi]
      simp [args_token, htok, CStr.startsWith, CStr.nonNulAt, Outcome.bind, agseterr, hlen, h1]
  · intro hr h2
    have hlen : 0 < rest.length := List.length_pos.mpr hr
    have hn0 : ¬ env.atoi rest ≤ 0 := by omega
    have hn1 : ¬ env.atoi rest = 1 := by omega
    rw [args_loop_succ env argc fuel l hi]
    simp [args_token, htok, CStr.startsWith, CStr.nonNulAt, Outcome.bind, agseterr, hlen,
      hn0, hn1]
  · intro hr h0
    have hlen : 0 < rest.length := List.length_pos.mpr hr
    rw [args_loop_succ env argc fuel l hi]
    simp [args_token, htok, CStr.startsWith, CStr.nonNulAt, Outcome.bind, hlen, h0, State.err]

/-- C7 (witness): the command lines `dot -q`, `dot -q1`, `dot -q2`, `dot -q17` and
`dot -qfoo`, started with the level `AGWARN`. -/
theorem q_flag_level_witness :
    (args_loop libc 2 1 ⟨1, 0, State.init (mkArgv ["dot", "-q"]) .AGWARN 1⟩ =
        args_loop libc 2 0 ⟨2, 0, { State.init (mkArgv ["dot", "-q"]) .AGWARN 1 with
          agerrlevel := .AGERR }⟩) ∧
    (args_loop libc 2 1 ⟨1, 0, State.init (mkArgv ["dot", "-q1"]) .AGWARN 1⟩ =
        args_loop libc 2 0 ⟨2, 0, { State.init (mkArgv ["dot", "-q1"]) .AGWARN 1 with
          agerrlevel := .AGERR }⟩) ∧
    (args_loop libc 2 1 ⟨1, 0, State.init (mkArgv ["dot", "-q17"]) .AGWARN 1⟩ =
        args_loop libc 2 0 ⟨2, 0, { State.init (mkArgv ["dot", "-q17"]) .AGWARN 1 with
          agerrlevel := .AGMAX }⟩) ∧
    (args_loop libc 2 1 ⟨1, 0, State.init (mkArgv ["dot", "-qfoo"]) .AGMAX 1⟩ =
        args_loop libc 2 0 ⟨2, 0, { State.init (mkArgv ["dot", "-qfoo"]) .AGMAX 1 with
          stderr := [.invalidQ "foo".toList] }⟩) ∧
    ((runArgs ["dot", "-q"] .AGWARN).state.map
        fun st => st.agerrlevel) = some .AGERR ∧
    ((runArgs ["dot", "-q1"] .AGWARN).state.map
        fun st => st.agerrlevel) = some .AGERR ∧
    ((runArgs ["dot", "-q2"] .AGWARN).state.map
        fun st => st.agerrlevel) = some .AGMAX ∧
    ((runArgs ["dot", "-qfoo"] .AGMAX).state.map
        fun st => st.agerrlevel) = some .AGMAX ∧
    (runArgs ["dot", "-qfoo"] .AGMAX).returned = true :=
  ⟨(q_flag_level libc 2 0 ⟨1, 0, State.init (mkArgv ["dot", "-q"]) .AGWARN 1⟩ []
      (by decide) (by decide)).1 (Or.inl rfl),
   (q_flag_level libc 2 0 ⟨1, 0, State.init (mkArgv ["dot", "-q1"]) .AGWARN 1⟩ "1".toList
      (by decide) (by decide)).1 (Or.inr ⟨by decide, by decide⟩),
   (q_flag_level libc 2 0 ⟨1, 0, State.init (mkArgv ["dot", "-q17"]) .AGWARN 1⟩ "17".toList
      (by decide) (by decide)).2.1 (by decide) (by decide),
   (q_flag_level libc 2 0 ⟨1, 0, State.init (mkArgv ["dot", "-qfoo"]) .AGMAX 1⟩ "foo".toList
      (by decide) (by decide)).2.2.1 (by decide) (by decide),
   by decide!, by decide!, by decide!, by decide!, by decide!⟩

/-- C8 (counterexample): after `-q2` has set the level to `AGMAX`, the token `-q0`
leaves it at `AGMAX`, whereas the token `-q` sets it to `AGERR`; and started with
the level `AGWARN`, `dot -q0` ends with the level `AGWARN`. -/
theorem q_zero_level_not_set :
    libc.atoi "0".toList = 0 ∧
    ((runArgs ["dot", "-q2", "-q0"] .AGWARN).state.map
        fun st => st.agerrlevel) = some .AGMAX ∧
    ((runArgs ["dot", "-q2", "-q"] .AGWARN).state.map
        fun st => st.agerrlevel) = some .AGERR ∧
    ((runArgs ["dot", "-q0"] .AGWARN).state.map
        fun st => st.agerrlevel) = some .AGWARN := by
  decide!

/-- C8 (amended): when the scanning loop reaches a token `-q<text>` for whose
non-empty text `atoi` gives 0 or less, the error level stays as it was: the only
change of the state is the diagnostic "Invalid parameter ... for -q flag - ignored"
on `stderr`, and the loop goes on with the next token. -/
theorem q_flag_nonpositive (env : Env) (argc fuel : Nat) (l : Loop) (rest : CStr)
    (hi : l.i < argc) (htok : l.st.argv[l.i]? = some ('-' :: 'q' :: rest))
    (hr : rest ≠ []) (h0 : env.atoi rest ≤ 0) :
    ∃ st : State,
      args_loop env argc (fuel + 1) l = args_loop env argc fuel { l with i := l.i + 1, st := st } ∧
      st = { l.st with stderr := l.st.stderr ++ [.invalidQ rest] } ∧
      st.agerrlevel = l.st.agerrlevel := by
  refine ⟨_, ?_, rfl, rfl⟩
  have hlen : 0 < rest.length := List.length_pos.mpr hr
  rw [args_loop_succ env argc fuel l hi]
  simp [args_token, htok, CStr.startsWith, CStr.nonNulAt, Outcome.bind, hlen, h0, State.err]

/-- C8 (witness): the tokens `-q0` and `-q-3` met with the level `AGMAX`. -/
theorem q_flag_nonpositive_witness :
    (∃ st : State,
      args_loop libc 2 1 ⟨1, 0, State.init (mkArgv ["dot", "-q0"]) .AGMAX 1⟩ =
        args_loop libc 2 0 ⟨2, 0, st⟩ ∧
      st = { State.init (mkArgv ["dot", "-q0"]) .AGMAX 1 with stderr := [.invalidQ "0".toList] } ∧
      st.agerrlevel = .AGMAX) ∧
    (∃ st : State,
      args_loop libc 2 1 ⟨1, 0, State.init (mkArgv ["dot", "-q-3"]) .AGMAX 1⟩ =
        args_loop libc 2 0 ⟨2, 0, st⟩ ∧
      st = { State.init (mkArgv ["dot", "-q-3"]) .AGMAX 1 with
        stderr := [.invalidQ "-3".toList] } ∧
      st.agerrlevel = .AGMAX) :=
  ⟨q_flag_nonpositive libc 2 0 ⟨1, 0, State.init (mkArgv ["dot", "-q0"]) .AGMAX 1⟩ "0".toList
      (by decide) (by decide) (by decide) (by decide),
   q_flag_nonpositive libc 2 0 ⟨1, 0, State.init (mkArgv ["dot", "-q-3"]) .AGMAX 1⟩ "-3".toList
      (by decide) (by decide) (by decide) (by decide)⟩

/-- C9 (counterexample): the command lines `dot -l` and `dot -l -x` terminate the
process with exit code 1; `dotneato_args_initialize` does not return and the token
`-x` after the `-l` is not processed. -/
theorem l_flag_missing_exits :
    (runArgs ["dot", "-l"] .AGWARN).exitCode
      = some 1 ∧
    (runArgs ["dot", "-l"] .AGWARN).returned
      = false ∧
    (runArgs ["dot", "-l", "-x"] .AGWARN).exitCode
      = some 1 ∧
    ((runArgs ["dot", "-l", "-x"] .AGWARN).state.map fun st => st.Reduce)
      = some false ∧
    ((runArgs ["dot", "-x", "-l"] .AGWARN).state.map fun st => st.Reduce)
      = some true := by
  decide!

/-- C9 (amended): when the scanning loop reaches a token `-l` with no fused text
and no usable following token (there is no next token, or it is empty, or it begins
with `-`), it writes "Missing argument for -l flag" and the usage text to `stderr`
and the process is terminated with exit code 1 by `dotneato_usage(1)`; nothing else
of the state has changed at that point, so the library list is unchanged, and no
further token is processed. -/
theorem l_flag_missing (env : Env) (argc fuel : Nat) (l : Loop)
    (hi : l.i < argc) (htok : l.st.argv[l.i]? = some ['-', 'l'])
    (hmiss : ¬ (l.i + 1 < argc ∧ l.st.argv.getD (l.i + 1) [] ≠ [] ∧
      (l.st.argv.getD (l.i + 1) []).head? ≠ some '-')) :
    ∃ st : State,
      args_loop env argc (fuel + 1) l = .exit 1 st ∧
      st = { l.st with stderr := l.st.stderr ++ [.missingArg 'l', .usage] } ∧
      st.lib = l.st.lib ∧ st.Lib = l.st.Lib := by
  refine ⟨_, ?_, rfl, rfl, rfl⟩
  rw [args_loop_succ env argc fuel l hi]
  have hg := getFlagOpt_bare argc l.st.argv l.i 'l' htok
  rw [if_neg hmiss] at hg
  simp [args_token, htok, CStr.startsWith, flagArg, hg, Outcome.bind, dotneato_usage,
    State.err]

/-- C9 (witness): the token `-l` as the last token of `dot -l`. -/
theorem l_flag_missing_witness :
    ∃ st : State,
      args_loop libc 2 1 ⟨1, 0, State.init (mkArgv ["dot", "-l"]) .AGWARN 1⟩ = .exit 1 st ∧
      st = { State.init (mkArgv ["dot", "-l"]) .AGWARN 1 with
        stderr := [.missingArg 'l', .usage] } ∧
      st.lib = [] ∧ st.Lib = [] :=
  l_flag_missing libc 2 0 ⟨1, 0, State.init (mkArgv ["dot", "-l"]) .AGWARN 1⟩
    (by decide) (by decide) (by decide)

/-! ## Theorems: fuel of the scanning loop -/

/-- `getFlagOpt` never moves the cursor backwards. -/
theorem getFlagOpt_idx_ge (argc : Nat) (argv : List CStr) (i : Nat) :
    i ≤ (getFlagOpt argc argv i).idx := by
  unfold getFlagOpt
  simp only []
  split_ifs <;> simp

/-- One flag token either leaves the cursor where it is or moves it forward, or
ends the process. -/
theorem args_token_flag (env : Env) (argc : Nat) (l : Loop) (tok : CStr)
    (htok : l.st.argv[l.i]? = some tok) (hs : CStr.startsWith tok '-' = true) :
    (∃ l', args_token env argc l = .ret l' ∧ l.i ≤ l'.i) ∨
    (∃ c st, args_token env argc l = .exit c st) := by
  have hg := getFlagOpt_idx_ge argc l.st.argv l.i
  unfold args_token
  simp only [htok, hs, if_true]
  generalize List.getD tok 1 '\x00' = c
  by_cases h0 : c = 'G'
  · subst h0
    simp only []
    split_ifs
    all_goals simp [dotneato_usage, Outcome.bind, flagArg, hg, use_library]
  by_cases h1 : c = 'N'
  · subst h1
    simp only []
    split_ifs
    all_goals simp [dotneato_usage, Outcome.bind, flagArg, hg, use_library]
  by_cases h2 : c = 'E'
  · subst h2
    simp only []
    split_ifs
    all_goals simp [dotneato_usage, Outcome.bind, flagArg, hg, use_library]
  by_cases h3 : c = 'T'
  · subst h3
    simp only []
    split
    all_goals try split_ifs
    all_goals simp [dotneato_usage, Outcome.bind, flagArg, hg, use_library]
  by_cases h4 : c = 'K'
  · subst h4
    simp only []
    split
    all_goals try split_ifs
    all_goals simp [dotneato_usage, Outcome.bind, flagArg, hg, use_library]
  by_cases h5 : c = 'P'
  · subst h5
    simp only []
    all_goals simp [dotneato_usage, Outcome.bind, flagArg, hg, use_library]
  by_cases h6 : c = 'V'
  · subst h6
    simp only []
    all_goals simp [dotneato_usage, Outcome.bind, flagArg, hg, use_library]
  by_cases h7 : c = 'l'
  · subst h7
    simp only []
    split
    all_goals simp [dotneato_usage, Outcome.bind, flagArg, hg, use_library]
  by_cases h8 : c = 'o'
  · subst h8
    simp only []
    split_ifs
    all_goals simp [dotneato_usage, Outcome.bind, flagArg, hg, use_library]
  by_cases h9 : c = 'q'
  · subst h9
    simp only []
    split_ifs
    all_goals simp [dotneato_usage, Outcome.bind, flagArg, hg, use_library]
  by_cases h10 : c = 's'
  · subst h10
    simp only []
    split_ifs
    all_goals simp [dotneato_usage, Outcome.bind, flagArg, hg, use_library]
  by_cases h11 : c = 'x'
  · subst h11
    simp only []
    all_goals simp [dotneato_usage, Outcome.bind, flagArg, hg, use_library]
  by_cases h12 : c = 'y'
  · subst h12
    simp only []
    all_goals simp [dotneato_usage, Outcome.bind, flagArg, hg, use_library]
  by_cases h13 : c = '?'
  · subst h13
    simp only []
    all_goals simp [dotneato_usage, Outcome.bind, flagArg, hg, use_library]
  simp [h0, h1, h2, h3, h4, h5, h6, h7, h8, h9, h10, h11, h12, h13, dotneato_usage, Outcome.bind]

/-- One token either leaves the cursor where it is or moves it forward, or ends
the process, or writes outside the array of input files; it never runs out of
fuel. -/
theorem args_token_cases (env : Env) (argc : Nat) (l : Loop) :
    (∃ l', args_token env argc l = .ret l' ∧ l.i ≤ l'.i) ∨
    (∃ c st, args_token env argc l = .exit c st) ∨
    args_token env argc l = .fault := by
  cases htok : l.st.argv[l.i]? with
  | none =>
    left
    refine ⟨l, ?_, le_refl _⟩
    unfold args_token
    simp only [htok]
  | some tok =>
    by_cases hs : CStr.startsWith tok '-' = true
    · rcases args_token_flag env argc l tok htok hs with h | h
      · exact Or.inl h
      · exact Or.inr (Or.inl h)
    · unfold args_token
      simp only [htok, hs, Bool.false_eq_true, ↓reduceIte]
      split_ifs
      · exact Or.inl ⟨_, rfl, le_refl _⟩
      · exact Or.inr (Or.inr rfl)

/-- The scanning loop never runs out of fuel when the fuel covers the tokens that
are left. -/
theorem args_loop_fuel (env : Env) (argc : Nat) :
    ∀ (fuel : Nat) (l : Loop), argc ≤ fuel + l.i → args_loop env argc fuel l ≠ .timeout := by
  intro fuel
  induction fuel with
  | zero =>
    intro l h
    rw [args_loop]
    have : ¬ l.i < argc := by omega
    simp [this]
  | succ f ih =>
    intro l h
    by_cases hi : l.i < argc
    · rw [args_loop_succ env argc f l hi]
      rcases args_token_cases env argc l with ⟨l', h1, h2⟩ | ⟨c, st, h1⟩ | h1
      · rw [h1]
        exact ih { l' with i := l'.i + 1 } (by simp; omega)
      · rw [h1]; simp [Outcome.bind]
      · rw [h1]; simp [Outcome.bind]
    · rw [args_loop]
      simp [hi]

/-- Sequencing does not run out of fuel when neither part does. -/
theorem Outcome.bind_ne_timeout {α β : Type} (o : Outcome α) (f : α → Outcome β)
    (ho : o ≠ .timeout) (hf : ∀ a, f a ≠ .timeout) : o.bind f ≠ .timeout := by
  cases o with
  | ret a => exact hf a
  | exit c s => simp [Outcome.bind]
  | abort s => simp [Outcome.bind]
  | fault => simp [Outcome.bind]
  | timeout => exact absurd rfl ho

/-- The fuel that `dotneato_args_initialize` gives its scanning loop is enough:
the embedding never ends in `timeout`. -/
theorem dotneato_args_initialize_total (env : Env) (argc : Nat) (st : State) :
    dotneato_args_initialize env argc st ≠ .timeout := by
  unfold dotneato_args_initialize
  lift_lets
  intro b st1 st2 r st3 st4 nfiles st5
  by_cases hcfg : st2.config = true
  · rw [if_pos hcfg]; simp
  · rw [if_neg hcfg]
    apply Outcome.bind_ne_timeout
    · exact args_loop_fuel env argc argc _ (by simp)
    · intro l
      by_cases h1 : l.st.output_langname.isNone = true
      · rw [if_pos h1]
        split_ifs <;> simp
      · rw [if_neg h1]; simp

/-! ## Theorems: `getdoubles2ptf` -/

/-- C10: for every graph, attribute name and prior contents of the result vector:
when the attribute is absent the vector is left as it was and the result is false;
when its text parses as two comma-separated reals `x`, `y` that are both above 0,
the vector becomes `(x*72, y*72)` and the result is true exactly when the character
right after the second real is `!`; for every other text (malformed or with a
non-positive real) the vector is left as it was and the result is false.  With the
C library model, `3,4` gives `(216, 288)` and false, `3,4!` gives `(216, 288)` and
true, and `0,4` leaves the vector as it was. -/
theorem getdoubles2ptf_spec (env : Env) (g : graph_t) (name : CStr) (result : pointf) :
    (agget g name = none → getdoubles2ptf env g name result = (false, result)) ∧
    (∀ p x y rest, agget g name = some p → ParsesPair env p x y rest → 0 < x → 0 < y →
      getdoubles2ptf env g name result =
        (decide (rest.head? = some '!'), { x := x * 72, y := y * 72 })) ∧
    (∀ p, agget g name = some p →
      (¬ ∃ x y rest, ParsesPair env p x y rest ∧ 0 < x ∧ 0 < y) →
      getdoubles2ptf env g name result = (false, result)) ∧
    getdoubles2ptf libc (graphWith "size" "3,4") "size".toList result =
      (false, { x := 216, y := 288 }) ∧
    getdoubles2ptf libc (graphWith "size" "3,4!") "size".toList result =
      (true, { x := 216, y := 288 }) ∧
    getdoubles2ptf libc (graphWith "size" "0,4") "size".toList result = (false, result) := by
  refine ⟨?_, ?_, ?_, ?_, ?_, ?_⟩
  · intro h
    simp [getdoubles2ptf, h]
  · rintro p x y rest hp ⟨r2, h1, h2⟩ hx hy
    cases rest with
    | nil => simp [getdoubles2ptf, hp, sscanf_lf_lf_c, h1, h2, hx, hy, POINTS, POINTS_PER_INCH]
    | cons c t =>
      by_cases hc : c = '!' <;>
        simp [getdoubles2ptf, hp, sscanf_lf_lf_c, h1, h2, hx, hy, POINTS, POINTS_PER_INCH, hc]
  · intro p hp hno
    unfold getdoubles2ptf sscanf_lf_lf_c
    simp only [hp]
    cases h1 : env.scan_lf p with
    | eof => simp
    | fail => simp
    | ok x r1 =>
      cases r1 with
      | nil => simp
      | cons c r2 =>
        by_cases hc : c = ','
        · subst hc
          simp only []
          cases h2 : env.scan_lf r2 with
          | eof => simp
          | fail => simp
          | ok y r3 =>
            have hxy : ¬ (0 < x ∧ 0 < y) := fun h => hno ⟨x, y, r3, ⟨r2, h1, h2⟩, h.1, h.2⟩
            cases r3 with
            | nil =>
              simp only []
              rw [if_neg (fun h => hxy ⟨h.2.1, h.2.2⟩)]
            | cons d t =>
              simp only []
              rw [if_neg (fun h => hxy ⟨h.2.1, h.2.2⟩)]
        · simp [hc]
  · have h : sscanf_lf_lf_c libc ['3', ',', '4'] = ⟨2, some 3, some 4, none⟩ := by decide!
    simp [getdoubles2ptf, agget, graphWith, h, POINTS, POINTS_PER_INCH]
    norm_num
  · have h : sscanf_lf_lf_c libc ['3', ',', '4', '!'] = ⟨3, some 3, some 4, some '!'⟩ := by decide!
    simp [getdoubles2ptf, agget, graphWith, h, POINTS, POINTS_PER_INCH]
    norm_num
  · have h : sscanf_lf_lf_c libc ['0', ',', '4'] = ⟨2, some 0, some 4, none⟩ := by decide!
    simp [getdoubles2ptf, agget, graphWith, h]

/-- C10 (witness): the attribute `size="1.5,2!"` read with the C library model into
a vector that holds zeros. -/
theorem getdoubles2ptf_spec_witness :
    getdoubles2ptf libc (graphWith "size" "1.5,2!") "size".toList { x := 0, y := 0 } =
      (true, { x := 3 / 2 * 72, y := 2 * 72 }) ∧
    getdoubles2ptf libc (graphWith "page" "8.5,11") "size".toList { x := 0, y := 0 } =
      (false, { x := 0, y := 0 }) ∧
    getdoubles2ptf libc (graphWith "size" "4,-1") "size".toList { x := 0, y := 0 } =
      (false, { x := 0, y := 0 }) :=
  ⟨(getdoubles2ptf_spec libc (graphWith "size" "1.5,2!") "size".toList { x := 0, y := 0 }).2.1
      "1.5,2!".toList (3 / 2) 2 "!".toList (by decide) ⟨"2!".toList, by decide!, by decide!⟩
      (by norm_num) (by norm_num),
   (getdoubles2ptf_spec libc (graphWith "page" "8.5,11") "size".toList { x := 0, y := 0 }).1
      (by decide),
   (getdoubles2ptf_spec libc (graphWith "size" "4,-1") "size".toList { x := 0, y := 0 }).2.2.1
      "4,-1".toList (by decide) (by
        rintro ⟨x, y, rest, ⟨r2, h1, h2⟩, hx, hy⟩
        have e1 : libc.scan_lf "4,-1".toList = .ok 4 ",-1".toList := by decide!
        rw [e1] at h1
        injection h1 with hx4 hr
        injection hr with _ hr2
        subst hr2
        have e2 : libc.scan_lf ['-', '1'] = .ok (-1) [] := by decide!
        rw [e2] at h2
        injection h2 with hy1 _
        subst hy1
        norm_num at hy)⟩

/-! ## Theorems: `setRatio`, `graph_init`, `findCharset` -/

/-- C11: for every graph and prior layout record: `ratio` equal to `auto`,
`compress`, `expand` or `fill` sets the policy to that keyword's policy and nothing
else; a text whose first character is none of `a`, `c`, `e`, `f` and for which
`atof` gives a value above 0 sets the policy to fixed-value and stores the value;
in every other case (attribute unset, empty, a non-keyword beginning with `a`, `c`,
`e` or `f`, or a value of 0 or less) the record is left as it was.  With the C
library model, `expand` gives expand, `1.5` gives fixed-value 3/2 and `bogus`
changes nothing. -/
theorem setRatio_spec (env : Env) (g : graph_t) (d : layout_t) :
    (agget g "ratio".toList = some "auto".toList →
      setRatio env g d = { d with ratio_kind := .R_AUTO }) ∧
    (agget g "ratio".toList = some "compress".toList →
      setRatio env g d = { d with ratio_kind := .R_COMPRESS }) ∧
    (agget g "ratio".toList = some "expand".toList →
      setRatio env g d = { d with ratio_kind := .R_EXPAND }) ∧
    (agget g "ratio".toList = some "fill".toList →
      setRatio env g d = { d with ratio_kind := .R_FILL }) ∧
    (∀ c t, agget g "ratio".toList = some (c :: t) →
      c ≠ 'a' → c ≠ 'c' → c ≠ 'e' → c ≠ 'f' → 0 < env.atof (c :: t) →
      setRatio env g d = { d with ratio_kind := .R_VALUE, ratio := env.atof (c :: t) }) ∧
    (agget g "ratio".toList = none ∨ agget g "ratio".toList = some [] ∨
      (∃ c t, agget g "ratio".toList = some (c :: t) ∧
        (c = 'a' ∨ c = 'c' ∨ c = 'e' ∨ c = 'f') ∧
        c :: t ≠ "auto".toList ∧ c :: t ≠ "compress".toList ∧
        c :: t ≠ "expand".toList ∧ c :: t ≠ "fill".toList) ∨
      (∃ c t, agget g "ratio".toList = some (c :: t) ∧
        c ≠ 'a' ∧ c ≠ 'c' ∧ c ≠ 'e' ∧ c ≠ 'f' ∧ env.atof (c :: t) ≤ 0) →
      setRatio env g d = d) ∧
    (setRatio libc (graphOf [("ratio", "expand")]) d = { d with ratio_kind := .R_EXPAND } ∧
      setRatio libc (graphOf [("ratio", "1.5")]) d =
        { d with ratio_kind := .R_VALUE, ratio := 3 / 2 } ∧
      setRatio libc (graphOf [("ratio", "bogus")]) d = d) := by
  refine ⟨?_, ?_, ?_, ?_, ?_, ?_, ?_, ?_, ?_⟩
  · intro h; simp only [setRatio, h]; simp [streq]
  · intro h; simp only [setRatio, h]; simp [streq]
  · intro h; simp only [setRatio, h]; simp [streq]
  · intro h; simp only [setRatio, h]; simp [streq]
  · intro c t h ha hc he hf hpos
    simp only [setRatio, h]; simp [ha, hc, he, hf, hpos]
  · rintro (h | h | ⟨c, t, h, hk, h1, h2, h3, h4⟩ | ⟨c, t, h, ha, hc, he, hf, hle⟩)
    · simp only [setRatio, h]
    · simp only [setRatio, h]
    · simp only [setRatio, h, streq]
      simp only [String.toList] at h1 h2 h3 h4
      rcases hk with hk | hk | hk | hk <;> subst hk <;> simp at h1 h2 h3 h4 ⊢ <;>
        intro ht <;> simp [ht] at h1 h2 h3 h4
    · have hn : ¬ env.atof (c :: t) > 0 := not_lt.mpr hle
      simp only [setRatio, h]; simp [ha, hc, he, hf, hn]
  · simp [setRatio, agget, graphOf, streq]
  · have h : libc.atof ['1', '.', '5'] = 3 / 2 := by decide!
    simp [setRatio, agget, graphOf, h]
  · have h : libc.atof ['b', 'o', 'g', 'u', 's'] = 0 := by decide!
    simp [setRatio, agget, graphOf, h]

/-- C11 (witness): `ratio="2"`, `ratio="auto"`, `ratio="fast"` and `ratio="-1"` read
into the zero record with the C library model. -/
theorem setRatio_spec_witness :
    setRatio libc (graphOf [("ratio", "auto")]) layout_t.zero =
      { layout_t.zero with ratio_kind := .R_AUTO } ∧
    setRatio libc (graphOf [("ratio", "2")]) layout_t.zero =
      { layout_t.zero with ratio_kind := .R_VALUE, ratio := libc.atof "2".toList } ∧
    setRatio libc (graphOf [("ratio", "fast")]) layout_t.zero = layout_t.zero ∧
    setRatio libc (graphOf [("ratio", "-1")]) layout_t.zero = layout_t.zero :=
  ⟨(setRatio_spec libc (graphOf [("ratio", "auto")]) layout_t.zero).1 (by decide),
   (setRatio_spec libc (graphOf [("ratio", "2")]) layout_t.zero).2.2.2.2.1 '2' [] (by decide)
      (by decide) (by decide) (by decide) (by decide) (by decide!),
   (setRatio_spec libc (graphOf [("ratio", "fast")]) layout_t.zero).2.2.2.2.2.1
      (Or.inr (Or.inr (Or.inl ⟨'f', "ast".toList, by decide, by decide, by decide, by decide,
        by decide, by decide⟩))),
   (setRatio_spec libc (graphOf [("ratio", "-1")]) layout_t.zero).2.2.2.2.2.1
      (Or.inr (Or.inr (Or.inr ⟨'-', "1".toList, by decide, by decide, by decide, by decide,
        by decide, by decide!⟩)))⟩

/-- With four border slots and border indices inside them, `do_graph_label` returns
a record, and it leaves the fields set earlier by `graph_init` as they were. -/
theorem do_graph_label_frame (K : Consts) (env : Env) (L : Labels) (sg : graph_t)
    (isRoot flip : Bool) (u : Agraphinfo_t) (hB : K.BorderOK) (hu : u.border.length = 4) :
    ∃ u', do_graph_label K env L sg isRoot flip u = .ok u' ∧ u'.drawing = u.drawing ∧
      u'.charset = u.charset ∧ u'.rankdir = u.rankdir ∧ u'.nodesep = u.nodesep ∧
      u'.ranksep = u.ranksep ∧ u'.exact_ranksep = u.exact_ranksep := by
  obtain ⟨h0, h1, h2, h3, -⟩ := hB
  unfold do_graph_label
  cases hl : agget sg "label".toList with
  | none => exact ⟨u, rfl, rfl, rfl, rfl, rfl, rfl, rfl⟩
  | some str =>
    have key : ∀ (w : Agraphinfo_t) (ix : Nat) (v : pointf), ix < 4 → w.border.length = 4 →
        ∃ u', setBorder w ix v = .ok u' ∧ u'.drawing = w.drawing ∧
          u'.charset = w.charset ∧ u'.rankdir = w.rankdir ∧ u'.nodesep = w.nodesep ∧
          u'.ranksep = w.ranksep ∧ u'.exact_ranksep = w.exact_ranksep := by
      intro w ix v hix hw
      have : ix < w.border.length := by omega
      simp only [setBorder, this, ↓reduceIte]
      exact ⟨_, rfl, rfl, rfl, rfl, rfl, rfl, rfl⟩
    simp only []
    cases isRoot
    · cases flip
      · simp only [Bool.not_false, ↓reduceIte, Bool.false_eq_true]
        split_ifs
        · exact key _ _ _ h2 hu
        · exact key _ _ _ h0 hu
      · simp only [Bool.not_true, Bool.not_false, ↓reduceIte, Bool.false_eq_true]
        split_ifs
        · exact key _ _ _ h1 hu
        · exact key _ _ _ h3 hu
    · exact ⟨_, rfl, rfl, rfl, rfl, rfl, rfl, rfl⟩

/-- The record that `graph_init` hands to `do_graph_label`. -/
theorem graph_init_eq (K : Consts) (env : Env) (L : Labels) (g : graph_t)
    (use_rankdir isRoot flip : Bool) (u : Agraphinfo_t) :
    ∃ u1, graph_init K env L g use_rankdir isRoot flip u =
        (do_graph_label K env L g isRoot flip u1, (findCharset K g).2) ∧
      u1.border = u.border ∧ u1.charset = (findCharset K g).1 ∧
      u1.rankdir = (if use_rankdir then (parse_rankdir K g <<< 2) ||| parse_rankdir K g
        else parse_rankdir K g <<< 2) ∧
      u1.nodesep =
        POINTS (late_double env g "nodesep".toList K.DEFAULT_NODESEP K.MIN_NODESEP) ∧
      u1.ranksep = POINTS (ranksep_xf K env g
        (late_double env g "nodesep".toList K.DEFAULT_NODESEP K.MIN_NODESEP)) :=
  ⟨_, rfl, rfl, rfl, rfl, rfl, rfl⟩

/-- Two bits shifted left by two and joined with two bits split again. -/
theorem pack_two_bits (r : Nat) (h : r < 4) :
    ((r <<< 2) ||| r) >>> 2 = r ∧ ((r <<< 2) ||| r) &&& 3 = r ∧ (r <<< 2) ||| r < 16 ∧
      (r <<< 2) >>> 2 = r ∧ (r <<< 2) &&& 3 = 0 ∧ r <<< 2 < 16 := by
  interval_cases r <;> decide

/-- The parsed direction is one of the four direction codes. -/
theorem parse_rankdir_lt (K : Consts) (g : graph_t) (hK : K.RankdirOK) :
    parse_rankdir K g < 4 := by
  obtain ⟨h0, h1, h2, h3⟩ := hK
  unfold parse_rankdir
  split
  · omega
  · split_ifs <;> omega

/-- C12: with two-bit direction codes of which top-to-bottom is zero, for every
graph and both values of `use_rankdir`, `graph_init` returns a record whose packed
rank-direction field has the parsed direction in bits 2-3 (`LR`, `BT`, `RL` for
exactly those strings, top-to-bottom otherwise), has in bits 0-1 the parsed
direction when `use_rankdir` is true and top-to-bottom when it is false, and is
below 16. -/
theorem graph_init_rankdir (K : Consts) (env : Env) (L : Labels) (g : graph_t)
    (use_rankdir isRoot flip : Bool) (u : Agraphinfo_t)
    (hK : K.RankdirOK) (hB : K.BorderOK) (hu : u.border.length = 4) :
    ∃ u', (graph_init K env L g use_rankdir isRoot flip u).1 = .ok u' ∧
      u'.rankdir >>> 2 = parse_rankdir K g ∧
      u'.rankdir &&& 3 = (if use_rankdir then parse_rankdir K g else K.RANKDIR_TB) ∧
      u'.rankdir < 16 ∧
      parse_rankdir K g =
        (if agget g "rankdir".toList = some "LR".toList then K.RANKDIR_LR
         else if agget g "rankdir".toList = some "BT".toList then K.RANKDIR_BT
         else if agget g "rankdir".toList = some "RL".toList then K.RANKDIR_RL
         else K.RANKDIR_TB) := by
  have hp := pack_two_bits (parse_rankdir K g) (parse_rankdir_lt K g hK)
  have hparse : parse_rankdir K g =
        (if agget g "rankdir".toList = some "LR".toList then K.RANKDIR_LR
         else if agget g "rankdir".toList = some "BT".toList then K.RANKDIR_BT
         else if agget g "rankdir".toList = some "RL".toList then K.RANKDIR_RL
         else K.RANKDIR_TB) := by
    unfold parse_rankdir
    cases agget g "rankdir".toList with
    | none => simp
    | some p => simp [streq]
  obtain ⟨u1, he, hb, -, hpk, -, -⟩ := graph_init_eq K env L g use_rankdir isRoot flip u
  obtain ⟨u', hu', -, -, hr, -⟩ :=
    do_graph_label_frame K env L g isRoot flip u1 hB (by rw [hb]; exact hu)
  refine ⟨u', by rw [he]; exact hu', ?_, ?_, ?_, hparse⟩
  · rw [hr, hpk]
    cases use_rankdir
    · exact hp.2.2.2.1
    · exact hp.1
  · rw [hr, hpk]
    cases use_rankdir
    · simpa [hK.1] using hp.2.2.2.2.1
    · simpa using hp.2.1
  · rw [hr, hpk]
    cases use_rankdir
    · exact hp.2.2.2.2.2
    · exact hp.2.2.1

/-- C12 (witness): `rankdir="LR"` with the example constants; the packed field is 4
(declared LR, effective top-to-bottom) without `use_rankdir` and 5 (declared LR,
effective LR) with it. -/
theorem graph_init_rankdir_witness :
    (∃ u', (graph_init stdConsts libc stdLabels (graphOf [("rankdir", "LR")]) false true false
        Agraphinfo_t.zero).1 = .ok u' ∧
      u'.rankdir >>> 2 = parse_rankdir stdConsts (graphOf [("rankdir", "LR")]) ∧
      u'.rankdir &&& 3 = (if false = true then parse_rankdir stdConsts (graphOf [("rankdir", "LR")])
        else stdConsts.RANKDIR_TB) ∧
      u'.rankdir < 16 ∧
      parse_rankdir stdConsts (graphOf [("rankdir", "LR")]) =
        (if agget (graphOf [("rankdir", "LR")]) "rankdir".toList = some "LR".toList
          then stdConsts.RANKDIR_LR
         else if agget (graphOf [("rankdir", "LR")]) "rankdir".toList = some "BT".toList
          then stdConsts.RANKDIR_BT
         else if agget (graphOf [("rankdir", "LR")]) "rankdir".toList = some "RL".toList
          then stdConsts.RANKDIR_RL
         else stdConsts.RANKDIR_TB)) ∧
    parse_rankdir stdConsts (graphOf [("rankdir", "LR")]) = stdConsts.RANKDIR_LR ∧
    ((graph_init stdConsts libc stdLabels (graphOf [("rankdir", "LR")]) false true false
        Agraphinfo_t.zero).1.toOption.map fun r => r.rankdir) = some 4 ∧
    ((graph_init stdConsts libc stdLabels (graphOf [("rankdir", "LR")]) true true false
        Agraphinfo_t.zero).1.toOption.map fun r => r.rankdir) = some 5 :=
  ⟨graph_init_rankdir stdConsts libc stdLabels (graphOf [("rankdir", "LR")]) false true false
      Agraphinfo_t.zero (by decide) (by decide) (by decide),
   by decide, by decide!, by decide!⟩

/-- C13: `findCharset` resolves the value `p` of `charset` up to letter case: a
case variant of one of the Latin-1 aliases gives the Latin-1 code, of `big-5` or
`big5` the Big5 code, of `utf-8` or `utf8` the UTF-8 code, all three without a
warning; an unset or empty attribute gives UTF-8 without a warning; every other
value gives UTF-8 and one warning that names the value.  The result is always one
of the three codes. -/
theorem findCharset_spec (K : Consts) (g : graph_t) :
    (∀ p a, agget g "charset".toList = some p → a ∈ latin1Aliases → sameUpToCase p a →
      findCharset K g = (K.CHAR_LATIN1, [])) ∧
    (∀ p a, agget g "charset".toList = some p → a ∈ big5Aliases → sameUpToCase p a →
      findCharset K g = (K.CHAR_BIG5, [])) ∧
    (∀ p a, agget g "charset".toList = some p → a ∈ utf8Aliases → sameUpToCase p a →
      findCharset K g = (K.CHAR_UTF8, [])) ∧
    (agget g "charset".toList = none ∨ agget g "charset".toList = some [] →
      findCharset K g = (K.CHAR_UTF8, [])) ∧
    (∀ p, agget g "charset".toList = some p → p ≠ [] →
      (∀ a, a ∈ latin1Aliases ++ big5Aliases ++ utf8Aliases → ¬ sameUpToCase p a) →
      findCharset K g = (K.CHAR_UTF8, [p])) ∧
    ((findCharset K g).1 = K.CHAR_UTF8 ∨ (findCharset K g).1 = K.CHAR_LATIN1 ∨
      (findCharset K g).1 = K.CHAR_BIG5) := by
  have hne : ∀ p a : CStr, a ≠ [] → sameUpToCase p a → p ≠ [] := by
    intro p a ha h hp
    subst hp
    cases a with
    | nil => exact ha rfl
    | cons c t => simp [sameUpToCase] at h
  have hnn : ∀ p : CStr, agget g "charset".toList = some p → p ≠ [] →
      late_nnstring g "charset".toList "utf-8".toList = p := by
    intro p hp hpe
    cases p with
    | nil => exact absurd rfl hpe
    | cons c t => simp only [late_nnstring, hp]; rfl
  refine ⟨?_, ?_, ?_, ?_, ?_, ?_⟩
  · intro p a hp ha hs
    have hpe : p ≠ [] := hne p a (by
      simp only [latin1Aliases, List.mem_cons, List.mem_singleton, List.not_mem_nil,
        or_false] at ha
      rcases ha with h | h | h | h | h | h | h <;> subst h <;> decide) hs
    simp only [findCharset, hnn p hp hpe, strcasecmp]
    simp only [latin1Aliases, List.mem_cons, List.mem_singleton, List.not_mem_nil,
      or_false] at ha
    unfold sameUpToCase at hs
    rcases ha with h | h | h | h | h | h | h <;> subst h <;> simp [hs]
  · intro p a hp ha hs
    have hpe : p ≠ [] := hne p a (by
      simp only [big5Aliases, List.mem_cons, List.mem_singleton, List.not_mem_nil,
        or_false] at ha
      rcases ha with h | h <;> subst h <;> decide) hs
    simp only [findCharset, hnn p hp hpe, strcasecmp]
    simp only [big5Aliases, List.mem_cons, List.mem_singleton, List.not_mem_nil,
      or_false] at ha
    unfold sameUpToCase at hs
    rcases ha with h | h <;> subst h <;> rw [hs] <;> simp
  · intro p a hp ha hs
    have hpe : p ≠ [] := hne p a (by
      simp only [utf8Aliases, List.mem_cons, List.mem_singleton, List.not_mem_nil,
        or_false] at ha
      rcases ha with h | h <;> subst h <;> decide) hs
    simp only [findCharset, hnn p hp hpe, strcasecmp]
    simp only [utf8Aliases, List.mem_cons, List.mem_singleton, List.not_mem_nil,
      or_false] at ha
    unfold sameUpToCase at hs
    rcases ha with h | h <;> subst h <;> rw [hs] <;> simp
  · rintro (h | h) <;> simp only [findCharset, late_nnstring, h] <;> simp [strcasecmp]
  · intro p hp hpe hno
    simp only [findCharset, hnn p hp hpe, strcasecmp]
    have hf : ∀ a, a ∈ latin1Aliases ++ big5Aliases ++ utf8Aliases →
        ¬ (p.map Char.toLower = a.map Char.toLower) := hno
    simp only [latin1Aliases, big5Aliases, utf8Aliases, List.cons_append, List.nil_append,
      List.mem_cons, List.mem_singleton, List.not_mem_nil, or_false, forall_eq_or_imp,
      forall_eq] at hf
    obtain ⟨h1, h2, h3, h4, h5, h6, h7, h8, h9, h10, h11⟩ := hf
    simp only [h1, h2, h3, h4, h5, h6, h7, h8, h9, h10, h11, ↓reduceIte, one_ne_zero,
      or_self]
  · simp only [findCharset]
    split_ifs <;> simp

/-- C13 (witness): `ISO-8859-1`, `latin1`, `l1` and `LaTiN-1` give Latin-1, `BIG5`
gives Big5, `UTF8` gives UTF-8, an empty value gives UTF-8, all without a warning, and
`klingon` gives UTF-8 with a warning. -/
theorem findCharset_spec_witness :
    findCharset stdConsts (graphOf [("charset", "ISO-8859-1")]) = (stdConsts.CHAR_LATIN1, []) ∧
    findCharset stdConsts (graphOf [("charset", "latin1")]) = (stdConsts.CHAR_LATIN1, []) ∧
    findCharset stdConsts (graphOf [("charset", "l1")]) = (stdConsts.CHAR_LATIN1, []) ∧
    findCharset stdConsts (graphOf [("charset", "LaTiN-1")]) = (stdConsts.CHAR_LATIN1, []) ∧
    findCharset stdConsts (graphOf [("charset", "BIG5")]) = (stdConsts.CHAR_BIG5, []) ∧
    findCharset stdConsts (graphOf [("charset", "UTF8")]) = (stdConsts.CHAR_UTF8, []) ∧
    findCharset stdConsts (graphOf [("charset", "")]) = (stdConsts.CHAR_UTF8, []) ∧
    findCharset stdConsts (graphOf [("charset", "klingon")]) =
      (stdConsts.CHAR_UTF8, ["klingon".toList]) :=
  ⟨(findCharset_spec stdConsts (graphOf [("charset", "ISO-8859-1")])).1
      "ISO-8859-1".toList "ISO-8859-1".toList (by decide) (by decide) (by decide),
   (findCharset_spec stdConsts (graphOf [("charset", "latin1")])).1
      "latin1".toList "latin1".toList (by decide) (by decide) (by decide),
   (findCharset_spec stdConsts (graphOf [("charset", "l1")])).1
      "l1".toList "l1".toList (by decide) (by decide) (by decide),
   (findCharset_spec stdConsts (graphOf [("charset", "LaTiN-1")])).1
      "LaTiN-1".toList "latin-1".toList (by decide) (by decide) (by decide),
   (findCharset_spec stdConsts (graphOf [("charset", "BIG5")])).2.1
      "BIG5".toList "big5".toList (by decide) (by decide) (by decide),
   (findCharset_spec stdConsts (graphOf [("charset", "UTF8")])).2.2.1
      "UTF8".toList "utf8".toList (by decide) (by decide) (by decide),
   (findCharset_spec stdConsts (graphOf [("charset", "")])).2.2.2.1 (Or.inr (by decide)),
   (findCharset_spec stdConsts (graphOf [("charset", "klingon")])).2.2.2.2.1
      "klingon".toList (by decide) (by decide) (by decide)⟩

/-- The registers and memory after a flag token that lets the scan go on: no input
file is recorded, the tokens to the right are as before, the cursor has moved only
if `getFlagOpt` took a detached argument, and the output format has changed only
for `-T`. -/
theorem args_token_flag_ret (env : Env) (argc : Nat) (l l' : Loop) (tok : CStr)
    (htok : l.st.argv[l.i]? = some tok) (hs : CStr.startsWith tok '-' = true)
    (hret : args_token env argc l = .ret l') :
    l'.nfiles = l.nfiles ∧ l'.st.input_filenames = l.st.input_filenames ∧
      l'.st.argv.length = l.st.argv.length ∧
      l'.st.argv.drop (l.i + 1) = l.st.argv.drop (l.i + 1) ∧
      l'.i = (if tok.getD 1 '\x00' = 'T' ∨ tok.getD 1 '\x00' = 'K' ∨ tok.getD 1 '\x00' = 'l' ∨
          tok.getD 1 '\x00' = 'o' then (getFlagOpt argc l.st.argv l.i).idx else l.i) ∧
      l'.st.output_langname = (if tok.getD 1 '\x00' = 'T' then (getFlagOpt argc l.st.argv l.i).ret
        else l.st.output_langname) ∧
      (tok.getD 1 '\x00' = 'T' → (getFlagOpt argc l.st.argv l.i).ret ≠ none) := by
  have hga : (getFlagOpt argc l.st.argv l.i).argv = l.st.argv := by
    unfold getFlagOpt; simp only []; split_ifs <;> rfl
  have hgd : ∀ k, (global_def l.i k l.st).argv.length = l.st.argv.length ∧
      (global_def l.i k l.st).argv.drop (l.i + 1) = l.st.argv.drop (l.i + 1) ∧
      (global_def l.i k l.st).input_filenames = l.st.input_filenames ∧
      (global_def l.i k l.st).output_langname = l.st.output_langname := by
    intro k
    simp only [global_def]
    split_ifs <;> simp [List.drop_set_of_lt]
  unfold args_token at hret
  simp only [htok, hs, if_true] at hret
  generalize hc : List.getD tok 1 '\x00' = c at hret ⊢
  by_cases h0 : c = 'G'
  · subst h0
    simp only [] at hret
    split_ifs at hret
    all_goals simp [dotneato_usage, Outcome.bind] at hret
    subst hret
    simp [hgd]
  by_cases h1 : c = 'N'
  · subst h1
    simp only [] at hret
    split_ifs at hret
    all_goals simp [dotneato_usage, Outcome.bind] at hret
    subst hret
    simp [hgd]
  by_cases h2 : c = 'E'
  · subst h2
    simp only [] at hret
    split_ifs at hret
    all_goals simp [dotneato_usage, Outcome.bind] at hret
    subst hret
    simp [hgd]
  by_cases h3 : c = 'T'
  · subst h3
    simp only [] at hret
    split at hret
    all_goals try split_ifs at hret
    all_goals simp [dotneato_usage, Outcome.bind] at hret
    rename_i x val heq hv
    subst hret
    simp only [flagArg] at heq
    simp [flagArg, gvjobs_output_langname, hga, heq]
  by_cases h4 : c = 'K'
  · subst h4
    simp only [] at hret
    split at hret
    all_goals try split_ifs at hret
    all_goals simp [dotneato_usage, Outcome.bind] at hret
    rename_i x val heq hv
    subst hret
    simp only [flagArg] at heq
    by_cases hl : env.layout val = true <;> simp [gvlayout_select, hl, flagArg, hga]
  by_cases h5 : c = 'P'
  · subst h5
    simp only [] at hret
    simp at hret
    subst hret
    simp
  by_cases h6 : c = 'V'
  · subst h6
    simp only [] at hret
    simp at hret
  by_cases h7 : c = 'l'
  · subst h7
    simp only [] at hret
    split at hret
    all_goals simp [dotneato_usage, Outcome.bind] at hret
    subst hret
    simp [flagArg, use_library, hga]
    split <;> simp
  by_cases h8 : c = 'o'
  · subst h8
    simp only [] at hret
    split_ifs at hret
    all_goals simp at hret
    all_goals subst hret
    all_goals simp [flagArg, gvjobs_output_filename, hga]
  by_cases h9 : c = 'q'
  · subst h9
    simp only [] at hret
    split_ifs at hret
    all_goals simp at hret
    all_goals subst hret
    all_goals simp [agseterr, State.err]
  by_cases h10 : c = 's'
  · subst h10
    simp only [] at hret
    split_ifs at hret
    all_goals simp [dotneato_usage, Outcome.bind] at hret
    all_goals subst hret
    all_goals simp
  by_cases h11 : c = 'x'
  · subst h11
    simp only [] at hret
    simp at hret
    subst hret
    simp
  by_cases h12 : c = 'y'
  · subst h12
    simp only [] at hret
    simp at hret
    subst hret
    simp
  by_cases h13 : c = '?'
  · subst h13
    simp only [] at hret
    simp [dotneato_usage, Outcome.bind] at hret
  simp [h0, h1, h2, h3, h4, h5, h6, h7, h8, h9, h10, h11, h12, h13, dotneato_usage,
    Outcome.bind] at hret
/-- A flag token takes a detached argument exactly when its letter is `T`, `K`, `l`
or `o` and nothing is fused to it. -/
theorem takesDetached_iff (tok : CStr) (hs : CStr.startsWith tok '-' = true) :
    takesDetached tok = true ↔
      ((tok.getD 1 '\x00' = 'T' ∨ tok.getD 1 '\x00' = 'K' ∨ tok.getD 1 '\x00' = 'l' ∨
        tok.getD 1 '\x00' = 'o') ∧ CStr.nonNulAt tok 2 = false) := by
  cases tok with
  | nil => simp [CStr.startsWith] at hs
  | cons a t =>
    have ha : a = '-' := by simpa [CStr.startsWith] using hs
    subst ha
    cases t with
    | nil => simp [takesDetached, CStr.nonNulAt]
    | cons c r =>
      cases r with
      | nil => simp [takesDetached, CStr.nonNulAt, or_assoc]
      | cons d r' => simp [takesDetached, CStr.nonNulAt]

/-- The effect of `getFlagOpt` in terms of the token at the cursor and the tokens
after it, when `argc` is the length of the argument vector. -/
theorem getFlagOpt_eq (argc : Nat) (argv : List CStr) (i : Nat) (tok : CStr)
    (htok : argv[i]? = some tok) (hlen : argv.length = argc) :
    getFlagOpt argc argv i =
      if CStr.nonNulAt tok 2 then { ret := some (tok.drop 2), idx := i, argv := argv }
      else
        match argv.drop (i + 1) with
        | next :: _ =>
          if usableArg next then { ret := some next, idx := i + 1, argv := argv }
          else { ret := none, idx := i, argv := argv }
        | [] => { ret := none, idx := i, argv := argv } := by
  have hi : argv.getD i [] = tok := by simp [List.getD_eq_getElem?_getD, htok]
  unfold getFlagOpt
  simp only [hi]
  by_cases h2 : CStr.nonNulAt tok 2 = true
  · simp [h2]
  · simp only [h2, Bool.false_eq_true, ↓reduceIte]
    cases hd : argv.drop (i + 1) with
    | nil =>
      have : argv.length ≤ i + 1 := List.drop_eq_nil_iff.mp hd
      have hlt : ¬ (i < argc - 1) := by omega
      simp [hlt]
    | cons next r =>
      have hlt1 : i + 1 < argv.length := by
        by_contra hcon
        have : argv.drop (i + 1) = [] := List.drop_eq_nil_iff.mpr (by omega)
        rw [this] at hd
        exact absurd hd (by simp)
      have hlt : i < argc - 1 := by omega
      have hn : argv.getD (i + 1) [] = next := by
        have h0 : (argv.drop (i + 1))[0]? = argv[i + 1]? := by
          rw [List.getElem?_drop]
        rw [hd] at h0
        simp only [List.getElem?_cons_zero] at h0
        simp [List.getD_eq_getElem?_getD, ← h0]
      simp only [hlt, ↓reduceIte, hn, usableArg]
      cases next with
      | nil => simp [CStr.nonNulAt]
      | cons a t => simp [CStr.nonNulAt, CStr.startsWith]
/-- A flag token with a flag letter and nothing fused to it consists of the flag
marker and the letter. -/
theorem flag_token_bare (tok : CStr) (hs : CStr.startsWith tok '-' = true)
    (h2 : CStr.nonNulAt tok 2 = false) (hc : tok.getD 1 '\x00' ≠ '\x00') :
    tok = ['-', tok.getD 1 '\x00'] := by
  cases tok with
  | nil => simp [CStr.startsWith] at hs
  | cons a t =>
    have ha : a = '-' := by simpa [CStr.startsWith] using hs
    subst ha
    cases t with
    | nil => simp at hc
    | cons c r =>
      cases r with
      | nil => simp
      | cons d r' => simp [CStr.nonNulAt] at h2

/-- A flag token and the specification of the scan: the input files and the output
format of the tokens from the cursor on are those of the tokens after the position
at which the flag token leaves the cursor, with the format named by the token if it
is a `-T`. -/
theorem flag_token_spec (argc : Nat) (argv : List CStr) (i : Nat) (tok : CStr)
    (acc : Option CStr)
    (htok : argv[i]? = some tok) (hlen : argv.length = argc)
    (hs : CStr.startsWith tok '-' = true) :
    fileTokens (argv.drop i) =
      fileTokens (argv.drop ((if tok.getD 1 '\x00' = 'T' ∨ tok.getD 1 '\x00' = 'K' ∨
        tok.getD 1 '\x00' = 'l' ∨ tok.getD 1 '\x00' = 'o'
        then (getFlagOpt argc argv i).idx else i) + 1)) ∧
    ((tok.getD 1 '\x00' = 'T' → (getFlagOpt argc argv i).ret ≠ none) →
      lastFormat (argv.drop i) acc =
        lastFormat (argv.drop ((if tok.getD 1 '\x00' = 'T' ∨ tok.getD 1 '\x00' = 'K' ∨
          tok.getD 1 '\x00' = 'l' ∨ tok.getD 1 '\x00' = 'o'
          then (getFlagOpt argc argv i).idx else i) + 1))
          (if tok.getD 1 '\x00' = 'T' then (getFlagOpt argc argv i).ret else acc)) := by
  have hi : i < argv.length := by
    by_contra hcon
    rw [List.getElem?_eq_none (by omega)] at htok
    exact absurd htok (by simp)
  have hdrop : argv.drop i = tok :: argv.drop (i + 1) := by
    rw [List.drop_eq_getElem_cons hi]
    congr 1
    have := List.getElem?_eq_getElem hi
    rw [htok] at this
    exact (Option.some.inj this).symm
  have hdd : argv.drop (i + 1 + 1) = (argv.drop (i + 1)).drop 1 := by
    rw [List.drop_drop]
  have hTD := takesDetached_iff tok hs
  rw [getFlagOpt_eq argc argv i tok htok hlen, hdrop]
  obtain ⟨rest, hrest⟩ : ∃ rest, argv.drop (i + 1) = rest := ⟨_, rfl⟩
  rw [hrest] at hdd
  rw [hrest]
  generalize hc : tok.getD 1 '\x00' = c at hTD ⊢
  have hc2 : tok[1]?.getD '\x00' = c := by
    rw [← hc, List.getD_eq_getElem?_getD]
  by_cases h2 : CStr.nonNulAt tok 2 = true
  · -- fused text: the cursor stays
    have htd : takesDetached tok = false := by
      cases h : takesDetached tok with
      | false => rfl
      | true => rw [(hTD.mp h).2] at h2; exact absurd h2 (by decide)
    simp only [h2, ↓reduceIte, ite_self, hrest]
    cases rest with
    | nil =>
      simp [fileTokens, lastFormat, hs, hc2, h2]
    | cons next r =>
      simp [fileTokens, lastFormat, hs, hc2, h2, htd]
  · have h2' : CStr.nonNulAt tok 2 = false := by simpa using h2
    simp only [h2', Bool.false_eq_true, ↓reduceIte]
    cases rest with
    | nil =>
      simp only [ite_self, hrest]
      refine ⟨by simp [fileTokens, hs], ?_⟩
      intro hT
      have hcT : c ≠ 'T' := fun h => hT h rfl
      simp [lastFormat, hs, hc2, hcT]
    | cons next r =>
      by_cases hD : c = 'T' ∨ c = 'K' ∨ c = 'l' ∨ c = 'o'
      · have htd : takesDetached tok = true := hTD.mpr ⟨hD, h2'⟩
        by_cases hu : usableArg next = true
        · simp only [hD, hu, ↓reduceIte, hdd, List.drop_succ_cons, List.drop_zero]
          refine ⟨by simp [fileTokens, hs, htd, hu], ?_⟩
          intro _
          have hc0 : tok.getD 1 '\x00' ≠ '\x00' := by
            rw [hc]
            rcases hD with h | h | h | h <;> rw [h] <;> decide
          have htT : (tok == ['-', 'T']) = decide (c = 'T') := by
            rw [flag_token_bare tok hs h2' hc0, hc]
            by_cases hcT : c = 'T' <;> simp [hcT]
          simp [lastFormat, hs, htd, hu, htT]
        · have hu' : usableArg next = false := by simpa using hu
          simp only [hD, hu', Bool.false_eq_true, ↓reduceIte, hrest]
          refine ⟨by simp [fileTokens, hs, htd, hu'], ?_⟩
          intro hT
          have hcT : c ≠ 'T' := fun h => hT h rfl
          simp [lastFormat, hs, htd, hu', hc2, hcT]
      · have htd : takesDetached tok = false := by
          cases h : takesDetached tok with
          | false => rfl
          | true => exact absurd (hTD.mp h).1 hD
        have hcT : c ≠ 'T' := fun h => hD (Or.inl h)
        simp only [hD, ↓reduceIte, hrest]
        refine ⟨by simp [fileTokens, hs, htd], ?_⟩
        intro _
        simp [lastFormat, hs, htd, hc2, hcT]
/-- A token that does not start with the flag marker is the first input file of the
tokens from it on, and names no output format. -/
theorem nonflag_token_spec (tok : CStr) (rest : List CStr) (acc : Option CStr)
    (hs : CStr.startsWith tok '-' = false) :
    fileTokens (tok :: rest) = tok :: fileTokens rest ∧
      lastFormat (tok :: rest) acc = lastFormat rest acc := by
  cases rest with
  | nil => simp [fileTokens, lastFormat, hs]
  | cons next r => simp [fileTokens, lastFormat, hs]

/-- The scanning loop, when it runs to its end: the input files that it appends to
those already in the array are the input files of the tokens from the cursor on,
in order, taking free slots of the array, and the output format is the one named by
the last `-T` of these tokens, if there is one. -/
theorem args_loop_ret (env : Env) (argc : Nat) :
    ∀ (fuel : Nat) (l l' : Loop) (pre : List CStr) (m : Nat),
      l.st.argv.length = argc →
      l.st.input_filenames = pre.map some ++ List.replicate m none →
      l.nfiles = pre.length →
      args_loop env argc fuel l = .ret l' →
      l'.st.input_filenames =
          (pre ++ fileTokens (l.st.argv.drop l.i)).map some ++
            List.replicate (m - (fileTokens (l.st.argv.drop l.i)).length) none ∧
        (fileTokens (l.st.argv.drop l.i)).length ≤ m ∧
        l'.nfiles = pre.length + (fileTokens (l.st.argv.drop l.i)).length ∧
        l'.st.output_langname = lastFormat (l.st.argv.drop l.i) l.st.output_langname := by
  intro fuel
  induction fuel with
  | zero =>
    intro l l' pre m hlen harr hn hret
    rw [args_loop] at hret
    by_cases hi : l.i < argc
    · simp [hi] at hret
    · simp only [hi, ↓reduceIte, Outcome.ret.injEq] at hret
      subst hret
      have hd : l.st.argv.drop l.i = [] := List.drop_eq_nil_iff.mpr (by omega)
      simp [hd, fileTokens, lastFormat, harr, hn]
  | succ f ih =>
    intro l l' pre m hlen harr hn hret
    by_cases hi : l.i < argc
    · rw [args_loop_succ env argc f l hi] at hret
      have hi' : l.i < l.st.argv.length := by omega
      have htok : l.st.argv[l.i]? = some (l.st.argv[l.i]) := List.getElem?_eq_getElem hi'
      generalize l.st.argv[l.i] = tok at htok
      have hdrop : l.st.argv.drop l.i = tok :: l.st.argv.drop (l.i + 1) := by
        rw [List.drop_eq_getElem_cons hi']
        congr 1
        have := List.getElem?_eq_getElem hi'
        rw [htok] at this
        exact (Option.some.inj this).symm
      by_cases hs : CStr.startsWith tok '-' = true
      · -- a flag token
        cases hstep : args_token env argc l with
        | ret l1 =>
          rw [hstep] at hret
          simp only [Outcome.bind] at hret
          obtain ⟨s1, s2, s3, s4, s5, s6, s7⟩ :=
            args_token_flag_ret env argc l l1 tok htok hs hstep
          obtain ⟨p1, p2⟩ := flag_token_spec argc l.st.argv l.i tok l.st.output_langname
            htok hlen hs
          have hge : l.i ≤ l1.i := by
            rw [s5]; split_ifs
            · exact getFlagOpt_idx_ge argc l.st.argv l.i
            · exact le_refl _
          have hdr : l1.st.argv.drop (l1.i + 1) = l.st.argv.drop (l1.i + 1) := by
            have h := congrArg (List.drop (l1.i - l.i)) s4
            have e1 : l1.i - l.i + (l.i + 1) = l1.i + 1 := by omega
            have e2 : l.i + 1 + (l1.i - l.i) = l1.i + 1 := by omega
            simpa only [List.drop_drop, e1, e2] using h
          have := ih { l1 with i := l1.i + 1 } l' pre m (by simpa using s3.trans hlen)
            (by simpa [s2] using harr) (by simpa [s1] using hn) hret
          simp only [hdr, s6] at this
          rw [← s5] at p1 p2
          rw [p1, p2 s7]
          rw [s5]
          rw [s5] at this
          exact this
        | exit c st => rw [hstep] at hret; simp [Outcome.bind] at hret
        | abort st => rw [hstep] at hret; simp [Outcome.bind] at hret
        | fault => rw [hstep] at hret; simp [Outcome.bind] at hret
        | timeout => rw [hstep] at hret; simp [Outcome.bind] at hret
      · -- an input file
        have hs' : CStr.startsWith tok '-' = false := by simpa using hs
        obtain ⟨q1, q2⟩ := nonflag_token_spec tok (l.st.argv.drop (l.i + 1))
          l.st.output_langname hs'
        have htk : args_token env argc l =
            (if l.nfiles < l.st.input_filenames.length then
              .ret { l with
                nfiles := l.nfiles + 1
                st := { l.st with
                  input_filenames := l.st.input_filenames.set l.nfiles (some tok) } }
            else .fault) := by
          unfold args_token
          simp only [htok, hs', Bool.false_eq_true, ↓reduceIte]
        rw [htk] at hret
        by_cases hb : l.nfiles < l.st.input_filenames.length
        · simp only [hb, ↓reduceIte, Outcome.bind] at hret
          have hm : 0 < m := by
            rw [harr, hn] at hb
            simp at hb
            exact hb
          obtain ⟨m1, rfl⟩ : ∃ m1, m = m1 + 1 := ⟨m - 1, by omega⟩
          have hset : l.st.input_filenames.set l.nfiles (some tok) =
              (pre ++ [tok]).map some ++ List.replicate m1 none := by
            rw [harr, hn, List.set_append_right _ _ (by simp)]
            simp [List.replicate_succ]
          have := ih _ l' (pre ++ [tok]) m1 (by simpa using hlen) (by simpa using hset)
            (by simp [hn]) hret
          simp only [List.length_append, List.length_singleton] at this
          rw [hdrop, q1, q2]
          obtain ⟨t1, t2, t3, t4⟩ := this
          refine ⟨?_, ?_, ?_, t4⟩
          · rw [t1]
            simp [List.append_assoc]
          · simp; omega
          · rw [t3]; simp; omega
        · simp [hb, Outcome.bind] at hret
    · rw [args_loop] at hret
      simp only [hi, ↓reduceIte, Outcome.ret.injEq] at hret
      subst hret
      have hd : l.st.argv.drop l.i = [] := List.drop_eq_nil_iff.mpr (by omega)
      simp [hd, fileTokens, lastFormat, harr, hn]
/-- Tokens without a `-T` flag among them name no output format. -/
theorem lastFormat_no_T : ∀ (n : Nat) (toks : List CStr) (acc : Option CStr),
    toks.length ≤ n →
    (∀ tok ∈ toks, ¬ (CStr.startsWith tok '-' = true ∧ tok.getD 1 '\x00' = 'T')) →
    lastFormat toks acc = acc := by
  intro n
  induction n with
  | zero =>
    intro toks acc hl _
    have : toks = [] := List.length_eq_zero.mp (by omega)
    subst this
    rfl
  | succ n ih =>
    intro toks acc hl h
    cases toks with
    | nil => rfl
    | cons tok rest =>
      have ht := h tok (List.mem_cons_self tok rest)
      cases rest with
      | nil =>
        by_cases hs : CStr.startsWith tok '-' = true
        · have e2 : (tok.getD 1 '\x00' == 'T') = false := by
            simpa using fun e => ht ⟨hs, e⟩
          simp only [lastFormat, hs, e2, Bool.true_and, Bool.false_and, Bool.false_eq_true,
            ↓reduceIte]
        · have hs' : CStr.startsWith tok '-' = false := by simpa using hs
          simp only [lastFormat, hs', Bool.false_and, Bool.false_eq_true, ↓reduceIte]
      | cons next r =>
        have hr : ∀ t ∈ next :: r, ¬ (CStr.startsWith t '-' = true ∧ t.getD 1 '\x00' = 'T') :=
          fun t ht' => h t (List.mem_cons_of_mem tok ht')
        have hr2 : ∀ t ∈ r, ¬ (CStr.startsWith t '-' = true ∧ t.getD 1 '\x00' = 'T') :=
          fun t ht' => hr t (List.mem_cons_of_mem next ht')
        have l1 : (next :: r).length ≤ n := by
          simp only [List.length_cons] at hl ⊢; omega
        have l2 : r.length ≤ n := by
          simp only [List.length_cons] at hl ⊢; omega
        by_cases hs : CStr.startsWith tok '-' = true
        · have e2 : (tok.getD 1 '\x00' == 'T') = false := by
            simpa using fun e => ht ⟨hs, e⟩
          have e1 : (tok == ['-', 'T']) = false := by
            cases hb : tok == ['-', 'T'] with
            | false => rfl
            | true =>
              have e : tok = ['-', 'T'] := by simpa using hb
              rw [e] at ht
              exact absurd ⟨rfl, rfl⟩ ht
          simp only [lastFormat, hs, e1, e2, Bool.false_and, Bool.false_eq_true, ↓reduceIte]
          by_cases hd : (takesDetached tok && usableArg next) = true
          · simp only [hd, ↓reduceIte]
            exact ih r acc l2 hr2
          · simp only [hd, ↓reduceIte]
            exact ih (next :: r) acc l1 hr
        · have hs' : CStr.startsWith tok '-' = false := by simpa using hs
          simp only [lastFormat, hs', Bool.false_eq_true, ↓reduceIte]
          exact ih (next :: r) acc l1 hr

/-- The layout selection leaves the argument vector, the array of input files and
the output format as they were. -/
theorem gvlayout_select_frame (env : Env) (name : CStr) (s : State) :
    (gvlayout_select env name s).2.argv = s.argv ∧
      (gvlayout_select env name s).2.output_langname = s.output_langname ∧
      (gvlayout_select env name s).2.config = s.config := by
  unfold gvlayout_select
  split_ifs <;> exact ⟨rfl, rfl, rfl⟩

/-- The state in which `dotneato_args_initialize` returns, when `argc` is the
number of tokens: the array of input files holds the input files of the tokens
after the command name, in order, followed by unused slots, and the output format
is the one named by the last `-T`, or `dot` when there is none. -/
theorem dotneato_args_initialize_ret (env : Env) (argc : Nat) (st st' : State)
    (hlen : st.argv.length = argc)
    (hret : dotneato_args_initialize env argc st = .ret st') :
    (∃ k, st'.input_filenames =
      (fileTokens (st.argv.drop 1)).map some ++ List.replicate k none) ∧
    st'.output_langname =
      some ((lastFormat (st.argv.drop 1) st.output_langname).getD "dot".toList) ∧
    (lastFormat (st.argv.drop 1) st.output_langname = none → env.device "dot".toList = true) := by
  revert hret
  unfold dotneato_args_initialize
  lift_lets
  intro b st1 st2 r st3 st4 nfiles st5 hret
  have h2a : st2.argv = st.argv.set 0 b.2 ∧ st2.output_langname = st.output_langname := by
    simp only [st2, st1]
    split_ifs <;> exact ⟨rfl, rfl⟩
  have h3a : st3.argv = st.argv.set 0 b.2 ∧ st3.output_langname = st.output_langname := by
    simp only [st3, r]
    split_ifs
    · rw [(gvlayout_select_frame env _ _).1, (gvlayout_select_frame env _ _).2.1,
        (gvlayout_select_frame env _ _).1, (gvlayout_select_frame env _ _).2.1]
      exact h2a
    · rw [(gvlayout_select_frame env _ _).1, (gvlayout_select_frame env _ _).2.1]
      exact h2a
  have hA : st5.argv = st.argv.set 0 b.2 := h3a.1
  have hO : st5.output_langname = st.output_langname := h3a.2
  have hF : st5.input_filenames = List.map some [] ++ List.replicate (nfiles + 1) none := rfl
  have hD : st5.argv.drop 1 = st.argv.drop 1 := by
    rw [hA, List.drop_set_of_lt _ _ (by omega)]
  by_cases hcfg : st2.config = true
  · rw [if_pos hcfg] at hret
    exact absurd hret (by simp)
  · rw [if_neg hcfg] at hret
    cases hloop : args_loop env argc argc { i := 1, nfiles := 0, st := st5 } with
    | ret l =>
      rw [hloop] at hret
      simp only [Outcome.bind] at hret
      obtain ⟨t1', -, -, t4'⟩ := args_loop_ret env argc argc _ l [] (nfiles + 1)
        (by rw [hA, List.length_set]; exact hlen) hF rfl hloop
      have t4 : l.st.output_langname = lastFormat (st.argv.drop 1) st.output_langname := by
        rw [← hO, ← hD]; exact t4'
      have t1 : l.st.input_filenames = (fileTokens (st.argv.drop 1)).map some ++
          List.replicate (nfiles + 1 - (fileTokens (st.argv.drop 1)).length) none := by
        rw [← hD]; exact t1'
      by_cases hn : l.st.output_langname.isNone = true
      · rw [if_pos hn] at hret
        have hnone : lastFormat (st.argv.drop 1) st.output_langname = none := by
          rw [← t4]; exact Option.isNone_iff_eq_none.mp hn
        by_cases hv : env.device "dot".toList = true
        · simp only [gvjobs_output_langname, hv, ↓reduceIte, Outcome.ret.injEq] at hret
          subst hret
          exact ⟨⟨_, t1⟩, by rw [hnone]; rfl, fun _ => hv⟩
        · have hv' : (gvjobs_output_langname env "dot".toList l.st).1 = false := by
            simpa [gvjobs_output_langname] using hv
          rw [hv'] at hret
          exact absurd hret (by simp)
      · rw [if_neg hn] at hret
        simp only [Outcome.ret.injEq] at hret
        subst hret
        obtain ⟨v, hv⟩ := Option.isSome_iff_exists.mp (by
          cases h : l.st.output_langname with
          | none => rw [h] at hn; exact absurd rfl hn
          | some v => rfl : l.st.output_langname.isSome = true)
        rw [hv] at t4
        refine ⟨⟨_, t1⟩, by rw [hv, ← t4]; rfl, fun h => ?_⟩
        rw [← t4] at h
        exact absurd h (by simp)
    | exit c s => rw [hloop] at hret; simp [Outcome.bind] at hret
    | abort s => rw [hloop] at hret; simp [Outcome.bind] at hret
    | fault => rw [hloop] at hret; simp [Outcome.bind] at hret
    | timeout => rw [hloop] at hret; simp [Outcome.bind] at hret
/-- Without a token `-T`, `-K`, `-l` or `-o` that has nothing fused to it, the
input files are the tokens that do not start with the flag marker. -/
theorem fileTokens_no_detached : ∀ (n : Nat) (toks : List CStr), toks.length ≤ n →
    (∀ tok ∈ toks, takesDetached tok = false) → fileTokens toks = nonFlagTokens toks := by
  intro n
  induction n with
  | zero =>
    intro toks hl _
    have : toks = [] := List.length_eq_zero.mp (by omega)
    subst this
    rfl
  | succ n ih =>
    intro toks hl h
    cases toks with
    | nil => rfl
    | cons tok rest =>
      have ht := h tok (List.mem_cons_self tok rest)
      cases rest with
      | nil =>
        by_cases hs : CStr.startsWith tok '-' = true
        · simp [fileTokens, nonFlagTokens, hs]
        · simp [fileTokens, nonFlagTokens, hs]
      | cons next r =>
        have hr : ∀ t ∈ next :: r, takesDetached t = false :=
          fun t ht' => h t (List.mem_cons_of_mem tok ht')
        have l1 : (next :: r).length ≤ n := by
          simp only [List.length_cons] at hl ⊢; omega
        have e := ih (next :: r) l1 hr
        by_cases hs : CStr.startsWith tok '-' = true
        · simp only [fileTokens, hs, ht, Bool.false_and, Bool.false_eq_true, ↓reduceIte, e]
          simp [nonFlagTokens, hs]
        · have hs' : CStr.startsWith tok '-' = false := by simpa using hs
          simp only [fileTokens, hs', Bool.false_eq_true, ↓reduceIte, e]
          simp [nonFlagTokens, hs']

/-- A computation that returned has a result. -/
theorem Outcome.returned_iff {α : Type} (o : Outcome α) :
    o.returned = true ↔ ∃ a, o = .ret a := by
  cases o <;> simp [Outcome.returned]

/-- C14 (counterexample): `dot -T ps in.gv` returns normally with the single input
file `in.gv` in an array of three slots, whereas the tokens that do not start with
the flag marker are `ps` and `in.gv`; the token `ps` is the argument of `-T`. -/
theorem input_files_detached_arg :
    (runArgs ["dot", "-T", "ps", "in.gv"] .AGWARN).returned = true ∧
    ((runArgs ["dot", "-T", "ps", "in.gv"] .AGWARN).state.map fun st => st.input_filenames) =
      some [some "in.gv".toList, none, none] ∧
    nonFlagTokens ((mkArgv ["dot", "-T", "ps", "in.gv"]).drop 1) =
      ["ps".toList, "in.gv".toList] := by
  decide!

/-- C14 (amended): when `argc` is the number of tokens and `dotneato_args_initialize`
returns normally, the array of input files holds, in order, exactly the tokens of
`argv[1..argc-1]` that do not start with the flag marker and are not taken as the
detached argument of a `-T`, `-K`, `-l` or `-o` before them, followed by unused
slots; when no token is a bare `-T`, `-K`, `-l` or `-o`, these are all the tokens
that do not start with the flag marker. -/
theorem input_files_spec (env : Env) (argc : Nat) (st : State)
    (hlen : st.argv.length = argc)
    (hret : ( dotneato_args_initialize env argc st).returned = true) :
    ∃ st', dotneato_args_initialize env argc st = .ret st' ∧
      (∃ k, st'.input_filenames =
        (fileTokens (st.argv.drop 1)).map some ++ List.replicate k none) ∧
      ((∀ tok ∈ st.argv.drop 1, takesDetached tok = false) →
        ∃ k, st'.input_filenames =
          (nonFlagTokens (st.argv.drop 1)).map some ++ List.replicate k none) := by
  obtain ⟨st', h⟩ := (Outcome.returned_iff _).mp hret
  obtain ⟨h1, -, -⟩ := dotneato_args_initialize_ret env argc st st' hlen h
  refine ⟨st', h, h1, fun hno => ?_⟩
  rw [← fileTokens_no_detached _ _ (le_refl _) hno]
  exact h1

/-- C14 (witness): `dot -x a.gv -o out.ps -Tps b.gv` has the input files `a.gv`
and `b.gv`. -/
theorem input_files_spec_witness :
    fileTokens ((mkArgv ["dot", "-x", "a.gv", "-o", "out.ps", "-Tps", "b.gv"]).drop 1) =
      ["a.gv".toList, "b.gv".toList] ∧
    ∃ st', dotneato_args_initialize libc 7
        (State.init (mkArgv ["dot", "-x", "a.gv", "-o", "out.ps", "-Tps", "b.gv"]) .AGWARN 1) =
          .ret st' ∧
      (∃ k, st'.input_filenames =
        (fileTokens ((State.init (mkArgv ["dot", "-x", "a.gv", "-o", "out.ps", "-Tps", "b.gv"])
          .AGWARN 1).argv.drop 1)).map some ++ List.replicate k none) ∧
      ((∀ tok ∈ (State.init (mkArgv ["dot", "-x", "a.gv", "-o", "out.ps", "-Tps", "b.gv"])
          .AGWARN 1).argv.drop 1, takesDetached tok = false) →
        ∃ k, st'.input_filenames =
          (nonFlagTokens ((State.init
            (mkArgv ["dot", "-x", "a.gv", "-o", "out.ps", "-Tps", "b.gv"])
            .AGWARN 1).argv.drop 1)).map some ++ List.replicate k none) :=
  ⟨by decide,
   input_files_spec libc 7
    (State.init (mkArgv ["dot", "-x", "a.gv", "-o", "out.ps", "-Tps", "b.gv"]) .AGWARN 1)
    (by decide) (by decide!)⟩

/-- C15: when `argc` is the number of tokens and `dotneato_args_initialize` returns
normally, an output format is selected: the one named by the last `-T` flag of the
tokens (its fused text, or its detached argument), else the one selected before the
call, else `dot`; in the last case the registry knows `dot` (the assertion held).
Started without a selected format on tokens without a `-T` flag, the format is
`dot`. -/
theorem output_format_selected (env : Env) (argc : Nat) (st : State)
    (hlen : st.argv.length = argc)
    (hret : ( dotneato_args_initialize env argc st).returned = true) :
    ∃ st', dotneato_args_initialize env argc st = .ret st' ∧
      st'.output_langname =
        some ((lastFormat (st.argv.drop 1) st.output_langname).getD "dot".toList) ∧
      (lastFormat (st.argv.drop 1) st.output_langname = none →
        env.device "dot".toList = true) ∧
      (st.output_langname = none →
        (∀ tok ∈ st.argv.drop 1,
          ¬ (CStr.startsWith tok '-' = true ∧ tok.getD 1 '\x00' = 'T')) →
        st'.output_langname = some "dot".toList ∧ env.device "dot".toList = true) := by
  obtain ⟨st', h⟩ := (Outcome.returned_iff _).mp hret
  obtain ⟨-, h2, h3⟩ := dotneato_args_initialize_ret env argc st st' hlen h
  refine ⟨st', h, h2, h3, fun hnone hno => ?_⟩
  have e : lastFormat (st.argv.drop 1) st.output_langname = none := by
    rw [lastFormat_no_T _ _ _ (le_refl _) hno]; exact hnone
  rw [e] at h2
  exact ⟨h2, h3 e⟩

/-- C15 (witness): `dot -Tps -T svg x.gv` selects `svg`, the last `-T`, and
`dot x.gv` selects `dot`. -/
theorem output_format_selected_witness :
    (∃ st', dotneato_args_initialize libc 5
        (State.init (mkArgv ["dot", "-Tps", "-T", "svg", "x.gv"]) .AGWARN 1) = .ret st' ∧
      st'.output_langname = some "svg".toList) ∧
    (∃ st', dotneato_args_initialize libc 2
        (State.init (mkArgv ["dot", "x.gv"]) .AGWARN 1) = .ret st' ∧
      st'.output_langname = some "dot".toList) :=
  ⟨by
    obtain ⟨st', h, h2, _⟩ := output_format_selected libc 5
      (State.init (mkArgv ["dot", "-Tps", "-T", "svg", "x.gv"]) .AGWARN 1)
      (by decide) (by decide!)
    exact ⟨st', h, h2.trans (by decide)⟩,
   by
    obtain ⟨st', h, _, _, h4⟩ := output_format_selected libc 2
      (State.init (mkArgv ["dot", "x.gv"]) .AGWARN 1) (by decide) (by decide!)
    exact ⟨st', h, (h4 (by decide) (by decide)).1⟩⟩
/-! ## Theorems: terminating flags of `dotneato_args_initialize` -/

/-- C16: when the scanning loop reaches a flag token whose flag letter is none of
`G N E T K P V l o q s x y ?` (for the bare token `-` the letter is the terminating
NUL), it writes "option -c unrecognized" and the usage text to `stderr` and the
process is terminated with exit code 1; at a token `-V` it writes the version banner
and the exit code is 0; at a token `-?` it writes the usage text to `stdout` and the
exit code is 0.  Tokens are handled from left to right: a token that terminates the
process ends the loop with its exit code, whatever follows it, and a token that
does not is followed by the token after the cursor. -/
theorem terminating_flags (env : Env) (argc fuel : Nat) (l : Loop) (tok : CStr)
    (hi : l.i < argc) (htok : l.st.argv[l.i]? = some tok)
    (hs : CStr.startsWith tok '-' = true) :
    (tok.getD 1 '\x00' ∉
        ['G', 'N', 'E', 'T', 'K', 'P', 'V', 'l', 'o', 'q', 's', 'x', 'y', '?'] →
      args_loop env argc (fuel + 1) l = .exit 1
        { l.st with stderr := l.st.stderr ++ [.unrecognized (tok.getD 1 '\x00'), .usage] }) ∧
    (tok.getD 1 '\x00' = 'V' →
      args_loop env argc (fuel + 1) l = .exit 0
        { l.st with stderr := l.st.stderr ++ [.version] }) ∧
    (tok.getD 1 '\x00' = '?' →
      args_loop env argc (fuel + 1) l = .exit 0
        { l.st with stdout := l.st.stdout ++ [.usage] }) ∧
    (∀ c st, args_token env argc l = .exit c st →
      args_loop env argc (fuel + 1) l = .exit c st) ∧
    (∀ l', args_token env argc l = .ret l' →
      args_loop env argc (fuel + 1) l = args_loop env argc fuel { l' with i := l'.i + 1 }) := by
  rw [args_loop_succ env argc fuel l hi]
  refine ⟨?_, ?_, ?_, ?_, ?_⟩
  · intro hc
    simp only [List.mem_cons, List.mem_singleton, List.not_mem_nil, or_false, not_or] at hc
    obtain ⟨h0, h1, h2, h3, h4, h5, h6, h7, h8, h9, h10, h11, h12, h13⟩ := hc
    unfold args_token
    simp only [htok, hs, if_true]
    generalize List.getD tok 1 '\x00' = c at *
    simp [h0, h1, h2, h3, h4, h5, h6, h7, h8, h9, h10, h11, h12, h13, dotneato_usage,
      Outcome.bind, State.err]
  · intro hc
    unfold args_token
    simp only [htok, hs, if_true, hc]
    simp [Outcome.bind, State.err]
  · intro hc
    unfold args_token
    simp only [htok, hs, if_true, hc]
    simp [Outcome.bind, dotneato_usage]
  · intro c st h
    rw [h]; rfl
  · intro l' h
    rw [h]; rfl

/-- C16 (witness): the loop at the token `-Z` of `dot -Z -V` and at the token `-`
of `dot -`; and whole runs: `dot -V -Z` and `dot -?` end with exit code 0,
`dot -Z -V`, `dot -` and `dot -x -Z in.gv` with exit code 1. -/
theorem terminating_flags_witness :
    args_loop libc 3 2 ⟨1, 0, State.init (mkArgv ["dot", "-Z", "-V"]) .AGWARN 1⟩ = .exit 1
      { State.init (mkArgv ["dot", "-Z", "-V"]) .AGWARN 1 with
        stderr := [.unrecognized 'Z', .usage] } ∧
    args_loop libc 2 1 ⟨1, 0, State.init (mkArgv ["dot", "-"]) .AGWARN 1⟩ = .exit 1
      { State.init (mkArgv ["dot", "-"]) .AGWARN 1 with
        stderr := [.unrecognized '\x00', .usage] } ∧
    (runArgs ["dot", "-V", "-Z"] .AGWARN).exitCode = some 0 ∧
    (runArgs ["dot", "-Z", "-V"] .AGWARN).exitCode = some 1 ∧
    (runArgs ["dot", "-?"] .AGWARN).exitCode = some 0 ∧
    (runArgs ["dot", "-"] .AGWARN).exitCode = some 1 ∧
    (runArgs ["dot", "-x", "-Z", "in.gv"] .AGWARN).exitCode = some 1 :=
  ⟨(terminating_flags libc 3 1 ⟨1, 0, State.init (mkArgv ["dot", "-Z", "-V"]) .AGWARN 1⟩
      "-Z".toList (by decide) (by decide) (by decide)).1 (by decide),
   (terminating_flags libc 2 0 ⟨1, 0, State.init (mkArgv ["dot", "-"]) .AGWARN 1⟩
      "-".toList (by decide) (by decide) (by decide)).1 (by decide),
   by decide!, by decide!, by decide!, by decide!, by decide!⟩
/-- C17: `graph_init` on a graph with `nodesep="2"` and an empty `ranksep` returns
a rank separation of 144 points, the node separation of 2 inches, and with
`nodesep="3"` it returns 216 points, where the default constant is 36 points: the
scan of an empty or blank text returns `EOF`, which the test `== 0` does not catch,
so `xf` keeps the value left by the `nodesep` computation, for every choice of the
constants.  An absent `ranksep` and the bare word `equally` give the default. -/
theorem graph_init_ranksep_empty :
    ((graph_init stdConsts libc stdLabels (graphOf [("nodesep", "2"), ("ranksep", "")])
        false true false Agraphinfo_t.zero).1.toOption.map fun r => r.ranksep) = some 144 ∧
    ((graph_init stdConsts libc stdLabels (graphOf [("nodesep", "3"), ("ranksep", "")])
        false true false Agraphinfo_t.zero).1.toOption.map fun r => r.ranksep) = some 216 ∧
    ((graph_init stdConsts libc stdLabels (graphOf [("nodesep", "3"), ("ranksep", " ")])
        false true false Agraphinfo_t.zero).1.toOption.map fun r => r.ranksep) = some 216 ∧
    POINTS stdConsts.DEFAULT_RANKSEP = 36 ∧
    (∀ (K : Consts) (xf : Double),
      ranksep_xf K libc (graphOf [("ranksep", "")]) xf =
        (if xf < K.MIN_RANKSEP then K.MIN_RANKSEP else xf) ∧
      ranksep_xf K libc (graphOf [("ranksep", " ")]) xf =
        (if xf < K.MIN_RANKSEP then K.MIN_RANKSEP else xf) ∧
      ranksep_xf K libc (graphOf [("ranksep", "equally")]) xf = K.DEFAULT_RANKSEP ∧
      ranksep_xf K libc (graphOf []) xf = K.DEFAULT_RANKSEP) := by
  have e1 : libc.scan_lf [] = Scan.eof := by decide!
  have e2 : libc.scan_lf [' '] = Scan.eof := by decide!
  have e3 : libc.scan_lf "equally".toList = Scan.fail := by decide!
  have r1 : ∀ (K : Consts) (xf : Double),
      ranksep_xf K libc (graphOf [("ranksep", "")]) xf =
        (if xf < K.MIN_RANKSEP then K.MIN_RANKSEP else xf) := by
    intro K xf
    have hg : late_string (graphOf [("ranksep", "")]) "ranksep".toList = some [] := by decide
    simp only [ranksep_xf, hg, sscanf_lf, e1]
    simp
  have r2 : ∀ (K : Consts) (xf : Double),
      ranksep_xf K libc (graphOf [("ranksep", " ")]) xf =
        (if xf < K.MIN_RANKSEP then K.MIN_RANKSEP else xf) := by
    intro K xf
    have hg : late_string (graphOf [("ranksep", " ")]) "ranksep".toList = some [' '] := by
      decide
    simp only [ranksep_xf, hg, sscanf_lf, e2]
    simp
  refine ⟨?_, ?_, ?_, ?_, ?_⟩
  · decide!
  · decide!
  · decide!
  · norm_num [POINTS, stdConsts, POINTS_PER_INCH]
  · intro K xf
    refine ⟨r1 K xf, r2 K xf, ?_, ?_⟩
    · have hg : late_string (graphOf [("ranksep", "equally")]) "ranksep".toList =
          some "equally".toList := by decide
      simp only [ranksep_xf, hg, sscanf_lf, e3]
      simp
    · have hg : late_string (graphOf []) "ranksep".toList = none := by decide
      simp only [ranksep_xf, hg]
/-- Masking a join of two flags. -/
theorem or_and_mask (a b c : Nat) : (a ||| b) &&& c = (a &&& c) ||| (b &&& c) := by
  rw [Nat.and_comm, Nat.and_or_distrib_left, Nat.and_comm c a, Nat.and_comm c b]

/-- The position flag as a function of is-root, `labelloc` and `labeljust`. -/
theorem label_pos_flag_eq (K : Consts) (sg : graph_t) (isRoot : Bool) :
    label_pos_flag K sg isRoot =
      (if isRoot then
        (if firstChar (agget sg "labelloc".toList) = some 't' then K.LABEL_AT_TOP
          else K.LABEL_AT_BOTTOM)
       else
        (if firstChar (agget sg "labelloc".toList) = some 'b' then K.LABEL_AT_BOTTOM
          else K.LABEL_AT_TOP)) |||
      (if firstChar (agget sg "labeljust".toList) = some 'l' then K.LABEL_AT_LEFT
       else if firstChar (agget sg "labeljust".toList) = some 'r' then K.LABEL_AT_RIGHT
       else 0) := by
  unfold label_pos_flag
  have hv : ∀ (c : Char) (o : Option CStr),
      (o.isSome && (o.getD []).head? == some c) = true ↔ firstChar o = some c := by
    intro c o
    cases o with
    | none => simp [firstChar]
    | some p =>
      cases p with
      | nil => simp [firstChar]
      | cons d t => simp [firstChar]
  have hj : ∀ (c : Char) (p : CStr), (p.head? == some c) = true ↔ firstChar (some p) = some c := by
    intro c p
    cases p with
    | nil => simp [firstChar]
    | cons d t => simp [firstChar]
  simp only [hv]
  cases hjust : agget sg "labeljust".toList with
  | none => cases isRoot <;> simp [firstChar]
  | some just =>
    simp only [hj]
    cases isRoot <;> simp only [Bool.not_true, Bool.not_false, Bool.false_eq_true, ↓reduceIte] <;>
      split_ifs <;> simp
/-- The result of `do_graph_label` on a labelled graph: the label, the label bit
and the position flag are stored, and for a non-root graph one border slot is
written. -/
theorem do_graph_label_labelled (K : Consts) (env : Env) (L : Labels) (sg : graph_t)
    (isRoot flip : Bool) (u : Agraphinfo_t) (str : CStr)
    (hB : K.BorderOK) (hu : u.border.length = 4)
    (hl : agget sg "label".toList = some str) :
    do_graph_label K env L sg isRoot flip u = .ok
      { u with
        has_labels := u.has_labels ||| K.GRAPH_LABEL
        label := some (graph_label K env L sg str)
        label_pos := label_pos_flag K sg isRoot
        border :=
          if isRoot then u.border
          else u.border.set
            (if flip then
              (if label_pos_flag K sg isRoot &&& K.LABEL_AT_TOP ≠ 0 then K.RIGHT_IX
                else K.LEFT_IX)
             else
              (if label_pos_flag K sg isRoot &&& K.LABEL_AT_TOP ≠ 0 then K.TOP_IX
                else K.BOTTOM_IX))
            (if flip then
              { x := (K.PAD (graph_label K env L sg str).dimen).y
                y := (K.PAD (graph_label K env L sg str).dimen).x }
             else K.PAD (graph_label K env L sg str).dimen) } := by
  obtain ⟨h0, h1, h2, h3, -⟩ := hB
  simp only [do_graph_label, hl, graph_label]
  cases isRoot
  · cases flip
    · simp only [Bool.not_false, ↓reduceIte, Bool.false_eq_true, setBorder]
      split_ifs <;> first | rfl | omega
    · simp only [Bool.not_true, Bool.not_false, ↓reduceIte, Bool.false_eq_true, setBorder]
      split_ifs <;> first | rfl | omega
  · rfl

/-- The bits of the position flag, for independent flag bits. -/
theorem label_pos_flag_bits (K : Consts) (sg : graph_t) (isRoot : Bool)
    (hF : K.LabelFlagsOK) :
    (label_pos_flag K sg isRoot &&& K.LABEL_AT_TOP ≠ 0 ↔
      (if isRoot then firstChar (agget sg "labelloc".toList) = some 't'
        else firstChar (agget sg "labelloc".toList) ≠ some 'b')) ∧
    (label_pos_flag K sg isRoot &&& K.LABEL_AT_LEFT ≠ 0 ↔
      firstChar (agget sg "labeljust".toList) = some 'l') ∧
    (label_pos_flag K sg isRoot &&& K.LABEL_AT_RIGHT ≠ 0 ↔
      firstChar (agget sg "labeljust".toList) = some 'r') := by
  obtain ⟨t0, bt, lt, rt, l0, r0, lr, bl, br⟩ := hF
  have tl : K.LABEL_AT_TOP &&& K.LABEL_AT_LEFT = 0 := by rw [Nat.and_comm]; exact lt
  have tr : K.LABEL_AT_TOP &&& K.LABEL_AT_RIGHT = 0 := by rw [Nat.and_comm]; exact rt
  have rl : K.LABEL_AT_RIGHT &&& K.LABEL_AT_LEFT = 0 := by rw [Nat.and_comm]; exact lr
  rw [label_pos_flag_eq]
  simp only [or_and_mask]
  refine ⟨?_, ?_, ?_⟩
  · cases isRoot <;> simp only [Bool.false_eq_true, ↓reduceIte] <;> split_ifs <;>
      simp_all [Nat.and_self]
  · cases isRoot <;> simp only [Bool.false_eq_true, ↓reduceIte] <;> split_ifs <;>
      simp_all [Nat.and_self]
  · cases isRoot <;> simp only [Bool.false_eq_true, ↓reduceIte] <;> split_ifs <;>
      simp_all [Nat.and_self]

/-- C18: with independent flag bits and four border slots: without a `label`
attribute `do_graph_label` returns the record as it was (no label, position flag or
border slot is written); with one it returns a record whose position flag is
computed from is-root, `labelloc` and `labeljust` alone: the vertical flag of a
non-root graph is bottom if the first character of `labelloc` is `b` and top
otherwise, that of the root graph is top if it is `t` and bottom otherwise; the left
bit is set exactly when the first character of `labeljust` is `l`, the right bit
exactly when it is `r`, and the two are never both set. -/
theorem do_graph_label_pos (K : Consts) (env : Env) (L : Labels) (sg : graph_t)
    (isRoot flip : Bool) (u : Agraphinfo_t)
    (hF : K.LabelFlagsOK) (hB : K.BorderOK) (hu : u.border.length = 4) :
    (agget sg "label".toList = none → do_graph_label K env L sg isRoot flip u = .ok u) ∧
    (∀ str, agget sg "label".toList = some str →
      ∃ u', do_graph_label K env L sg isRoot flip u = .ok u' ∧
        u'.label_pos =
          (if isRoot then
            (if firstChar (agget sg "labelloc".toList) = some 't' then K.LABEL_AT_TOP
              else K.LABEL_AT_BOTTOM)
           else
            (if firstChar (agget sg "labelloc".toList) = some 'b' then K.LABEL_AT_BOTTOM
              else K.LABEL_AT_TOP)) |||
          (if firstChar (agget sg "labeljust".toList) = some 'l' then K.LABEL_AT_LEFT
           else if firstChar (agget sg "labeljust".toList) = some 'r' then K.LABEL_AT_RIGHT
           else 0) ∧
        (u'.label_pos &&& K.LABEL_AT_TOP ≠ 0 ↔
          (if isRoot then firstChar (agget sg "labelloc".toList) = some 't'
            else firstChar (agget sg "labelloc".toList) ≠ some 'b')) ∧
        (u'.label_pos &&& K.LABEL_AT_LEFT ≠ 0 ↔
          firstChar (agget sg "labeljust".toList) = some 'l') ∧
        (u'.label_pos &&& K.LABEL_AT_RIGHT ≠ 0 ↔
          firstChar (agget sg "labeljust".toList) = some 'r') ∧
        ¬ (u'.label_pos &&& K.LABEL_AT_LEFT ≠ 0 ∧ u'.label_pos &&& K.LABEL_AT_RIGHT ≠ 0)) := by
  refine ⟨fun h => by simp only [do_graph_label, h], ?_⟩
  intro str hl
  obtain ⟨ht, hle, hri⟩ := label_pos_flag_bits K sg isRoot hF
  refine ⟨_, do_graph_label_labelled K env L sg isRoot flip u str hB hu hl,
    label_pos_flag_eq K sg isRoot, ht, hle, hri, ?_⟩
  rintro ⟨h1, h2⟩
  have e1 := hle.mp h1
  have e2 := hri.mp h2
  rw [e1] at e2
  exact absurd e2 (by decide)

/-- C18 (witness): a non-root graph with `label="abc"`, `labelloc="b"` and
`labeljust="r"` gets the position flag bottom + right (4 with the example
constants). -/
theorem do_graph_label_pos_witness :
    stdConsts.LabelFlagsOK ∧ stdConsts.BorderOK ∧
    ∃ u', do_graph_label stdConsts libc stdLabels
        (graphOf [("label", "abc"), ("labelloc", "b"), ("labeljust", "r")]) false false
        Agraphinfo_t.zero = .ok u' ∧ u'.label_pos = 4 :=
  ⟨by decide, by decide,
    let ⟨u', h, hp, _⟩ := (do_graph_label_pos stdConsts libc stdLabels
      (graphOf [("label", "abc"), ("labelloc", "b"), ("labeljust", "r")]) false false
      Agraphinfo_t.zero (by decide) (by decide) (by decide)).2 "abc".toList (by decide)
    ⟨u', h, hp.trans (by decide)⟩⟩

/-- C19: with independent flag bits and four border slots, `do_graph_label` on a
labelled non-root graph returns a record in which one border slot holds the padded
label dimension and every other slot is as before: not flipped, the top slot for a
top label and the bottom slot for a bottom label, holding (width, height); flipped,
the right slot for a top label and the left slot for a bottom label, holding
(height, width).  A label is a top label (its top bit is set) unless the first
character of `labelloc` is `b`.  On the root graph the border is as before. -/
theorem do_graph_label_border (K : Consts) (env : Env) (L : Labels) (sg : graph_t)
    (flip : Bool) (u : Agraphinfo_t) (str : CStr)
    (hF : K.LabelFlagsOK) (hB : K.BorderOK) (hu : u.border.length = 4)
    (hl : agget sg "label".toList = some str) :
    (∃ u', do_graph_label K env L sg false flip u = .ok u' ∧
      (u'.label_pos &&& K.LABEL_AT_TOP ≠ 0 ↔
        firstChar (agget sg "labelloc".toList) ≠ some 'b') ∧
      u'.border.length = 4 ∧
      u'.border[if flip then
          (if firstChar (agget sg "labelloc".toList) ≠ some 'b' then K.RIGHT_IX
            else K.LEFT_IX)
          else
          (if firstChar (agget sg "labelloc".toList) ≠ some 'b' then K.TOP_IX
            else K.BOTTOM_IX)]? =
        some (if flip then
            { x := (K.PAD (graph_label K env L sg str).dimen).y
              y := (K.PAD (graph_label K env L sg str).dimen).x }
          else K.PAD (graph_label K env L sg str).dimen) ∧
      ∀ j, j ≠ (if flip then
          (if firstChar (agget sg "labelloc".toList) ≠ some 'b' then K.RIGHT_IX
            else K.LEFT_IX)
          else
          (if firstChar (agget sg "labelloc".toList) ≠ some 'b' then K.TOP_IX
            else K.BOTTOM_IX)) → u'.border[j]? = u.border[j]?) ∧
    (∃ u', do_graph_label K env L sg true flip u = .ok u' ∧ u'.border = u.border) := by
  obtain ⟨ht, -, -⟩ := label_pos_flag_bits K sg false hF
  simp only [Bool.false_eq_true, ↓reduceIte] at ht
  have hB' := hB
  obtain ⟨h0, h1, h2, h3, -⟩ := hB'
  refine ⟨⟨_, do_graph_label_labelled K env L sg false flip u str hB hu hl, ht, ?_, ?_, ?_⟩,
    ⟨_, do_graph_label_labelled K env L sg true flip u str hB hu hl, rfl⟩⟩
  · simp [hu]
  · have hix : (if flip then
          (if firstChar (agget sg "labelloc".toList) ≠ some 'b' then K.RIGHT_IX
            else K.LEFT_IX)
          else
          (if firstChar (agget sg "labelloc".toList) ≠ some 'b' then K.TOP_IX
            else K.BOTTOM_IX)) < u.border.length := by
      rw [hu]; split_ifs <;> assumption
    simp only [Bool.false_eq_true, ↓reduceIte, ht]
    rw [List.getElem?_set_self hix]
  · intro j hj
    simp only [Bool.false_eq_true, ↓reduceIte, ht]
    rw [List.getElem?_set_ne (Ne.symm hj)]

/-- C19 (witness): a non-root graph with `label="abc"` and `labelloc="b"` under a
flipped root: the label is 30 by 14 points, padded to 46 by 22, and the left slot
(slot 3) receives (22, 46). -/
theorem do_graph_label_border_witness :
    stdConsts.LabelFlagsOK ∧ stdConsts.BorderOK ∧
    ∃ u', do_graph_label stdConsts libc stdLabels
        (graphOf [("label", "abc"), ("labelloc", "b")]) false true Agraphinfo_t.zero = .ok u' ∧
      u'.border[3]? = some { x := 22, y := 46 } ∧
      u'.border[0]? = some { x := 0, y := 0 } :=
  ⟨by decide, by decide,
    let ⟨u', h, _, _, hw, hr⟩ := (do_graph_label_border stdConsts libc stdLabels
      (graphOf [("label", "abc"), ("labelloc", "b")]) true Agraphinfo_t.zero "abc".toList
      (by decide) (by decide) (by decide) (by decide)).1
    ⟨u', h, hw.trans (by decide!),
      (hr 0 (by decide)).trans (by decide)⟩⟩
/-! ## Theorems: `dotneato_basename` -/

/-- The separator test at an offset is the separator test of the character there. -/
theorem isSepAt_eq (path : CStr) (s : Nat) : isSepAt path s = isSep (path.getD s '\x00') := rfl

/-- The first loop of `dotneato_basename` cuts a run of separators off the end and
stops at offset 0 or on a non-separator. -/
theorem skipTrailing_spec (s : Nat) : ∀ path : CStr, s + 1 = path.length →
    ∃ post, path = (skipTrailing path s).1 ++ post ∧ (∀ c ∈ post, isSep c = true) ∧
      (skipTrailing path s).2 + 1 = (skipTrailing path s).1.length ∧
      ((skipTrailing path s).2 = 0 ∨
        isSepAt (skipTrailing path s).1 (skipTrailing path s).2 = false) := by
  induction s with
  | zero =>
    intro path h
    exact ⟨[], by simp [skipTrailing], by simp, by simpa [skipTrailing] using h,
      Or.inl rfl⟩
  | succ s ih =>
    intro path h
    by_cases hs : isSepAt path (s + 1) = true
    · have hlen : s + 1 = (path.take (s + 1)).length := by
        rw [List.length_take]; omega
      obtain ⟨post, h1, h2, h3, h4⟩ := ih (path.take (s + 1)) hlen
      have hsk : skipTrailing path (s + 1) = skipTrailing (path.take (s + 1)) s := by
        simp only [skipTrailing, hs, ↓reduceIte]
      rw [hsk]
      refine ⟨post ++ path.drop (s + 1), ?_, ?_, h3, h4⟩
      · rw [← List.append_assoc, ← h1, List.take_append_drop]
      · intro c hc
        rcases List.mem_append.mp hc with hc | hc
        · exact h2 c hc
        · have hd : path.drop (s + 1) = [path.getD (s + 1) '\x00'] := by
            have hlt : s + 1 < path.length := by omega
            rw [List.drop_eq_getElem_cons hlt, List.drop_of_length_le (by omega)]
            simp [List.getD_eq_getElem?_getD, List.getElem?_eq_getElem hlt]
          rw [hd] at hc
          rw [List.mem_singleton] at hc
          rw [hc, ← isSepAt_eq]; exact hs
    · have hs' : isSepAt path (s + 1) = false := by simpa using hs
      have hsk : skipTrailing path (s + 1) = (path, s + 1) := by
        simp only [skipTrailing, hs', Bool.false_eq_true, ↓reduceIte]
      rw [hsk]
      exact ⟨[], by simp, by simp, h, Or.inr hs'⟩

/-- The second loop of `dotneato_basename` moves left over non-separators and stops
at offset 0 or on a separator. -/
theorem scanLeft_spec (path : CStr) (s : Nat) :
    scanLeft path s ≤ s ∧
      (∀ i, scanLeft path s < i → i ≤ s → isSepAt path i = false) ∧
      (scanLeft path s = 0 ∨ isSepAt path (scanLeft path s) = true) := by
  induction s with
  | zero => exact ⟨le_refl _, fun i h1 h2 => by simp [scanLeft] at h1; omega, Or.inl rfl⟩
  | succ s ih =>
    by_cases hs : isSepAt path (s + 1) = true
    · have e : scanLeft path (s + 1) = s + 1 := by simp [scanLeft, hs]
      rw [e]
      exact ⟨le_refl _, fun i h1 h2 => by omega, Or.inr hs⟩
    · have hs' : isSepAt path (s + 1) = false := by simpa using hs
      have e : scanLeft path (s + 1) = scanLeft path s := by simp [scanLeft, hs']
      rw [e]
      obtain ⟨h1, h2, h3⟩ := ih
      refine ⟨by omega, ?_, h3⟩
      intro i hi1 hi2
      by_cases hi : i = s + 1
      · rw [hi]; exact hs'
      · exact h2 i hi1 (by omega)
/-- The result of `dotneato_basename` on a path with a non-separator character,
separators being the slash and the backslash. -/
theorem dotneato_basename_split (path : CStr) (hne : ∃ c ∈ path, isSep c = false) :
    ∃ pre post, path = pre ++ (dotneato_basename path).1 ++ post ∧
      (dotneato_basename path).2 = pre ++ (dotneato_basename path).1 ∧
      (∀ c ∈ post, isSep c = true) ∧
      (dotneato_basename path).1 ≠ [] ∧
      (∀ c ∈ (dotneato_basename path).1, isSep c = false) ∧
      (pre = [] ∨ ∃ p c, pre = p ++ [c] ∧ isSep c = true) := by
  obtain ⟨c0, hc0, hc0s⟩ := hne
  have hpne : path ≠ [] := List.ne_nil_of_mem hc0
  have hlen : path.length - 1 + 1 = path.length := by
    have := List.length_pos.mpr hpne
    omega
  obtain ⟨post, h1, h2, h3, h4⟩ := skipTrailing_spec (path.length - 1) path hlen
  have hemp : path.isEmpty = false := by
    cases path with
    | nil => exact absurd rfl hpne
    | cons _ _ => rfl
  generalize hq : (skipTrailing path (path.length - 1)).1 = q at h1 h3 h4
  generalize hs : (skipTrailing path (path.length - 1)).2 = s at h3 h4
  have hget : ∀ i, i < q.length → q.getD i '\x00' ∈ q := by
    intro i hi
    rw [List.getD_eq_getElem?_getD, List.getElem?_eq_getElem hi]
    exact List.getElem_mem hi
  have hidx : ∀ c ∈ q, ∃ i, i < q.length ∧ q.getD i '\x00' = c := by
    intro c hc
    obtain ⟨i, hi, e⟩ := List.getElem_of_mem hc
    exact ⟨i, hi, by rw [List.getD_eq_getElem?_getD, List.getElem?_eq_getElem hi]; exact e⟩
  by_cases hs0 : s = 0
  · -- the offset reached the start: the buffer is one character long
    have hres : dotneato_basename path = (q, q) := by
      simp only [dotneato_basename, hemp, Bool.false_eq_true, ↓reduceIte, hq, hs, hs0,
        beq_self_eq_true]
    have hq1 : q.length = 1 := by omega
    obtain ⟨c, rfl⟩ := List.length_eq_one.mp hq1
    have hcs : isSep c = false := by
      rw [h1] at hc0
      rcases List.mem_append.mp hc0 with h | h
      · rw [List.mem_singleton] at h; rw [← h]; exact hc0s
      · rw [h2 c0 h] at hc0s; exact absurd hc0s (by decide)
    rw [hres]
    refine ⟨[], post, by simpa using h1, by simp, h2, by simp, ?_, Or.inl rfl⟩
    intro c' hc'
    rw [List.mem_singleton] at hc'
    rw [hc']; exact hcs
  · have hsns : isSepAt q s = false := by
      rcases h4 with h | h
      · exact absurd h hs0
      · exact h
    obtain ⟨t1, t2, t3⟩ := scanLeft_spec q s
    by_cases ht : isSepAt q (scanLeft q s) = true
    · have hres : dotneato_basename path = (q.drop (scanLeft q s + 1), q) := by
        simp only [dotneato_basename, hemp, Bool.false_eq_true, ↓reduceIte, hq, hs, ht]
        simp [hs0]
      have hts : scanLeft q s < s := by
        rcases Nat.lt_or_ge (scanLeft q s) s with h | h
        · exact h
        · have : scanLeft q s = s := by omega
          rw [this, hsns] at ht
          exact absurd ht (by decide)
      rw [hres]
      refine ⟨q.take (scanLeft q s + 1), post, ?_, ?_, h2, ?_, ?_, Or.inr ?_⟩
      · rw [List.take_append_drop]; exact h1
      · rw [List.take_append_drop]
      · intro h
        have := congrArg List.length h
        rw [List.length_drop] at this
        simp at this
        omega
      · intro c hc
        obtain ⟨i, hi, e⟩ := List.getElem_of_mem hc
        rw [List.length_drop] at hi
        rw [List.getElem_drop] at e
        have hb := t2 (scanLeft q s + 1 + i) (by omega) (by omega)
        rw [isSepAt_eq, List.getD_eq_getElem?_getD,
          List.getElem?_eq_getElem (by omega), Option.getD_some, e] at hb
        exact hb
      · have hlt : scanLeft q s < q.length := by omega
        refine ⟨q.take (scanLeft q s), q.getD (scanLeft q s) '\x00', ?_, ?_⟩
        · rw [List.take_succ, List.getD_eq_getElem?_getD, List.getElem?_eq_getElem hlt]
          simp
        · rw [← isSepAt_eq]; exact ht
    · have ht' : isSepAt q (scanLeft q s) = false := by simpa using ht
      have ht0 : scanLeft q s = 0 := by
        rcases t3 with h | h
        · exact h
        · exact absurd h ht
      have hres : dotneato_basename path = (q, q) := by
        simp only [dotneato_basename, hemp, Bool.false_eq_true, ↓reduceIte, hq, hs, ht']
        simp [hs0]
      rw [hres]
      refine ⟨[], post, by simpa using h1, by simp, h2, ?_, ?_, Or.inl rfl⟩
      · intro h
        have h' : q = [] := h
        rw [h'] at h3
        simp at h3
      · intro c hc
        obtain ⟨i, hi, e⟩ := hidx c hc
        rw [← e, ← isSepAt_eq]
        by_cases hi0 : i = 0
        · rw [hi0, ← ht0]; exact ht'
        · exact t2 i (by omega) (by omega)

/-- C20: for every path with a non-separator character, where both the slash and
the backslash are separators, `dotneato_basename` returns the last non-empty
component: the path is `pre ++ result ++ post` where `post` consists of
separators (they are removed from the buffer), the result is non-empty and
separator-free, and `pre` is empty or ends in a separator; a path without any
separator is returned whole and unchanged. -/
theorem dotneato_basename_spec (path : CStr) :
    ((∃ c ∈ path, isSep c = false) →
      ∃ pre post, path = pre ++ (dotneato_basename path).1 ++ post ∧
        (dotneato_basename path).2 = pre ++ (dotneato_basename path).1 ∧
        (∀ c ∈ post, isSep c = true) ∧
        (dotneato_basename path).1 ≠ [] ∧
        (∀ c ∈ (dotneato_basename path).1, isSep c = false) ∧
        (pre = [] ∨ ∃ p c, pre = p ++ [c] ∧ isSep c = true)) ∧
    ((∀ c ∈ path, isSep c = false) → dotneato_basename path = (path, path)) := by
  refine ⟨dotneato_basename_split path, ?_⟩
  intro hall
  cases hp : path with
  | nil => rfl
  | cons a t =>
    rw [← hp]
    obtain ⟨pre, post, h1, h2, h3, -, -, h6⟩ :=
      dotneato_basename_split path ⟨a, by rw [hp]; exact List.mem_cons_self a t,
        hall a (by rw [hp]; exact List.mem_cons_self a t)⟩
    have hpost : post = [] := by
      cases post with
      | nil => rfl
      | cons c r =>
        have hc : c ∈ path := by
          rw [h1]; exact List.mem_append_right _ (List.mem_cons_self c r)
        have := h3 c (List.mem_cons_self c r)
        rw [hall c hc] at this
        exact absurd this (by decide)
    have hpre : pre = [] := by
      rcases h6 with h | ⟨p, c, hpc, hc⟩
      · exact h
      · have hcm : c ∈ path := by
          rw [h1, hpc]
          exact List.mem_append_left _ (List.mem_append_left _
            (List.mem_append_right _ (List.mem_singleton_self c)))
        rw [hall c hcm] at hc
        exact absurd hc (by decide)
    rw [hpost, hpre] at h1
    rw [hpre] at h2
    simp only [List.nil_append, List.append_nil] at h1 h2
    exact Prod.ext h1.symm (h2.trans h1.symm)

/-- C20 (witness): `/usr//bin/dot//` gives `dot` and leaves `/usr//bin/dot` in the
buffer; `dot` is returned whole. -/
theorem dotneato_basename_spec_witness :
    (∃ pre post, "/usr//bin/dot//".toList =
        pre ++ (dotneato_basename "/usr//bin/dot//".toList).1 ++ post ∧
      (dotneato_basename "/usr//bin/dot//".toList).2 =
        pre ++ (dotneato_basename "/usr//bin/dot//".toList).1 ∧
      (∀ c ∈ post, isSep c = true) ∧
      (dotneato_basename "/usr//bin/dot//".toList).1 ≠ [] ∧
      (∀ c ∈ (dotneato_basename "/usr//bin/dot//".toList).1, isSep c = false) ∧
      (pre = [] ∨ ∃ p c, pre = p ++ [c] ∧ isSep c = true)) ∧
    dotneato_basename "/usr//bin/dot//".toList = ("dot".toList, "/usr//bin/dot".toList) ∧
    dotneato_basename "dot".toList = ("dot".toList, "dot".toList) :=
  ⟨(dotneato_basename_spec "/usr//bin/dot//".toList).1 ⟨'u', by decide, by decide⟩,
   by decide,
   (dotneato_basename_spec "dot".toList).2 (by decide)⟩

/-- C20 (counterexample): the backslash is a separator without any flag: the path
`a\b`, which contains no slash, is not returned whole; the result is `b`. -/
theorem dotneato_basename_backslash :
    '/' ∉ ['a', '\\', 'b'] ∧
    dotneato_basename ['a', '\\', 'b'] = (['b'], ['a', '\\', 'b']) ∧
    (dotneato_basename ['a', '\\', 'b']).1 ≠ ['a', '\\', 'b'] := by
  decide
/-! ## Theorems: `global_def` -/

/-- Splitting a declaration text at its first `=`. -/
theorem split_at_eq (n v : CStr) (hn : '=' ∉ n) :
    (n ++ '=' :: v).takeWhile (fun c => c != '=') = n ∧
      (n ++ '=' :: v).dropWhile (fun c => c != '=') = '=' :: v := by
  induction n with
  | nil => simp
  | cons a t ih =>
    have ha : a ≠ '=' := fun h => hn (by rw [h]; exact List.mem_cons_self _ _)
    have ht : '=' ∉ t := fun h => hn (List.mem_cons_of_mem _ h)
    obtain ⟨h1, h2⟩ := ih ht
    simp only [List.cons_append, List.takeWhile_cons, List.dropWhile_cons]
    simp [ha, h1, h2]

/-- A declaration text without `=` is a name. -/
theorem split_no_eq (d : CStr) (hd : '=' ∉ d) :
    d.takeWhile (fun c => c != '=') = d ∧ d.dropWhile (fun c => c != '=') = [] := by
  induction d with
  | nil => simp
  | cons a t ih =>
    have ha : a ≠ '=' := fun h => hd (by rw [h]; exact List.mem_cons_self _ _)
    have ht : '=' ∉ t := fun h => hd (List.mem_cons_of_mem _ h)
    obtain ⟨h1, h2⟩ := ih ht
    simp only [List.takeWhile_cons, List.dropWhile_cons]
    simp [ha, h1, h2]

/-- The effect of `global_def` on a token `-c` with the fused text `n=v`. -/
theorem global_def_split (i : Nat) (kind : AttrKind) (st : State) (c : Char) (n v : CStr)
    (hget : st.argv.getD i [] = '-' :: c :: (n ++ '=' :: v)) (hn : '=' ∉ n) :
    global_def i kind st =
      { st with
        argv := st.argv.set i ('-' :: c :: n)
        decls := st.decls ++ [{ kind := kind, name := n, value := v, fixed := true }] } := by
  obtain ⟨s1, s2⟩ := split_at_eq n v hn
  simp only [global_def, hget, List.drop_succ_cons, List.drop_zero, s1, s2, List.take_succ_cons,
    List.take_zero, List.isEmpty_cons, Bool.false_eq_true, ↓reduceIte, List.cons_append,
    List.nil_append]

/-- The effect of `global_def` on a token `-c` with a fused text without `=`. -/
theorem global_def_name (i : Nat) (kind : AttrKind) (st : State) (c : Char) (d : CStr)
    (hget : st.argv.getD i [] = '-' :: c :: d) (hd : '=' ∉ d) :
    global_def i kind st =
      { st with
        decls := st.decls ++
          [{ kind := kind, name := d, value := "true".toList, fixed := true }] } := by
  obtain ⟨s1, s2⟩ := split_no_eq d hd
  simp only [global_def, hget, List.drop_succ_cons, List.drop_zero, s1, s2, List.isEmpty_nil,
    ↓reduceIte]

/-- C21: when the scanning loop reaches a token `-G`, `-N` or `-E` with the fused
text `d`: if `d` is `n=v` where `n` contains no `=`, the attribute `n` with the value
`v` is declared for graphs, nodes or edges respectively, marked fixed (the token is
cut after `n`); if `d` is not empty and contains no `=`, the attribute `d` is declared
with the value `true`, marked fixed; in both cases the loop goes on with the next
token.  If `d` is empty, "Missing argument" and the usage text are written to
`stderr` and the process is terminated with exit code 1, whatever token follows. -/
theorem global_def_flag (env : Env) (argc fuel : Nat) (l : Loop) (c : Char) (k : AttrKind)
    (d : CStr) (hi : l.i < argc)
    (hk : (c, k) ∈ [('G', AttrKind.AGRAPH), ('N', AttrKind.AGNODE), ('E', AttrKind.AGEDGE)])
    (htok : l.st.argv[l.i]? = some ('-' :: c :: d)) :
    (∀ n v, d = n ++ '=' :: v → '=' ∉ n →
      args_loop env argc (fuel + 1) l =
        args_loop env argc fuel
          { l with
            i := l.i + 1
            st := { l.st with
              argv := l.st.argv.set l.i ('-' :: c :: n)
              decls := l.st.decls ++ [{ kind := k, name := n, value := v, fixed := true }] } }) ∧
    (d ≠ [] → '=' ∉ d →
      args_loop env argc (fuel + 1) l =
        args_loop env argc fuel
          { l with
            i := l.i + 1
            st := { l.st with
              decls := l.st.decls ++
                [{ kind := k, name := d, value := "true".toList, fixed := true }] } }) ∧
    (d = [] →
      args_loop env argc (fuel + 1) l =
        .exit 1 { l.st with stderr := l.st.stderr ++ [.missingArg c, .usage] }) := by
  have hget : l.st.argv.getD l.i [] = '-' :: c :: d := by
    simp [List.getD_eq_getElem?_getD, htok]
  rw [args_loop_succ env argc fuel l hi]
  simp only [List.mem_cons, Prod.mk.injEq, List.mem_singleton, List.not_mem_nil, or_false] at hk
  refine ⟨?_, ?_, ?_⟩
  · intro n v hd hn
    have hlen : 0 < d.length := by rw [hd]; simp
    rw [hd] at hget
    rcases hk with ⟨rfl, rfl⟩ | ⟨rfl, rfl⟩ | ⟨rfl, rfl⟩ <;>
      simp [args_token, htok, CStr.startsWith, CStr.nonNulAt, Outcome.bind, hlen,
        global_def_split _ _ _ _ n v hget hn]
  · intro hne hd
    have hlen : 0 < d.length := List.length_pos.mpr hne
    rcases hk with ⟨rfl, rfl⟩ | ⟨rfl, rfl⟩ | ⟨rfl, rfl⟩ <;>
      simp [args_token, htok, CStr.startsWith, CStr.nonNulAt, Outcome.bind, hlen,
        global_def_name _ _ _ _ d hget hd]
  · intro hd
    subst hd
    rcases hk with ⟨rfl, rfl⟩ | ⟨rfl, rfl⟩ | ⟨rfl, rfl⟩ <;>
      simp [args_token, htok, CStr.startsWith, CStr.nonNulAt, Outcome.bind, dotneato_usage,
        State.err]

/-- C21 (witness): the loop at the token `-Ga=b=c` declares the graph attribute `a`
with the value `b=c`, at the token `-Nshape` the node attribute `shape` with the
value `true`, and at the token `-E` it exits with code 1; whole runs:
`dot -Ea=b=c -Nfoo` declares both, `dot -G rankdir=LR` exits with code 1 without
declaring anything. -/
theorem global_def_flag_witness :
    args_loop libc 2 1 ⟨1, 0, State.init (mkArgv ["dot", "-Ga=b=c"]) .AGWARN 1⟩ =
      args_loop libc 2 0 ⟨2, 0, { State.init (mkArgv ["dot", "-Ga=b=c"]) .AGWARN 1 with
        argv := (mkArgv ["dot", "-Ga=b=c"]).set 1 "-Ga".toList,
        decls := [⟨.AGRAPH, "a".toList, "b=c".toList, true⟩] }⟩ ∧
    args_loop libc 2 1 ⟨1, 0, State.init (mkArgv ["dot", "-Nshape"]) .AGWARN 1⟩ =
      args_loop libc 2 0 ⟨2, 0, { State.init (mkArgv ["dot", "-Nshape"]) .AGWARN 1 with
        decls := [⟨.AGNODE, "shape".toList, "true".toList, true⟩] }⟩ ∧
    args_loop libc 2 1 ⟨1, 0, State.init (mkArgv ["dot", "-E"]) .AGWARN 1⟩ =
      .exit 1 { State.init (mkArgv ["dot", "-E"]) .AGWARN 1 with
        stderr := [.missingArg 'E', .usage] } ∧
    ((runArgs ["dot", "-Ea=b=c", "-Nfoo"] .AGWARN).state.map fun st => st.decls) =
      some [⟨.AGEDGE, "a".toList, "b=c".toList, true⟩,
        ⟨.AGNODE, "foo".toList, "true".toList, true⟩] ∧
    (runArgs ["dot", "-G", "rankdir=LR"] .AGWARN).exitCode = some 1 ∧
    ((runArgs ["dot", "-G", "rankdir=LR"] .AGWARN).state.map fun st => st.decls) = some [] :=
  ⟨(global_def_flag libc 2 0 ⟨1, 0, State.init (mkArgv ["dot", "-Ga=b=c"]) .AGWARN 1⟩ 'G'
      .AGRAPH "a=b=c".toList (by decide) (by decide) (by decide)).1 "a".toList "b=c".toList
      (by decide) (by decide),
   (global_def_flag libc 2 0 ⟨1, 0, State.init (mkArgv ["dot", "-Nshape"]) .AGWARN 1⟩ 'N'
      .AGNODE "shape".toList (by decide) (by decide) (by decide)).2.1 (by decide) (by decide),
   (global_def_flag libc 2 0 ⟨1, 0, State.init (mkArgv ["dot", "-E"]) .AGWARN 1⟩ 'E'
      .AGEDGE [] (by decide) (by decide) (by decide)).2.2 rfl,
   by decide!, by decide!, by decide!⟩
/-! ## Theorems: the end of the sequence of `gvNextInputGraph` -/

/-- The run from a state in which a file is open, up to the end of the sequence:
where it leaves the stream, given the same for the run between two sources over the
paths `suf` that follow. -/
theorem drain_reading_end (fs : FileSystem) (suf : List CStr)
    (hA : ∀ (pre : List CStr) (s : Stream) (n : Nat), Between s pre suf →
      (expectedGraphs fs suf).length + 1 ≤ n →
      ∃ s', gvDrain fs n s = .ok (expectedGraphs fs suf, s') ∧
        s'.fp = .null ∧ s'.fidx = s.fidx + suf.length + 1 ∧
        s'.input_filenames = s.input_filenames ∧
        s'.open_files = s.open_files ++ suf.filter (fun q => (fs q).isSome))
    (pre : List CStr) :
    ∀ (rest : List graph_t) (s : Stream) (n : Nat),
      s.input_filenames = (pre ++ suf).map some ++ [none] → pre ++ suf ≠ [] →
      s.fidx = pre.length → s.fp = .file rest →
      rest.length + (expectedGraphs fs suf).length + 1 ≤ n →
      ∃ s', gvDrain fs n s = .ok (rest ++ expectedGraphs fs suf, s') ∧
        s'.fp = .null ∧ s'.fidx = s.fidx + suf.length + 1 ∧
        s'.input_filenames = s.input_filenames ∧
        s'.open_files = s.open_files ++ suf.filter (fun q => (fs q).isSome) := by
  intro rest
  induction rest with
  | nil =>
    intro s n harr hne hidx hfp hn
    cases n with
    | zero => simp at hn
    | succ m =>
      have hb : Between { s with agfile := s.fn.getD "<stdin>".toList, fp := .null, gidx := 0 }
          pre suf := ⟨harr, hne, hidx, rfl, rfl⟩
      have hcall : gvNextInputGraph fs s = gvNextInputGraph fs
          { s with agfile := s.fn.getD "<stdin>".toList, fp := .null, gidx := 0 } := by
        rw [gvNextInputGraph_between fs pre suf _ hb]
        unfold gvNextInputGraph
        rw [nextLoop_file_nil fs _ s hfp]
        apply nextLoop_between fs suf pre _ _ hb
        rw [harr]; simp; omega
      rw [gvDrain_congr fs m s _ hcall]
      obtain ⟨s', h1, h2, h3, h4, h5⟩ := hA pre _ (m + 1) hb (by simpa using hn)
      exact ⟨s', by simpa using h1, h2, h3, h4, h5⟩
  | cons g r ih =>
    intro s n harr hne hidx hfp hn
    cases n with
    | zero => simp at hn
    | succ m =>
      have hcall : gvNextInputGraph fs s = .ok (some g,
          { s with
            agfile := s.fn.getD "<stdin>".toList
            fp := .file r
            gidx := s.gidx + 1
            gvgs := s.gvgs ++ [{ g := g, input_filename := s.fn, graph_index := s.gidx }] }) := by
        unfold gvNextInputGraph
        exact nextLoop_file_cons fs _ s g r hfp
      obtain ⟨s', h1, h2, h3, h4, h5⟩ := ih
        { s with
          agfile := s.fn.getD "<stdin>".toList
          fp := .file r
          gidx := s.gidx + 1
          gvgs := s.gvgs ++ [{ g := g, input_filename := s.fn, graph_index := s.gidx }] }
        m harr hne hidx rfl (by simp at hn ⊢; omega)
      refine ⟨s', ?_, h2, h3, h4, h5⟩
      simp only [gvDrain, hcall, Res.bind, h1]
      simp

/-- The run of the caller's loop between two sources, up to the end of the
sequence: no source is selected any more, the index into the list is one past the
terminating `NULL`, and every file that was opened is still open. -/
theorem drain_between_end (fs : FileSystem) (suf : List CStr) :
    ∀ (pre : List CStr) (s : Stream) (n : Nat), Between s pre suf →
      (expectedGraphs fs suf).length + 1 ≤ n →
      ∃ s', gvDrain fs n s = .ok (expectedGraphs fs suf, s') ∧
        s'.fp = .null ∧ s'.fidx = s.fidx + suf.length + 1 ∧
        s'.input_filenames = s.input_filenames ∧
        s'.open_files = s.open_files ++ suf.filter (fun q => (fs q).isSome) := by
  induction suf with
  | nil =>
    intro pre s n hb hn
    cases n with
    | zero => simp at hn
    | succ m =>
      refine ⟨{ s with fn := none, fidx := s.fidx + 1 }, ?_, hb.2.2.2.1, rfl, rfl, by simp⟩
      simp only [gvDrain, gvNextInputGraph_between fs pre [] s hb, nextFrom, Res.bind,
        expectedGraphs]
  | cons p t ih =>
    intro pre s n hb hn
    obtain ⟨harr, hne, hidx, hfp, hg⟩ := hb
    have harr' : s.input_filenames = List.map some ((pre ++ [p]) ++ t) ++ [none] := by
      simpa using harr
    have hne' : (pre ++ [p]) ++ t ≠ [] := by simp
    have hcall := gvNextInputGraph_between fs pre (p :: t) s ⟨harr, hne, hidx, hfp, hg⟩
    cases n with
    | zero => simp at hn
    | succ m =>
      cases hfs : fs p with
      | none =>
        have hb1 : Between { s with
            fn := some p
            fidx := s.fidx + 1
            fp := .null
            cant_open := s.cant_open ++ [p]
            graphviz_errors := s.graphviz_errors + 1 } (pre ++ [p]) t :=
          ⟨harr', hne', by simp [hidx], rfl, hg⟩
        have hcall1 := gvNextInputGraph_between fs (pre ++ [p]) t _ hb1
        have hEq : gvNextInputGraph fs s = gvNextInputGraph fs _ :=
          hcall.trans (by simp only [nextFrom, hfs]; exact hcall1.symm)
        rw [gvDrain_congr fs m s _ hEq]
        have hG : expectedGraphs fs (p :: t) = expectedGraphs fs t := by
          simp [expectedGraphs, fileGraphs, hfs]
        obtain ⟨s', h1, h2, h3, h4, h5⟩ :=
          ih (pre ++ [p]) _ (m + 1) hb1 (by rw [hG] at hn; exact hn)
        refine ⟨s', by rw [hG]; exact h1, h2, ?_, h4, ?_⟩
        · rw [h3]; simp only [List.length_cons]; omega
        · rw [h5]; simp [List.filter_cons, hfs]
      | some gs =>
        cases gs with
        | nil =>
          have hb1 : Between { s with
              fn := some p
              fidx := s.fidx + 1
              fp := .null
              open_files := s.open_files ++ [p]
              agfile := p
              gidx := 0 } (pre ++ [p]) t :=
            ⟨harr', hne', by simp [hidx], rfl, rfl⟩
          have hcall1 := gvNextInputGraph_between fs (pre ++ [p]) t _ hb1
          have hEq : gvNextInputGraph fs s = gvNextInputGraph fs _ :=
            hcall.trans (by simp only [nextFrom, hfs]; exact hcall1.symm)
          rw [gvDrain_congr fs m s _ hEq]
          have hG : expectedGraphs fs (p :: t) = expectedGraphs fs t := by
            simp [expectedGraphs, fileGraphs, hfs]
          obtain ⟨s', h1, h2, h3, h4, h5⟩ :=
            ih (pre ++ [p]) _ (m + 1) hb1 (by rw [hG] at hn; exact hn)
          refine ⟨s', by rw [hG]; exact h1, h2, ?_, h4, ?_⟩
          · rw [h3]; simp only [List.length_cons]; omega
          · rw [h5]; simp [List.filter_cons, hfs]
        | cons g r =>
          have hG : expectedGraphs fs (p :: t) = g :: (r ++ expectedGraphs fs t) := by
            simp [expectedGraphs, fileGraphs, hfs]
          obtain ⟨s', h1, h2, h3, h4, h5⟩ := drain_reading_end fs t ih (pre ++ [p]) r
            { s with
              fn := some p
              fidx := s.fidx + 1
              fp := .file r
              open_files := s.open_files ++ [p]
              agfile := p
              gidx := s.gidx + 1
              gvgs := s.gvgs ++ [{ g := g, input_filename := some p, graph_index := s.gidx }] }
            m harr' hne' (by simp [hidx]) rfl
            (by rw [hG] at hn; simp at hn ⊢; omega)
          refine ⟨s', ?_, h2, ?_, h4, ?_⟩
          · simp only [gvDrain, hcall, nextFrom, hfs, Res.bind, h1, hG]
          · rw [h3]; simp only [List.length_cons]; omega
          · rw [h5]; simp [List.filter_cons, hfs]
/-- A run of the caller's loop as a sequence of calls: its graphs, then the end of
the sequence. -/
theorem gvDrain_calls (fs : FileSystem) :
    ∀ (n : Nat) (s s' : Stream) (gs : List graph_t), gvDrain fs n s = .ok (gs, s') →
      gvCalls fs (gs.length + 1) s = .ok (gs.map some ++ [none], s') := by
  intro n
  induction n with
  | zero => intro s s' gs h; simp [gvDrain] at h
  | succ m ih =>
    intro s s' gs h
    simp only [gvDrain] at h
    cases hc : gvNextInputGraph fs s with
    | ok r =>
      rw [hc] at h
      simp only [Res.bind] at h
      obtain ⟨r1, r2⟩ := r
      cases r1 with
      | none =>
        simp only [Res.ok.injEq, Prod.mk.injEq] at h
        obtain ⟨rfl, rfl⟩ := h
        simp [gvCalls, hc, Res.bind]
      | some g =>
        simp only at h
        cases hd : gvDrain fs m r2 with
        | ok t =>
          rw [hd] at h
          simp only [Res.bind, Res.ok.injEq, Prod.mk.injEq] at h
          obtain ⟨rfl, rfl⟩ := h
          have := ih r2 t.2 t.1 (by rw [hd])
          show gvCalls fs ((t.1.length + 1) + 1) s = _
          rw [gvCalls, hc]
          simp only [Res.bind, this]
          simp
        | fault => rw [hd] at h; simp [Res.bind] at h
        | timeout => rw [hd] at h; simp [Res.bind] at h
    | fault => rw [hc] at h; simp [Res.bind] at h
    | timeout => rw [hc] at h; simp [Res.bind] at h

/-- One more call after a sequence of calls. -/
theorem gvCalls_snoc (fs : FileSystem) :
    ∀ (m : Nat) (s : Stream),
      gvCalls fs (m + 1) s =
        (gvCalls fs m s).bind fun t =>
          (gvNextInputGraph fs t.2).bind fun r => .ok (t.1 ++ [r.1], r.2) := by
  intro m
  induction m with
  | zero =>
    intro s
    simp only [gvCalls, Res.bind]
    cases gvNextInputGraph fs s <;> simp
  | succ k ih =>
    intro s
    rw [gvCalls]
    cases hc : gvNextInputGraph fs s with
    | ok r =>
      simp only [Res.bind]
      rw [ih r.2]
      conv_rhs => rw [gvCalls]
      simp only [hc, Res.bind]
      cases gvCalls fs k r.2 with
      | ok t =>
        simp only
        cases gvNextInputGraph fs t.2 <;> simp
      | fault => rfl
      | timeout => rfl
    | fault =>
      conv_rhs => rw [gvCalls]
      simp only [hc, Res.bind]
    | timeout =>
      conv_rhs => rw [gvCalls]
      simp only [hc, Res.bind]

/-- A call made when no source is selected and the index into a non-empty list is
past the terminating `NULL` reads outside the array. -/
theorem gvNextInputGraph_past_end (fs : FileSystem) (s : Stream) (p : CStr) (t : List CStr)
    (harr : s.input_filenames = (p :: t).map some ++ [none]) (hfp : s.fp = .null)
    (hidx : s.fidx = (p :: t).length + 1) :
    gvNextInputGraph fs s = .fault := by
  have h0 : s.input_filenames[0]? = some (some p) := by rw [harr]; simp
  have hlen : s.input_filenames.length = (p :: t).length + 1 := by rw [harr]; simp
  have hout : s.input_filenames[s.fidx]? = none := by
    rw [List.getElem?_eq_none]; omega
  unfold gvNextInputGraph nextLoop selectSource
  simp only [hfp, ↓reduceIte, h0]
  unfold openLoop
  simp only [hout, Res.bind]
/-- C22: for every non-empty input-file list and every file system, when the
caller's loop has received the end of the sequence, every file that
`gvNextInputGraph` opened is still open: the stream gives up a source by `fp = NULL`
and never closes it.  With the files `a` and `b` of one graph each, both are open
when the second graph is returned, and both are still open after the end of the
sequence. -/
theorem gvNextInputGraph_leaves_open (fs : FileSystem) (p : CStr) (t : List CStr)
    (stdin_graphs : List graph_t) (gvgs : List GVG) (errors : Nat) :
    (∃ s', gvDrain fs ((expectedGraphs fs (p :: t)).length + 1)
        (Stream.init (p :: t) stdin_graphs gvgs errors) =
          .ok (expectedGraphs fs (p :: t), s') ∧
      s'.fp = .null ∧
      s'.open_files = (p :: t).filter (fun q => (fs q).isSome)) ∧
    ((gvCalls twoFiles 2 (Stream.init (mkArgv ["a", "b"]) [] [] 0)).toOption.map
        fun r => (r.1, r.2.fp, r.2.open_files)) =
      some ([some (namedGraph "g0"), some (namedGraph "g1")], FilePtr.file [],
        ["a".toList, "b".toList]) ∧
    ((gvDrain twoFiles 3 (Stream.init (mkArgv ["a", "b"]) [] [] 0)).toOption.map
        fun r => (r.1, r.2.fp, r.2.open_files)) =
      some ([namedGraph "g0", namedGraph "g1"], FilePtr.null, ["a".toList, "b".toList]) := by
  refine ⟨?_, by decide!, by decide!⟩
  obtain ⟨s', h1, h2, -, -, h5⟩ := drain_between_end fs (p :: t) []
    (Stream.init (p :: t) stdin_graphs gvgs errors)
    ((expectedGraphs fs (p :: t)).length + 1)
    ⟨by simp [Stream.init], by simp, rfl, rfl, rfl⟩ (le_refl _)
  exact ⟨s', h1, h2, by rw [h5]; simp [Stream.init]⟩

/-- C23: for every non-empty input-file list of `n` paths and every file system:
the calls of `gvNextInputGraph` up to and including the one that returns the end of
the sequence read the list inside the array, and leave the index into the list at
`n + 1`, one past the terminating `NULL`; the call after that reads the array at
index `n + 1`, outside its `n + 1` entries.  With the list `[a, b]`: three calls
yield two graphs and the end of the sequence, the fourth call reads outside the
array; with the list `[a]` and no file, the second call does. -/
theorem gvNextInputGraph_reads_past_end (fs : FileSystem) (p : CStr) (t : List CStr)
    (stdin_graphs : List graph_t) (gvgs : List GVG) (errors : Nat) :
    (∃ s', gvCalls fs ((expectedGraphs fs (p :: t)).length + 1)
        (Stream.init (p :: t) stdin_graphs gvgs errors) =
          .ok ((expectedGraphs fs (p :: t)).map some ++ [none], s') ∧
      s'.fidx = (p :: t).length + 1 ∧
      s'.input_filenames.length = (p :: t).length + 1) ∧
    gvCalls fs ((expectedGraphs fs (p :: t)).length + 2)
      (Stream.init (p :: t) stdin_graphs gvgs errors) = .fault ∧
    (gvCalls twoFiles 3 (Stream.init (mkArgv ["a", "b"]) [] [] 0)).toOption.map Prod.fst =
      some [some (namedGraph "g0"), some (namedGraph "g1"), none] ∧
    gvCalls twoFiles 4 (Stream.init (mkArgv ["a", "b"]) [] [] 0) = .fault ∧
    (gvCalls noFiles 1 (Stream.init (mkArgv ["a"]) [] [] 0)).toOption.map Prod.fst =
      some [none] ∧
    gvCalls noFiles 2 (Stream.init (mkArgv ["a"]) [] [] 0) = .fault := by
  obtain ⟨s', h1, h2, h3, h4, -⟩ := drain_between_end fs (p :: t) []
    (Stream.init (p :: t) stdin_graphs gvgs errors)
    ((expectedGraphs fs (p :: t)).length + 1)
    ⟨by simp [Stream.init], by simp, rfl, rfl, rfl⟩ (le_refl _)
  have hc := gvDrain_calls fs _ _ _ _ h1
  have harr : s'.input_filenames = (p :: t).map some ++ [none] := by
    rw [h4]; simp [Stream.init]
  have hidx : s'.fidx = (p :: t).length + 1 := by
    rw [h3]; simp [Stream.init]
  refine ⟨⟨s', hc, hidx, by rw [harr]; simp⟩, ?_, by decide!, by decide!, by decide!,
    by decide!⟩
  have e : (expectedGraphs fs (p :: t)).length + 2 =
      ((expectedGraphs fs (p :: t)).length + 1) + 1 := rfl
  rw [e, gvCalls_snoc, hc]
  simp only [Res.bind, gvNextInputGraph_past_end fs s' p t harr h2 hidx]
/-! ## Theorems: the array of input files stays in bounds -/

/-- Reading every index of a list gives the list. -/
theorem map_getElem?_range (l : List CStr) :
    (List.range l.length).map (fun i => l[i]?) = l.map some := by
  apply List.ext_getElem?
  intro i
  by_cases hi : i < l.length
  · simp [List.getElem?_map, List.getElem?_range hi, List.getElem?_eq_getElem hi]
  · have h1 : l.length ≤ i := by omega
    simp [List.getElem?_map, List.getElem?_eq_none h1, h1]

/-- The counting pass counts the tokens after the command name that do not start
with the flag marker. -/
theorem countFiles_eq (argc : Nat) (argv : List CStr) (hlen : argv.length = argc) :
    countFiles argc argv = (nonFlagTokens (argv.drop 1)).length := by
  subst hlen
  have hf : (fun (i : Nat) => match argv[i]? with
      | some tok => !(CStr.startsWith tok '-')
      | none => false) =
      (fun o : Option CStr => match o with
        | some tok => !(CStr.startsWith tok '-')
        | none => false) ∘ (fun (i : Nat) => argv[i]?) := rfl
  unfold countFiles nonFlagTokens
  rw [hf, ← List.countP_map, List.map_drop, map_getElem?_range, ← List.map_drop,
    List.countP_map, List.countP_eq_length_filter]
  rfl

/-- Dropping tokens does not add tokens without the flag marker. -/
theorem nonFlagTokens_drop_le (toks : List CStr) (k : Nat) :
    (nonFlagTokens (toks.drop k)).length ≤ (nonFlagTokens toks).length :=
  ((List.drop_sublist k toks).filter _).length_le

/-- The input files are among the tokens without the flag marker. -/
theorem fileTokens_length_le : ∀ (n : Nat) (toks : List CStr), toks.length ≤ n →
    (fileTokens toks).length ≤ (nonFlagTokens toks).length := by
  intro n
  induction n with
  | zero =>
    intro toks hl
    have : toks = [] := List.length_eq_zero.mp (by omega)
    subst this
    simp [fileTokens]
  | succ n ih =>
    intro toks hl
    cases toks with
    | nil => simp [fileTokens]
    | cons tok rest =>
      cases rest with
      | nil =>
        by_cases hs : CStr.startsWith tok '-' = true
        · simp [fileTokens, nonFlagTokens, hs]
        · simp [fileTokens, nonFlagTokens, hs]
      | cons next r =>
        have l1 : (next :: r).length ≤ n := by
          simp only [List.length_cons] at hl ⊢; omega
        have l2 : r.length ≤ n := by
          simp only [List.length_cons] at hl ⊢; omega
        have e1 := ih (next :: r) l1
        have e2 := ih r l2
        have e3 : (nonFlagTokens r).length ≤ (nonFlagTokens (next :: r)).length :=
          nonFlagTokens_drop_le (next :: r) 1
        by_cases hs : CStr.startsWith tok '-' = true
        · have e4 : nonFlagTokens (tok :: next :: r) = nonFlagTokens (next :: r) := by
            simp [nonFlagTokens, hs]
          rw [e4]
          simp only [fileTokens, hs, ↓reduceIte]
          split_ifs
          · omega
          · exact e1
        · have hs' : CStr.startsWith tok '-' = false := by simpa using hs
          have e4 : nonFlagTokens (tok :: next :: r) = tok :: nonFlagTokens (next :: r) := by
            simp [nonFlagTokens, hs']
          rw [e4]
          simp only [fileTokens, hs', Bool.false_eq_true, ↓reduceIte, List.length_cons]
          omega
/-- The scanning loop never writes outside the array of input files when the array
has a free slot more than there are tokens without the flag marker left. -/
theorem args_loop_no_fault (env : Env) (argc : Nat) :
    ∀ (fuel : Nat) (l : Loop), l.st.argv.length = argc →
      (nonFlagTokens (l.st.argv.drop l.i)).length + l.nfiles < l.st.input_filenames.length →
      args_loop env argc fuel l ≠ .fault := by
  intro fuel
  induction fuel with
  | zero =>
    intro l _ _
    rw [args_loop]
    split_ifs <;> simp
  | succ f ih =>
    intro l hlen hinv
    by_cases hi : l.i < argc
    · rw [args_loop_succ env argc f l hi]
      have hi' : l.i < l.st.argv.length := by omega
      have htok : l.st.argv[l.i]? = some (l.st.argv[l.i]) := List.getElem?_eq_getElem hi'
      generalize l.st.argv[l.i] = tok at htok
      have hdrop : l.st.argv.drop l.i = tok :: l.st.argv.drop (l.i + 1) := by
        rw [List.drop_eq_getElem_cons hi']
        congr 1
        have := List.getElem?_eq_getElem hi'
        rw [htok] at this
        exact (Option.some.inj this).symm
      by_cases hs : CStr.startsWith tok '-' = true
      · cases hstep : args_token env argc l with
        | ret l1 =>
          simp only [Outcome.bind]
          obtain ⟨s1, s2, s3, s4, s5, -, -⟩ :=
            args_token_flag_ret env argc l l1 tok htok hs hstep
          have hge : l.i ≤ l1.i := by
            rw [s5]; split_ifs
            · exact getFlagOpt_idx_ge argc l.st.argv l.i
            · exact le_refl _
          have hdr : l1.st.argv.drop (l1.i + 1) = (l.st.argv.drop l.i).drop (l1.i + 1 - l.i) := by
            have h := congrArg (List.drop (l1.i - l.i)) s4
            have e1 : l1.i - l.i + (l.i + 1) = l1.i + 1 := by omega
            have e2 : l.i + 1 + (l1.i - l.i) = l1.i + 1 := by omega
            have e3 : l1.i + 1 - l.i + l.i = l1.i + 1 := by omega
            have e4 : l.i + (l1.i + 1 - l.i) = l1.i + 1 := by omega
            simp only [List.drop_drop, e1, e2, e3, e4] at h ⊢
            exact h
          apply ih
          · simpa using s3.trans hlen
          · have := nonFlagTokens_drop_le (l.st.argv.drop l.i) (l1.i + 1 - l.i)
            simp only [hdr, s1, s2]
            omega
        | exit c st => simp [Outcome.bind]
        | abort st => simp [Outcome.bind]
        | fault =>
          rcases args_token_flag env argc l tok htok hs with ⟨l', h, -⟩ | ⟨c, st, h⟩ <;>
            rw [h] at hstep <;> simp at hstep
        | timeout => simp [Outcome.bind]
      · have hs' : CStr.startsWith tok '-' = false := by simpa using hs
        have hN : nonFlagTokens (l.st.argv.drop l.i) =
            tok :: nonFlagTokens (l.st.argv.drop (l.i + 1)) := by
          rw [hdrop]; simp [nonFlagTokens, hs']
        rw [hN] at hinv
        simp only [List.length_cons] at hinv
        have hb : l.nfiles < l.st.input_filenames.length := by omega
        have htk : args_token env argc l =
            .ret { l with
                nfiles := l.nfiles + 1
                st := { l.st with
                  input_filenames := l.st.input_filenames.set l.nfiles (some tok) } } := by
          unfold args_token
          simp only [htok, hs', Bool.false_eq_true, ↓reduceIte, hb]
        rw [htk]
        simp only [Outcome.bind]
        apply ih
        · simpa using hlen
        · simp only [List.length_set]
          omega
    · rw [args_loop]
      simp [hi]

/-- The parts of `dotneato_args_initialize`: it exits at once (the flag `config`),
or it runs the scanning loop from the token after the command name, with an array of
one slot more than the counting pass counted, and then selects the default format
if none is selected. -/
theorem dotneato_args_initialize_eq (env : Env) (argc : Nat) (st : State) :
    (∃ s, dotneato_args_initialize env argc st = .exit 0 s) ∨
    ∃ st5 : State, st5.argv.length = st.argv.length ∧ st5.argv.drop 1 = st.argv.drop 1 ∧
      st5.input_filenames = List.replicate (countFiles argc st5.argv + 1) none ∧
      dotneato_args_initialize env argc st =
        (args_loop env argc argc { i := 1, nfiles := 0, st := st5 }).bind fun l =>
          if l.st.output_langname.isNone then
            if (gvjobs_output_langname env "dot".toList l.st).1 then
              .ret (gvjobs_output_langname env "dot".toList l.st).2
            else .abort (gvjobs_output_langname env "dot".toList l.st).2
          else .ret l.st := by
  unfold dotneato_args_initialize
  lift_lets
  intro b st1 st2 r st3 st4 nfiles st5
  have h2a : st2.argv = st.argv.set 0 b.2 := by
    simp only [st2, st1]
    split_ifs <;> rfl
  have h3a : st3.argv = st.argv.set 0 b.2 := by
    simp only [st3, r]
    split_ifs
    · rw [(gvlayout_select_frame env _ _).1, (gvlayout_select_frame env _ _).1]
      exact h2a
    · rw [(gvlayout_select_frame env _ _).1]
      exact h2a
  have hA : st5.argv = st.argv.set 0 b.2 := h3a
  by_cases hcfg : st2.config = true
  · left
    rw [if_pos hcfg]
    exact ⟨_, rfl⟩
  · right
    rw [if_neg hcfg]
    refine ⟨st5, ?_, ?_, rfl, rfl⟩
    · rw [hA, List.length_set]
    · rw [hA, List.drop_set_of_lt _ _ (by omega)]
/-- C24: when `argc` is the number of tokens, `dotneato_args_initialize` never writes
outside the array of input files (the embedding never ends in `fault`, which is the
outcome of a write at an index that is not below the allocated size), whether it
returns or terminates the process; and when it returns, the array, allocated with
one slot more than the counting pass counted, holds the input files followed by at
least one `NULL`: the number of paths written does not exceed the number counted. -/
theorem input_files_in_bounds (env : Env) (argc : Nat) (st : State)
    (hlen : st.argv.length = argc) :
    dotneato_args_initialize env argc st ≠ .fault ∧
    (( dotneato_args_initialize env argc st).returned = true →
      ∃ st' k, dotneato_args_initialize env argc st = .ret st' ∧
        st'.input_filenames =
          (fileTokens (st.argv.drop 1)).map some ++ List.replicate (k + 1) none ∧
        (fileTokens (st.argv.drop 1)).length + k = (nonFlagTokens (st.argv.drop 1)).length ∧
        st'.input_filenames.length = (nonFlagTokens (st.argv.drop 1)).length + 1) := by
  rcases dotneato_args_initialize_eq env argc st with ⟨s, h⟩ | ⟨st5, a1, a2, a3, h⟩
  · rw [h]
    exact ⟨by simp, fun hr => by simp [Outcome.returned] at hr⟩
  · rw [h]
    have hcount : countFiles argc st5.argv = (nonFlagTokens (st.argv.drop 1)).length := by
      rw [countFiles_eq argc st5.argv (a1.trans hlen), a2]
    have hnf := args_loop_no_fault env argc argc { i := 1, nfiles := 0, st := st5 }
      (a1.trans hlen) (by
        show (nonFlagTokens (st5.argv.drop 1)).length + 0 < st5.input_filenames.length
        rw [a3, List.length_replicate, hcount, a2]; omega)
    have hle := fileTokens_length_le _ (st.argv.drop 1) (le_refl _)
    cases hloop : args_loop env argc argc { i := 1, nfiles := 0, st := st5 } with
    | ret l =>
      obtain ⟨t1, -, -, -⟩ := args_loop_ret env argc argc _ l []
        (countFiles argc st5.argv + 1) (a1.trans hlen) (by rw [a3]; rfl) rfl hloop
      have t1' : l.st.input_filenames = (fileTokens (st.argv.drop 1)).map some ++
          List.replicate ((nonFlagTokens (st.argv.drop 1)).length -
            (fileTokens (st.argv.drop 1)).length + 1) none := by
        have e : countFiles argc st5.argv + 1 - (fileTokens (st.argv.drop 1)).length =
            (nonFlagTokens (st.argv.drop 1)).length -
              (fileTokens (st.argv.drop 1)).length + 1 := by
          rw [hcount]; omega
        rw [← e, ← a2]
        exact t1
      have hlen' : l.st.input_filenames.length =
          (nonFlagTokens (st.argv.drop 1)).length + 1 := by
        rw [t1']
        simp only [List.length_append, List.length_map, List.length_replicate]
        omega
      simp only [Outcome.bind]
      by_cases hn : l.st.output_langname.isNone = true
      · rw [if_pos hn]
        by_cases hv : (gvjobs_output_langname env "dot".toList l.st).1 = true
        · rw [if_pos hv]
          exact ⟨by simp, fun _ => ⟨_, _, rfl, t1', by omega, hlen'⟩⟩
        · rw [if_neg hv]
          exact ⟨by simp, fun hr => by simp [Outcome.returned] at hr⟩
      · rw [if_neg hn]
        exact ⟨by simp, fun _ => ⟨_, _, rfl, t1', by omega, hlen'⟩⟩
    | exit c s => exact ⟨by simp [Outcome.bind], fun hr => by simp [Outcome.bind, Outcome.returned] at hr⟩
    | abort s => exact ⟨by simp [Outcome.bind], fun hr => by simp [Outcome.bind, Outcome.returned] at hr⟩
    | fault => exact absurd hloop hnf
    | timeout => exact ⟨by simp [Outcome.bind], fun hr => by simp [Outcome.bind, Outcome.returned] at hr⟩

/-- C24 (witness): `dot -T ps in.gv -o out.ps -x`: the counting pass counts `ps`,
`in.gv` and `out.ps`, the array has four slots, one path is written and three `NULL`
slots follow it. -/
theorem input_files_in_bounds_witness :
    runArgs ["dot", "-T", "ps", "in.gv", "-o", "out.ps", "-x"] .AGWARN ≠ .fault ∧
    ∃ st' k, runArgs ["dot", "-T", "ps", "in.gv", "-o", "out.ps", "-x"] .AGWARN = .ret st' ∧
      st'.input_filenames = ["in.gv".toList].map some ++ List.replicate (k + 1) none ∧
      1 + k = 3 ∧ st'.input_filenames.length = 3 + 1 := by
  have h := input_files_in_bounds libc 7
    (State.init (mkArgv ["dot", "-T", "ps", "in.gv", "-o", "out.ps", "-x"]) .AGWARN 1)
    (by decide)
  exact ⟨h.1, h.2 (by decide!)⟩
/-! ## Theorems: `charsetToStr` -/

/-- C25: for different character set codes and each code `c` among UTF-8, Latin-1
and Big5, `charsetToStr` returns its canonical string without a diagnostic, and on
every graph whose `charset` attribute is that string `findCharset` returns `c`
without a warning. -/
theorem charset_round_trip (K : Consts) (c : Int) (g : graph_t)
    (hK : K.CharsetOK)
    (hc : c = K.CHAR_UTF8 ∨ c = K.CHAR_LATIN1 ∨ c = K.CHAR_BIG5)
    (hg : agget g "charset".toList = some (charsetToStr K c).1) :
    findCharset K g = (c, []) ∧ (charsetToStr K c).2 = [] ∧
      (charsetToStr K c).1 =
        (if c = K.CHAR_UTF8 then "UTF-8".toList
         else if c = K.CHAR_LATIN1 then "ISO-8859-1".toList else "BIG-5".toList) := by
  obtain ⟨h1, h2, h3⟩ := hK
  rcases hc with hc | hc | hc
  · subst hc
    have e : charsetToStr K K.CHAR_UTF8 = ("UTF-8".toList, []) := by
      simp [charsetToStr]
    rw [e] at hg
    refine ⟨?_, by rw [e], by rw [e]; simp⟩
    simp only [findCharset, late_nnstring, hg]
    simp [strcasecmp]
  · subst hc
    have e : charsetToStr K K.CHAR_LATIN1 = ("ISO-8859-1".toList, []) := by
      simp [charsetToStr, Ne.symm h1]
    rw [e] at hg
    refine ⟨?_, by rw [e], by rw [e]; simp [Ne.symm h1]⟩
    simp only [findCharset, late_nnstring, hg]
    simp [strcasecmp]
  · subst hc
    have e : charsetToStr K K.CHAR_BIG5 = ("BIG-5".toList, []) := by
      simp [charsetToStr, Ne.symm h2, Ne.symm h3]
    rw [e] at hg
    refine ⟨?_, by rw [e], by rw [e]; simp [Ne.symm h2, Ne.symm h3]⟩
    simp only [findCharset, late_nnstring, hg]
    simp [strcasecmp]

/-- C25 (witness): the three codes of the example constants, each on the graph
whose `charset` is the canonical string of the code. -/
theorem charset_round_trip_witness :
    findCharset stdConsts (graphOf [("charset", "UTF-8")]) = (stdConsts.CHAR_UTF8, []) ∧
    findCharset stdConsts (graphOf [("charset", "ISO-8859-1")]) = (stdConsts.CHAR_LATIN1, []) ∧
    findCharset stdConsts (graphOf [("charset", "BIG-5")]) = (stdConsts.CHAR_BIG5, []) :=
  ⟨(charset_round_trip stdConsts stdConsts.CHAR_UTF8 (graphOf [("charset", "UTF-8")])
      (by decide) (by decide) (by decide)).1,
   (charset_round_trip stdConsts stdConsts.CHAR_LATIN1 (graphOf [("charset", "ISO-8859-1")])
      (by decide) (by decide) (by decide)).1,
   (charset_round_trip stdConsts stdConsts.CHAR_BIG5 (graphOf [("charset", "BIG-5")])
      (by decide) (by decide) (by decide)).1⟩
end Graphviz
